import Mathlib

/-!
# show-folio: the post mutation handlers of `pages/index.js`

A shallow embedding of `handleAddPost`, `handleUpdatePost`, `handleDeletePost`,
`fetchPosts` and `handleFormSubmit` (`src/pages/index.js`) and of `handleSubmit` of
the form (`src/components/Modal.js`).  The record store (Firestore) and the blob store (Firebase
Storage) are external: every call to them is logged in a trace together with its
outcome, and an environment decides which calls reject.  A small model of the
record store replays the logged writes.
-/

namespace ShowFolio

/-! ## Data model -/

/-- Browser `File` object; the handlers read only its `name`. -/
structure FileObj where
  name : String
deriving DecidableEq, Repr

/-- Firestore timestamp value: the `serverTimestamp()` sentinel or a resolved time. -/
inductive Timestamp where
  | serverTimestamp
  | millis (ms : Int)
deriving DecidableEq, Repr

/-- Post object as held in the `posts` state and in the "posts" collection.
`none` stands for a field that is `null` or absent; `isExternalLink` holds the
truthiness of the stored flag. -/
structure Post where
  id : String
  title : String
  description : String
  imageUrl : Option String
  imageFileName : Option String
  fileUrl : Option String
  contentFileName : Option String
  isExternalLink : Bool
  createdAt : Option Timestamp
  updatedAt : Option Timestamp
  order : Int
deriving DecidableEq, Repr

/-- Object literal `newPostData` of `handleAddPost` (index.js 177-188). -/
structure NewPostData where
  title : String
  description : String
  imageUrl : String
  imageFileName : String
  fileUrl : String
  contentFileName : Option String
  isExternalLink : Bool
  createdAt : Timestamp
  order : Int
deriving DecidableEq, Repr

/-- Field object passed to `batch.update`: `none` means the key is not in the object.
For `contentFileName`, `some none` is the key written with `null`. -/
structure PostFields where
  title : Option String
  description : Option String
  updatedAt : Option Timestamp
  imageUrl : Option String
  imageFileName : Option String
  fileUrl : Option String
  contentFileName : Option (Option String)
  isExternalLink : Option Bool
  order : Option Int
deriving DecidableEq, Repr

/-- The object with no keys. -/
def PostFields.empty : PostFields :=
  { title := none, description := none, updatedAt := none, imageUrl := none,
    imageFileName := none, fileUrl := none, contentFileName := none,
    isExternalLink := none, order := none }

/-- Object spread `{ ...p, ...f }`: keys present in `f` override those of `p`.
Also what an `update` of a stored document with `f` does. -/
def Post.merge (p : Post) (f : PostFields) : Post :=
  { id := p.id
    title := f.title.getD p.title
    description := f.description.getD p.description
    imageUrl := match f.imageUrl with
      | some u => some u
      | none => p.imageUrl
    imageFileName := match f.imageFileName with
      | some n => some n
      | none => p.imageFileName
    fileUrl := match f.fileUrl with
      | some u => some u
      | none => p.fileUrl
    contentFileName := f.contentFileName.getD p.contentFileName
    isExternalLink := f.isExternalLink.getD p.isExternalLink
    createdAt := p.createdAt
    updatedAt := match f.updatedAt with
      | some t => some t
      | none => p.updatedAt
    order := f.order.getD p.order }

/-- Document created by `addDoc` with the id the store assigned. -/
def NewPostData.toPost (d : NewPostData) (id : String) : Post :=
  { id := id, title := d.title, description := d.description,
    imageUrl := some d.imageUrl, imageFileName := some d.imageFileName,
    fileUrl := some d.fileUrl, contentFileName := d.contentFileName,
    isExternalLink := d.isExternalLink, createdAt := some d.createdAt,
    updatedAt := none, order := d.order }

/-- Argument object of `handleFormSubmit` / `handleAddPost` / `handleUpdatePost`,
without `existingPost`, which is passed separately. -/
structure FormData where
  title : String
  description : String
  imageFile : Option FileObj
  targetOrder : Option Int
  contentType : String
  contentFile : Option FileObj
  externalUrl : Option String
deriving DecidableEq, Repr

/-- JavaScript truthiness of a string-or-null value. -/
def jsTruthy : Option String → Bool
  | some s => decide (s ≠ "")
  | none => false

/-- Document of the query snapshot read by `fetchPosts`: `docData.id` and the fields
of `docData.data()`. The stored `order` may be missing (`none`); a stored order is
taken to be an integer. -/
structure DocSnapshot where
  id : String
  title : String
  description : String
  imageUrl : Option String
  imageFileName : Option String
  fileUrl : Option String
  contentFileName : Option String
  isExternalLink : Bool
  createdAt : Option Timestamp
  updatedAt : Option Timestamp
  order : Option Int
deriving DecidableEq, Repr

/-- A JavaScript number as the state `currentOrder` of the form holds it: `NaN`, an
infinity, or an integer-valued double (the state is only ever set from `parseInt`
results minus one, from post orders and from `totalPosts`). `lead` is the first
digit of the exponent form ("d.ddde+XX") in which `String` prints a double of
magnitude 10^21 or more; it is not read for a smaller one. -/
inductive JsNumber where
  | nan
  | infinity (negative : Bool)
  | integer (value : Int) (lead : Nat)
deriving DecidableEq, Repr

/-- State and props of the form read by `handleSubmit` of `components/Modal.js`.
`currentOrder` is a number state. `isEditMode` is `!!initialPostData`. -/
structure ModalState where
  title : String
  description : String
  imageFile : Option FileObj
  currentOrder : JsNumber
  contentType : String
  externalUrl : String
  contentFile : Option FileObj
  initialPostData : Option Post
  totalPosts : Nat
deriving DecidableEq, Repr

/-- What `handleSubmit` of the form does up to its call of `onSubmit`: it shows an
alert and returns, or it calls `onSubmit` with an argument object (the form fields
and `existingPost`). -/
inductive SubmitResult where
  | alerted (msg : String)
  | submitted (payload : FormData) (existingPost : Option Post)
deriving DecidableEq, Repr

/-! ## External calls, trace and environment -/

/-- Calls into the blob store and the record store. -/
inductive Call where
  | uploadBytes (path : String) (file : FileObj)
  | getDownloadURL (path : String)
  | deleteObject (path : String)
  | addDoc (data : NewPostData)
  | deleteDoc (id : String)
  | batchCommit (writes : List (String × PostFields))
  | getDocs
deriving DecidableEq, Repr

/-- Whether a call goes to the record store (as opposed to the blob store). -/
def Call.isStore : Call → Bool
  | .addDoc _ => true
  | .deleteDoc _ => true
  | .batchCommit _ => true
  | .getDocs => true
  | _ => false

/-- One issued call and whether it resolved (`true`) or rejected (`false`). -/
structure Event where
  call : Call
  ok : Bool
deriving DecidableEq, Repr

/-- The world outside the page: the clock, which external call rejects (by its
position in the sequence of issued calls, with the error message), the URL the
blob store resolves a path to, and the id the record store gives a new document. -/
structure Env where
  now : Nat → Nat
  fails : Nat → Option String
  urlOf : String → String
  newId : String

/-- What a handler leaves behind: the issued calls, the React state written with
`setPosts` and `setIsLoading`, and the `alert` messages. -/
structure St where
  trace : List Event
  posts : List Post
  isLoading : Bool
  alerts : List String
deriving DecidableEq, Repr

/-- An async function body: it reads the environment, threads the state and either
resolves with a value or rejects with an error message. The state survives a
rejection. -/
def Eff (α : Type) : Type := Env → St → Except String α × St

namespace Eff

/-- Resolve with a value. -/
def ret {α : Type} (a : α) : Eff α := fun _ st => (Except.ok a, st)

/-- Sequencing with `await`: a rejection skips the continuation. -/
def andThen {α β : Type} (m : Eff α) (f : α → Eff β) : Eff β := fun env st =>
  match m env st with
  | (Except.ok a, st1) => f a env st1
  | (Except.error e, st1) => (Except.error e, st1)

/-- The statement `throw new Error(msg)`. -/
def reject {α : Type} (msg : String) : Eff α := fun _ st => (Except.error msg, st)

/-- The block `try { m } catch (e) { h e }`. -/
def tryCatch {α : Type} (m : Eff α) (h : String → Eff α) : Eff α := fun env st =>
  match m env st with
  | (Except.ok a, st1) => (Except.ok a, st1)
  | (Except.error e, st1) => h e env st1

/-- The block `try { m } finally { fin }` with a `fin` that does not throw. -/
def tryFinally {α : Type} (m : Eff α) (fin : St → St) : Eff α := fun env st =>
  match m env st with
  | (r, st1) => (r, fin st1)

end Eff

instance : Monad Eff where
  pure := Eff.ret
  bind := Eff.andThen

/-- Issue an external call: it is logged, and rejects when the environment says so. -/
def perform (c : Call) : Eff Unit := fun env st =>
  match env.fails st.trace.length with
  | none => (Except.ok (), { st with trace := st.trace ++ [⟨c, true⟩] })
  | some e => (Except.error e, { st with trace := st.trace ++ [⟨c, false⟩] })

/-- The expression `Date.now()`. -/
def dateNow : Eff Nat := fun env st => (Except.ok (env.now st.trace.length), st)

/-- The call `uploadBytes(ref(storage, path), file)`. -/
def uploadBytes (path : String) (file : FileObj) : Eff Unit :=
  perform (Call.uploadBytes path file)

/-- The call `getDownloadURL(ref(storage, path))`. -/
def getDownloadURL (path : String) : Eff String :=
  Eff.andThen (perform (Call.getDownloadURL path)) (fun _ env st => (Except.ok (env.urlOf path), st))

/-- The call `deleteObject(ref(storage, path))`. -/
def deleteObject (path : String) : Eff Unit :=
  perform (Call.deleteObject path)

/-- The call `addDoc(collection(db, "posts"), data)`. -/
def addDoc (data : NewPostData) : Eff Unit :=
  perform (Call.addDoc data)

/-- The call `deleteDoc(doc(db, "posts", id))`. -/
def deleteDoc (id : String) : Eff Unit :=
  perform (Call.deleteDoc id)

/-- The call `batch.commit()` of a batch holding `writes`, in the order of the
`batch.update` calls. -/
def batchCommit (writes : List (String × PostFields)) : Eff Unit :=
  perform (Call.batchCommit writes)

/-- The call `alert(msg)`. -/
def alert (msg : String) : Eff Unit := fun _ st =>
  (Except.ok (), { st with alerts := st.alerts ++ [msg] })

/-- The call `setIsLoading(b)`. -/
def setIsLoading (b : Bool) : Eff Unit := fun _ st =>
  (Except.ok (), { st with isLoading := b })

/-- The call `setPosts(ps)`. -/
def setPosts (ps : List Post) : Eff Unit := fun _ st =>
  (Except.ok (), { st with posts := ps })

/-- The block `try { await deleteObject(...) } catch (e) { console.warn(...) }`. -/
def tryDeleteObject (path : String) : Eff Unit :=
  Eff.tryCatch (deleteObject path) (fun _ => Eff.ret ())

/-- Result of running a handler. -/
structure Outcome where
  result : Except String Unit
  st : St

/-- State at the start of a handler call in a render whose `posts` state is `posts`. -/
def St.init (posts : List Post) : St :=
  { trace := [], posts := posts, isLoading := false, alerts := [] }

/-- Run a handler in a render whose `posts` state is `posts`, from an empty trace. -/
def run (env : Env) (posts : List Post) (m : Eff Unit) : Outcome :=
  { result := (m env (St.init posts)).1, st := (m env (St.init posts)).2 }

/-! ## The handlers of `pages/index.js` -/

/-- The call `xs.splice(start, 0, item)` with the index normalisation of
`Array.prototype.splice`: a negative start counts from the end, and the start is
clamped to `[0, xs.length]`. -/
def jsSplice {α : Type} (xs : List α) (start : Int) (item : α) : List α :=
  let len : Int := xs.length
  let actualStart : Int := if start < 0 then max (len + start) 0 else min start len
  xs.take actualStart.toNat ++ item :: xs.drop actualStart.toNat

/-- The content block of `handleAddPost` (index.js 150-175): returns
`postFileUrl`, `postContentFileName` and `postIsExternalLink`. -/
def addContent (a : FormData) : Eff (String × Option String × Bool) :=
  if a.contentType = "file" then
    match a.contentFile with
    | none => Eff.reject "Content file is required when type is 'file'."
    | some contentFile => do
      let postContentFileName := toString (← dateNow) ++ "-" ++ contentFile.name
      uploadBytes ("post_files/" ++ postContentFileName) contentFile
      let postFileUrl ← getDownloadURL ("post_files/" ++ postContentFileName)
      pure (postFileUrl, some postContentFileName, false)
  else if a.contentType = "url" then
    if jsTruthy a.externalUrl then
      pure (a.externalUrl.getD "", none, true)
    else Eff.reject "External URL is required when type is 'url'."
  else Eff.reject "Invalid content type specified."

/-- The function `handleAddPost` (index.js 131-193). -/
def handleAddPost (posts : List Post) (a : FormData) : Eff Unit :=
  match a.imageFile with
  | none => Eff.reject "Image file is required for a new post."
  | some imageFile => do
    let imageFileName := toString (← dateNow) ++ "-" ++ imageFile.name
    uploadBytes ("post_images/" ++ imageFileName) imageFile
    let imageUrl ← getDownloadURL ("post_images/" ++ imageFileName)
    let content ← addContent a
    let newPostData : NewPostData :=
      { title := a.title
        description := a.description
        imageUrl := imageUrl
        imageFileName := imageFileName
        fileUrl := content.1
        contentFileName := content.2.1
        isExternalLink := content.2.2
        createdAt := Timestamp.serverTimestamp
        order := (posts.length : Int) }
    addDoc newPostData
    alert "Post added successfully!"

/-- The block "Handle Card Image File Update" of `handleUpdatePost`
(index.js 213-234): returns `updatedPostFields` after it. -/
def updateImage (a : FormData) (existingPost : Post) (updatedPostFields : PostFields) :
    Eff PostFields :=
  match a.imageFile with
  | none => pure updatedPostFields
  | some imageFile => do
    if jsTruthy existingPost.imageFileName then
      tryDeleteObject ("post_images/" ++ existingPost.imageFileName.getD "")
    else if jsTruthy existingPost.imageUrl then
      tryDeleteObject (existingPost.imageUrl.getD "")
    let newImageFileName := toString (← dateNow) ++ "-" ++ imageFile.name
    uploadBytes ("post_images/" ++ newImageFileName) imageFile
    let imageUrl ← getDownloadURL ("post_images/" ++ newImageFileName)
    pure { updatedPostFields with
      imageUrl := some imageUrl, imageFileName := some newImageFileName }

/-- The deletion of the previous content blob, the same in both branches of the
content update (index.js 240-261 and 275-302). -/
def deleteOldContent (existingPost : Post) : Eff Unit :=
  if jsTruthy existingPost.contentFileName ∧ ¬ existingPost.isExternalLink then
    tryDeleteObject ("post_files/" ++ existingPost.contentFileName.getD "")
  else if jsTruthy existingPost.fileUrl ∧ ¬ existingPost.isExternalLink
      ∧ ¬ jsTruthy existingPost.contentFileName then
    tryDeleteObject (existingPost.fileUrl.getD "")
  else pure ()

/-- The block "Handle Content Link Update (File or URL)" of `handleUpdatePost`
(index.js 236-309): returns `updatedPostFields` after it. -/
def updateContent (a : FormData) (existingPost : Post) (updatedPostFields : PostFields) :
    Eff PostFields :=
  match (if a.contentType = "file" then a.contentFile else none) with
  | some contentFile => do
    deleteOldContent existingPost
    let newContentFileName := toString (← dateNow) ++ "-" ++ contentFile.name
    uploadBytes ("post_files/" ++ newContentFileName) contentFile
    let fileUrl ← getDownloadURL ("post_files/" ++ newContentFileName)
    pure { updatedPostFields with
      fileUrl := some fileUrl, contentFileName := some (some newContentFileName),
      isExternalLink := some false }
  | none =>
    if a.contentType = "url" ∧ jsTruthy a.externalUrl then do
      deleteOldContent existingPost
      pure { updatedPostFields with
        fileUrl := some (a.externalUrl.getD ""), isExternalLink := some true,
        contentFileName := some none }
    else pure updatedPostFields

/-- The `batch.update` calls of `handleUpdatePost` (index.js 311-340), in order. -/
def batchUpdates (posts : List Post) (existingPost : Post) (updatedPostFields : PostFields)
    (targetOrder : Option Int) : List (String × PostFields) :=
  let currentPosts := posts
  let oldOrder := existingPost.order
  match targetOrder with
  | none => [(existingPost.id, updatedPostFields)]
  | some target =>
    if target ≠ oldOrder then
      let updatedPostFields := { updatedPostFields with order := some target }
      let itemsToReorder := currentPosts.filter (fun p => decide (p.id ≠ existingPost.id))
      let movedItem := existingPost.merge updatedPostFields
      let itemsToReorder := jsSplice itemsToReorder target movedItem
      itemsToReorder.enum.filterMap (fun ip =>
        let originalPostData := currentPosts.find? (fun p => decide (p.id = ip.2.id))
        if some (ip.1 : Int) ≠ originalPostData.map Post.order ∨ ip.2.id = existingPost.id then
          if ip.2.id = existingPost.id then
            some (ip.2.id, { updatedPostFields with order := some (ip.1 : Int) })
          else
            some (ip.2.id, { PostFields.empty with order := some (ip.1 : Int) })
        else none)
    else
      (existingPost.id, updatedPostFields) ::
        (if updatedPostFields.order = none then
          [(existingPost.id, { PostFields.empty with order := some target })]
        else
          [(existingPost.id, { updatedPostFields with order := some target })])

/-- The function `handleUpdatePost` (index.js 195-343). -/
def handleUpdatePost (posts : List Post) (a : FormData) (existingPost : Post) : Eff Unit := do
  let updatedPostFields : PostFields :=
    { PostFields.empty with
      title := some a.title, description := some a.description,
      updatedAt := some Timestamp.serverTimestamp }
  let updatedPostFields ← updateImage a existingPost updatedPostFields
  let updatedPostFields ← updateContent a existingPost updatedPostFields
  batchCommit (batchUpdates posts existingPost updatedPostFields a.targetOrder)
  alert "Post updated successfully!"

/-- The list `remainingPosts` of `handleDeletePost` (index.js 397-400); the sort
is stable. -/
def remainingPosts (posts : List Post) (postToDelete : Post) : List Post :=
  (((posts.filter (fun p => decide (p.id ≠ postToDelete.id))).insertionSort
      (fun a b => a.order ≤ b.order)).enum).map
    (fun ip => { ip.2 with order := (ip.1 : Int) })

/-- The `batch.update` calls of `handleDeletePost` (index.js 402-407), in order. -/
def deleteUpdates (posts : List Post) (remaining : List Post) : List (String × PostFields) :=
  remaining.filterMap (fun p =>
    match posts.find? (fun op => decide (op.id = p.id)) with
    | some originalPost =>
      if originalPost.order ≠ p.order then
        some (p.id, { PostFields.empty with order := some p.order })
      else none
    | none => none)

/-- The function `handleDeletePost` (index.js 345-416). -/
def handleDeletePost (posts : List Post) (postToDelete : Option Post) : Eff Unit :=
  match postToDelete with
  | none => pure ()
  | some postToDelete =>
    if postToDelete.id = "" then pure ()
    else do
      setIsLoading true
      Eff.tryFinally
        (Eff.tryCatch
          (do
            deleteDoc postToDelete.id
            if jsTruthy postToDelete.imageFileName then
              tryDeleteObject ("post_images/" ++ postToDelete.imageFileName.getD "")
            else if jsTruthy postToDelete.imageUrl then
              tryDeleteObject (postToDelete.imageUrl.getD "")
            if ¬ postToDelete.isExternalLink ∧ jsTruthy postToDelete.contentFileName then
              tryDeleteObject ("post_files/" ++ postToDelete.contentFileName.getD "")
            else if ¬ postToDelete.isExternalLink ∧ jsTruthy postToDelete.fileUrl
                ∧ ¬ jsTruthy postToDelete.contentFileName then
              tryDeleteObject (postToDelete.fileUrl.getD "")
            batchCommit (deleteUpdates posts (remainingPosts posts postToDelete))
            setPosts (remainingPosts posts postToDelete)
            alert ("Post \"" ++ postToDelete.title ++ "\" deleted successfully!"))
          (fun _ => pure ()))
        (fun st => { st with isLoading := false })

/-- The object built for a snapshot document in `fetchPosts` (index.js 44-51):
`{ id: docData.id, ...data, order: data.order !== undefined ? data.order : index }`. -/
def DocSnapshot.toPost (d : DocSnapshot) (index : Nat) : Post :=
  { id := d.id, title := d.title, description := d.description, imageUrl := d.imageUrl,
    imageFileName := d.imageFileName, fileUrl := d.fileUrl,
    contentFileName := d.contentFileName, isExternalLink := d.isExternalLink,
    createdAt := d.createdAt, updatedAt := d.updatedAt,
    order := match d.order with
      | some o => o
      | none => (index : Int) }

/-- The expression `p.createdAt?.toMillis() ?? 0`. -/
def createdAtMillis (p : Post) : Int :=
  match p.createdAt with
  | some (Timestamp.millis ms) => ms
  | _ => 0

/-- The comparator of the sort in `fetchPosts` (index.js 56-58): the difference of
the orders, or, when that is 0, the difference of the creation times. The orders
are defined here, so `?? Infinity` never applies. -/
def compareLoaded (a b : Post) : Int :=
  if a.order - b.order ≠ 0 then a.order - b.order
  else createdAtMillis a - createdAtMillis b

/-- The list `postList` that `fetchPosts` passes to `setPosts` (index.js 44-62), for
the documents of the snapshot in query order; the sort is stable. -/
def loadedPostList (docs : List DocSnapshot) : List Post :=
  let postList := docs.enum.map (fun ip => ip.2.toPost ip.1)
  let needsResequencing := postList.enum.any (fun ip => decide (ip.2.order ≠ (ip.1 : Int)))
  if needsResequencing = true ∧ postList.length > 0 then
    ((postList.insertionSort (fun a b => compareLoaded a b ≤ 0)).enum).map
      (fun ip => { ip.2 with order := (ip.1 : Int) })
  else postList

/-- The call `getDocs(q)` of the query on "posts" ordered by `order` ascending, then
`createdAt` descending. -/
def getDocs : Eff Unit :=
  perform Call.getDocs

/-- The function `fetchPosts` (index.js 34-69); `snapshot` holds the documents the
query resolves with. -/
def fetchPosts (snapshot : List DocSnapshot) : Eff Unit := do
  setIsLoading true
  Eff.tryFinally
    (Eff.tryCatch
      (do
        getDocs
        setPosts (loadedPostList snapshot))
      (fun _ => alert "Could not fetch posts."))
    (fun st => { st with isLoading := false })

/-- The function `handleFormSubmit` (index.js 87-129); `snapshot` holds the documents
the query of the reload resolves with. -/
def handleFormSubmit (posts : List Post) (snapshot : List DocSnapshot) (a : FormData)
    (existingPost : Option Post) : Eff Unit := do
  setIsLoading true
  Eff.tryFinally
    (Eff.tryCatch
      (do
        match existingPost with
        | some e =>
          if e.id ≠ "" then handleUpdatePost posts a e
          else handleAddPost posts a
        | none => handleAddPost posts a
        fetchPosts snapshot)
      (fun error => Eff.reject error))
    (fun st => { st with isLoading := false })

/-- The expression `parseInt(currentOrder, 10)` on the number state of the form;
`none` is `NaN`. The argument is converted to a string first. "NaN", "Infinity" and
"-Infinity" start with no digit. A double of magnitude below 10^21 prints in plain
decimal and parses back to itself. A larger one prints in exponent form, of which
`parseInt` reads the digits before the "." or the "e": the leading digit, with the
sign. -/
def parseIntOrder : JsNumber → Option Int
  | JsNumber.nan => none
  | JsNumber.infinity _ => none
  | JsNumber.integer value lead =>
    if value.natAbs < 10 ^ 21 then some value
    else if value < 0 then some (-(lead : Int))
    else some (lead : Int)

/-- The characters `String.prototype.trim` strips: the white space and the line
terminators of ECMAScript (tab, line feed, vertical tab, form feed, carriage return,
space, no-break space, the Unicode space separators, the line and paragraph
separators, and the byte order mark). -/
def isJsWhiteSpace (c : Char) : Bool :=
  c.toNat = 0x09 || c.toNat = 0x0A || c.toNat = 0x0B || c.toNat = 0x0C || c.toNat = 0x0D ||
  c.toNat = 0x20 || c.toNat = 0xA0 || c.toNat = 0x1680 ||
  (0x2000 ≤ c.toNat && c.toNat ≤ 0x200A) || c.toNat = 0x2028 || c.toNat = 0x2029 ||
  c.toNat = 0x202F || c.toNat = 0x205F || c.toNat = 0x3000 || c.toNat = 0xFEFF

/-- The call `s.trim()`. -/
def jsTrim (s : String) : String :=
  String.mk (((s.data.dropWhile isJsWhiteSpace).reverse.dropWhile isJsWhiteSpace).reverse)

/-- The order validation and the call of `onSubmit` in `handleSubmit`
(Modal.js 114-134). -/
def Modal.submitOrder (m : ModalState) : SubmitResult :=
  let isEditMode := m.initialPostData.isSome
  let maxOrder : Int := if isEditMode then (m.totalPosts : Int) - 1 else (m.totalPosts : Int)
  match parseIntOrder m.currentOrder with
  | none => SubmitResult.alerted
      ("Position must be between 1 and " ++ toString (maxOrder + 1) ++ ".")
  | some targetOrder =>
    if targetOrder < 0 ∨ targetOrder > maxOrder then
      SubmitResult.alerted
        ("Position must be between 1 and " ++ toString (maxOrder + 1) ++ ".")
    else
      SubmitResult.submitted
        { title := m.title
          description := m.description
          imageFile := m.imageFile
          targetOrder := some targetOrder
          contentType := m.contentType
          contentFile := if m.contentType = "file" then m.contentFile else none
          externalUrl := if m.contentType = "url" then some (jsTrim m.externalUrl) else none }
        (if isEditMode then m.initialPostData else none)

/-- The function `handleSubmit` of `components/Modal.js` (86-148) up to its call of
`onSubmit`; `isValidURL u` says whether `new URL(u)` succeeds. -/
def Modal.handleSubmit (isValidURL : String → Bool) (m : ModalState) : SubmitResult :=
  let isEditMode := m.initialPostData.isSome
  if m.title = "" ∨ m.description = "" then
    SubmitResult.alerted "Title and description are required."
  else if m.contentType = "file" then
    if ¬ isEditMode ∧ m.contentFile = none then
      SubmitResult.alerted "Please select a content file."
    else Modal.submitOrder m
  else if m.contentType = "url" then
    if jsTrim m.externalUrl = "" then
      SubmitResult.alerted "Please enter an external URL."
    else if isValidURL m.externalUrl = false then
      SubmitResult.alerted "Please enter a valid external URL (e.g., https://example.com)."
    else Modal.submitOrder m
  else Modal.submitOrder m

/-! ## The record store -/

/-- Effect of one resolved call on the "posts" collection. Blob-store calls leave it
alone; a committed batch applies its updates in order, each to the document with
that id. An update addressed to an id that is not in the collection changes nothing
here: whether such a commit resolves is the choice of the environment. The
`serverTimestamp()` sentinel is kept as written. -/
def applyCall (env : Env) (store : List Post) : Call → List Post
  | Call.addDoc data => store ++ [data.toPost env.newId]
  | Call.deleteDoc id => store.filter (fun p => decide (p.id ≠ id))
  | Call.batchCommit writes =>
    writes.foldl (fun s w => s.map (fun p => if p.id = w.1 then p.merge w.2 else p)) store
  | _ => store

/-- The collection after the calls of a trace; a rejected call changes nothing. -/
def applyTrace (env : Env) (store : List Post) (trace : List Event) : List Post :=
  trace.foldl (fun s ev => if ev.ok then applyCall env s ev.call else s) store

/-- Dense ordering: the order values of the n documents are exactly 0, ..., n-1. -/
def Dense (store : List Post) : Prop :=
  (store.map Post.order).Perm ((List.range store.length).map Int.ofNat)

/-- The in-memory list is sequenced: the post at index i has order i. -/
def Sequenced (posts : List Post) : Prop :=
  posts.map Post.order = (List.range posts.length).map Int.ofNat

instance (posts : List Post) : Decidable (Sequenced posts) := by
  unfold Sequenced; infer_instance

instance (store : List Post) : Decidable (Dense store) := by
  unfold Dense; infer_instance

/-- A handler run succeeded: it resolved, and no record-store call it issued rejected
(`handleDeletePost` resolves also when a store call rejects, see its `catch`). -/
def Outcome.Successful (o : Outcome) : Prop :=
  o.result = Except.ok () ∧ ∀ ev ∈ o.st.trace, ev.call.isStore = true → ev.ok = true

/-- Decidable equality of handler results. -/
def decEqResult : (r1 r2 : Except String Unit) → Decidable (r1 = r2)
  | Except.ok _, Except.ok _ => isTrue rfl
  | Except.error e1, Except.error e2 =>
    if h : e1 = e2 then isTrue (by rw [h]) else isFalse (fun h1 => h (by cases h1; rfl))
  | Except.ok _, Except.error _ => isFalse (fun h => by cases h)
  | Except.error _, Except.ok _ => isFalse (fun h => by cases h)

instance : DecidableEq (Except String Unit) := decEqResult

instance (o : Outcome) : Decidable o.Successful := by
  unfold Outcome.Successful; infer_instance

/-- The (id, newOrder) pairs of a batch: its updates that write the `order` field. -/
def orderPlan (writes : List (String × PostFields)) : List (String × Int) :=
  writes.filterMap (fun w => w.2.order.map (fun o => (w.1, o)))

/-- The batches committed in a trace. -/
def committedBatches (trace : List Event) : List (List (String × PostFields)) :=
  trace.filterMap (fun ev =>
    match ev.call with
    | Call.batchCommit writes => if ev.ok then some writes else none
    | _ => none)

/-- The paths of the `deleteObject` calls issued in a trace, resolved or not. -/
def blobDeletes (trace : List Event) : List String :=
  trace.filterMap (fun ev =>
    match ev.call with
    | Call.deleteObject path => some path
    | _ => none)

/-- The record-store events of a trace. -/
def storeCalls (trace : List Event) : List Event :=
  trace.filter (fun ev => ev.call.isStore)

/-! ## Predicates of the statements -/

/-- The run of `m` from `st` ends in a result and state satisfying `Q`. -/
def Eff.Sat {α : Type} (m : Eff α) (env : Env) (st : St)
    (Q : Except String α → St → Prop) : Prop :=
  Q (m env st).1 (m env st).2

/-- The state `st` with the events `new` appended to its trace. -/
def St.extend (st : St) (new : List Event) : St := { st with trace := st.trace ++ new }

/-- The run of `m` from `st` appends events `new` to the trace, changes nothing else,
and the events and the result satisfy `P`. -/
def Eff.Emits {α : Type} (m : Eff α) (env : Env) (st : St)
    (P : List Event → Except String α → Prop) : Prop :=
  ∃ new, (m env st).2 = st.extend new ∧ P new (m env st).1

/-- Blob paths of the card image of a post, as `handleUpdatePost` and
`handleDeletePost` address it. -/
def imagePaths (e : Post) : List String :=
  if jsTruthy e.imageFileName then ["post_images/" ++ e.imageFileName.getD ""]
  else if jsTruthy e.imageUrl then [e.imageUrl.getD ""] else []

/-- All events are blob-store calls. -/
def BlobOnly (new : List Event) : Prop := ∀ ev ∈ new, ev.call.isStore = false

instance (new : List Event) : Decidable (BlobOnly new) := by
  unfold BlobOnly; infer_instance

/-- Content fields of an update that cannot break content exclusivity: the update
leaves the link alone, or writes a file link, or writes an external link together
with a null `contentFileName`. -/
def PostFields.ContentSafe (f : PostFields) : Prop :=
  (f.isExternalLink = none ∧ f.contentFileName = none) ∨ f.isExternalLink = some false ∨
    (f.isExternalLink = some true ∧ f.contentFileName = some none)

instance (f : PostFields) : Decidable f.ContentSafe := by
  unfold PostFields.ContentSafe; infer_instance

/-- Content exclusivity of a post: not both an external link and a content file
name. -/
def Post.Exclusive (p : Post) : Prop :=
  ¬ (p.isExternalLink = true ∧ p.contentFileName ≠ none)

instance (p : Post) : Decidable p.Exclusive := by
  unfold Post.Exclusive; infer_instance

/-- Content of a form that `handleAddPost` rejects after the image upload. -/
def FormData.contentInvalid (a : FormData) : Prop :=
  (a.contentType = "file" ∧ a.contentFile = none) ∨
  (a.contentType = "url" ∧ jsTruthy a.externalUrl = false) ∨
  (a.contentType ≠ "file" ∧ a.contentType ≠ "url")

instance (a : FormData) : Decidable a.contentInvalid := by
  unfold FormData.contentInvalid; infer_instance

/-- The document `p` after the updates of a batch addressed to it, in order. -/
def applyWrites (writes : List (String × PostFields)) (p : Post) : Post :=
  writes.foldl (fun q w => if q.id = w.1 then q.merge w.2 else q) p

/-- A write generator that addresses the enumerated post and writes its index as order. -/
def WritesIndex (g : Nat × Post → Option (String × PostFields)) : Prop :=
  ∀ ip w, g ip = some w → w.1 = ip.2.id ∧ w.2.order = some (ip.1 : Int)

/-- The write generator of `handleDeletePost` at an enumerated remaining post. -/
def deleteWrite (posts : List Post) (ip : Nat × Post) : Option (String × PostFields) :=
  match posts.find? (fun op => decide (op.id = ip.2.id)) with
  | some originalPost =>
    if originalPost.order ≠ (ip.1 : Int) then
      some (ip.2.id, { PostFields.empty with order := some (ip.1 : Int) })
    else none
  | none => none

/-- The write generator of the reorder loop of `handleUpdatePost` at an enumerated
item: `fields` is `updatedPostFields` with the target order set. -/
def moveWrite (posts : List Post) (e : Post) (fields : PostFields) (ip : Nat × Post) :
    Option (String × PostFields) :=
  if some (ip.1 : Int) ≠ (posts.find? (fun p => decide (p.id = ip.2.id))).map Post.order ∨
      ip.2.id = e.id then
    if ip.2.id = e.id then
      some (ip.2.id, { fields with order := some (ip.1 : Int) })
    else
      some (ip.2.id, { PostFields.empty with order := some (ip.1 : Int) })
  else none

/-- Largest target position `handleSubmit` accepts: `totalPosts - 1` in edit mode,
`totalPosts` in add mode. -/
def ModalState.maxOrder (m : ModalState) : Int :=
  if m.initialPostData.isSome then (m.totalPosts : Int) - 1 else (m.totalPosts : Int)

/-- The content of the form passes the content checks of `handleSubmit`. -/
def ModalState.contentValid (isValidURL : String → Bool) (m : ModalState) : Prop :=
  (m.contentType = "file" → m.initialPostData.isSome = true ∨ m.contentFile ≠ none) ∧
  (m.contentType = "url" → jsTrim m.externalUrl ≠ "" ∧ isValidURL m.externalUrl = true)

instance (isValidURL : String → Bool) (m : ModalState) :
    Decidable (m.contentValid isValidURL) := by
  unfold ModalState.contentValid; infer_instance

/-- The call is a blob upload or the lookup of a download URL. -/
def Call.isUpload : Call → Bool
  | Call.uploadBytes _ _ => true
  | Call.getDownloadURL _ => true
  | _ => false

/-- Shape of the events `new` a handler appended from trace length `base`, with its
result `r`: an event that rejected did so with the error the result carries, and
after a rejected upload or URL lookup no record-store call was made (no `addDoc`, no
reload query). -/
def AbortsOnFailure (env : Env) (base : Nat) (new : List Event) (r : Except String Unit) :
    Prop :=
  (∀ kev ∈ new.enum, kev.2.ok = false →
    ∃ err, env.fails (base + kev.1) = some err ∧ r = Except.error err) ∧
  ((∃ ev ∈ new, ev.ok = false ∧ ev.call.isUpload = true) →
    ∀ ev ∈ new, ev.call.isStore = false)

/-- The call deletes a blob. -/
def Call.isDelete : Call → Bool
  | Call.deleteObject _ => true
  | _ => false

/-- The event with the outcome of a blob deletion replaced by "resolved". -/
def Event.healed (ev : Event) : Event :=
  if ev.call.isDelete then { ev with ok := true } else ev

/-- Two states that differ at most in the outcomes of the blob deletions logged. -/
def St.Sim (s1 s2 : St) : Prop :=
  s1.trace.map Event.healed = s2.trace.map Event.healed ∧ s1.posts = s2.posts ∧
    s1.isLoading = s2.isLoading ∧ s1.alerts = s2.alerts

/-- The two environments give the same outcome to every call of `trace` from
position `base` on that is not a blob deletion. -/
def Env.AgreeOn (env1 env2 : Env) (tr : List Event) (base : Nat) : Prop :=
  ∀ k ev, tr[k]? = some ev → base ≤ k → ev.call.isDelete = false →
    env1.fails k = env2.fails k

/-- The computation only appends to the trace, and each event it logs carries the
outcome the environment gives to its position. -/
def Eff.Logs {α : Type} (m : Eff α) : Prop :=
  ∀ env st, ∃ new, (m env st).2.trace = st.trace ++ new ∧
    ∀ k ev, new[k]? = some ev → ev.ok = (env.fails (st.trace.length + k)).isNone

/-- Runs of the computation in two environments with the same clock and URLs, from
states that differ at most in outcomes of blob deletions, give the same result and
end in such states, provided the environments agree on the calls of the run that are
not blob deletions. -/
def Eff.Lock {α : Type} (m : Eff α) (env1 env2 : Env) : Prop :=
  m.Logs ∧
  (env1.now = env2.now → env1.urlOf = env2.urlOf → ∀ s1 s2, s1.Sim s2 →
    env1.AgreeOn env2 (m env1 s1).2.trace s1.trace.length →
    (m env1 s1).1 = (m env2 s2).1 ∧ (m env1 s1).2.Sim (m env2 s2).2)

/-- The upload and URL-lookup events of a trace. -/
def uploads (tr : List Event) : List Event :=
  tr.filter (fun ev => ev.call.isUpload)

/-- The posts of a snapshot as mapped by `fetchPosts`, before any resequencing. -/
def snapshotPosts (docs : List DocSnapshot) : List Post :=
  docs.enum.map (fun ip => ip.2.toPost ip.1)

/-- The form supplies new content, as `handleUpdatePost` tests it (index.js 237 and
271): a content file under type "file", or a non-empty URL under type "url". -/
def FormData.newContent (a : FormData) : Prop :=
  (a.contentType = "file" ∧ a.contentFile ≠ none) ∨
  (a.contentType = "url" ∧ jsTruthy a.externalUrl = true)

instance (a : FormData) : Decidable a.newContent := by
  unfold FormData.newContent; infer_instance

/-- The field object has all three content keys. -/
def PostFields.contentAll (f : PostFields) : Prop :=
  f.fileUrl ≠ none ∧ f.contentFileName ≠ none ∧ f.isExternalLink ≠ none

instance (f : PostFields) : Decidable f.contentAll := by
  unfold PostFields.contentAll; infer_instance

/-- The field object has none of the three content keys. -/
def PostFields.contentNone (f : PostFields) : Prop :=
  f.fileUrl = none ∧ f.contentFileName = none ∧ f.isExternalLink = none

instance (f : PostFields) : Decidable f.contentNone := by
  unfold PostFields.contentNone; infer_instance

/-- The content link of a stored post. -/
def Post.contentLink (p : Post) : Option String × Option String × Bool :=
  (p.fileUrl, p.contentFileName, p.isExternalLink)

/-! ## Sample inputs -/

/-- Sample post with the given id and order. -/
def samplePost (id : String) (order : Int) : Post :=
  { id := id, title := id, description := "about " ++ id,
    imageUrl := some ("https://blob/post_images/" ++ id ++ ".png"),
    imageFileName := some (id ++ ".png"),
    fileUrl := some ("https://blob/post_files/" ++ id ++ ".pdf"),
    contentFileName := some (id ++ ".pdf"), isExternalLink := false,
    createdAt := some (Timestamp.millis 1), updatedAt := none, order := order }

/-- Sample environment in which no external call rejects. -/
def sampleEnv : Env :=
  { now := fun _ => 1700000000000, fails := fun _ => none,
    urlOf := fun path => "https://blob/" ++ path, newId := "D" }

/-- Sample form: new image, new content file, target position 1. -/
def sampleForm : FormData :=
  { title := "t", description := "d", imageFile := some { name := "i.png" },
    targetOrder := some 1, contentType := "file", contentFile := some { name := "c.pdf" },
    externalUrl := none }

/-- Sample list [0:A, 1:B, 2:C]. -/
def samplePosts : List Post := [samplePost "A" 0, samplePost "B" 1, samplePost "C" 2]

/-- Sample external-link post: its content is a URL, its card image a stored file. -/
def sampleLinkPost : Post :=
  { id := "L", title := "link", description := "an external link",
    imageUrl := some "https://blob/post_images/L.png", imageFileName := some "L.png",
    fileUrl := some "https://example.com/page", contentFileName := none,
    isExternalLink := true, createdAt := some (Timestamp.millis 1), updatedAt := none,
    order := 0 }

/-- Sample form state: add mode over three posts, target position 3. -/
def sampleModal : ModalState :=
  { title := "t", description := "d", imageFile := some { name := "i.png" },
    currentOrder := JsNumber.integer 3 3, contentType := "file", externalUrl := "",
    contentFile := some { name := "c.pdf" }, initialPostData := none, totalPosts := 3 }

/-- Sample environment in which the first external call rejects. -/
def failFirstEnv : Env :=
  { now := fun _ => 1700000000000,
    fails := fun k => match k with
      | 0 => some "permission-denied"
      | _ => none,
    urlOf := fun path => "https://blob/" ++ path, newId := "D" }

/-- Sample environment in which the fourth external call rejects. -/
def failFourthEnv : Env :=
  { now := fun _ => 1700000000000,
    fails := fun k => match k with
      | 3 => some "unavailable"
      | _ => none,
    urlOf := fun path => "https://blob/" ++ path, newId := "D" }

/-- Sample environment in which the third external call rejects. -/
def failThirdEnv : Env :=
  { now := fun _ => 1700000000000,
    fails := fun k => match k with
      | 2 => some "storage/unauthorized"
      | _ => none,
    urlOf := fun path => "https://blob/" ++ path, newId := "D" }

/-- Sample document of a snapshot. -/
def sampleDoc (id : String) (order : Option Int) (createdAtMs : Int) : DocSnapshot :=
  { id := id, title := "t", description := "d", imageUrl := none, imageFileName := none,
    fileUrl := none, contentFileName := none, isExternalLink := false,
    createdAt := some (Timestamp.millis createdAtMs), updatedAt := none, order := order }

/-- Sample external-link post without image file name, whose image URL is also its
content URL. -/
def sampleAliasPost : Post :=
  { id := "M", title := "picture", description := "a linked picture",
    imageUrl := some "https://blob/pictures/m.png", imageFileName := none,
    fileUrl := some "https://blob/pictures/m.png", contentFileName := none,
    isExternalLink := true, createdAt := some (Timestamp.millis 1), updatedAt := none,
    order := 0 }

/-! ## Rules for handler runs -/

@[simp]
theorem St.extend_trace (st : St) (new : List Event) :
    (st.extend new).trace = st.trace ++ new := rfl

@[simp]
theorem St.extend_posts (st : St) (new : List Event) :
    (st.extend new).posts = st.posts := rfl

@[simp]
theorem St.extend_extend (st : St) (n1 n2 : List Event) :
    (st.extend n1).extend n2 = st.extend (n1 ++ n2) := by
  simp [St.extend]

@[simp]
theorem St.extend_isLoading (st : St) (new : List Event) :
    (st.extend new).isLoading = st.isLoading := rfl

@[simp]
theorem St.extend_alerts (st : St) (new : List Event) :
    (st.extend new).alerts = st.alerts := rfl

@[simp]
theorem St.init_trace (posts : List Post) : (St.init posts).trace = [] := rfl

@[simp]
theorem St.init_posts (posts : List Post) : (St.init posts).posts = posts := rfl

theorem St.extend_nil (st : St) : st.extend [] = st := by
  simp [St.extend]

theorem Eff.Sat.bind {α β : Type} {m : Eff α} {f : α → Eff β} {env : Env} {st : St}
    {R : Except String α → St → Prop} {Q : Except String β → St → Prop}
    (hm : m.Sat env st R)
    (hok : ∀ a st1, R (Except.ok a) st1 → (f a).Sat env st1 Q)
    (herr : ∀ e st1, R (Except.error e) st1 → Q (Except.error e) st1) :
    (m >>= f).Sat env st Q := by
  show Q (Eff.andThen m f env st).1 (Eff.andThen m f env st).2
  unfold Eff.Sat at hm hok
  simp only [Eff.andThen]
  rcases hrun : m env st with ⟨r, st1⟩
  rw [hrun] at hm
  cases r with
  | ok a => exact hok a st1 hm
  | error e => exact herr e st1 hm

theorem Eff.Sat.bind_emits {α β : Type} {m : Eff α} {f : α → Eff β} {env : Env} {st : St}
    {P : List Event → Except String α → Prop} {Q : Except String β → St → Prop}
    (hm : m.Emits env st P)
    (hok : ∀ new a, P new (Except.ok a) → (f a).Sat env (st.extend new) Q)
    (herr : ∀ new e, P new (Except.error e) → Q (Except.error e) (st.extend new)) :
    (m >>= f).Sat env st Q := by
  refine Eff.Sat.bind (show m.Sat env st (fun r st1 => ∃ new, st1 = st.extend new ∧ P new r) from hm)
    ?_ ?_
  · rintro a st1 ⟨new, rfl, h⟩
    exact hok new a h
  · rintro e st1 ⟨new, rfl, h⟩
    exact herr new e h

theorem Eff.Emits.of_sat {α : Type} {m : Eff α} {env : Env} {st : St}
    {P : List Event → Except String α → Prop}
    (h : m.Sat env st (fun r st1 => ∃ new, st1 = st.extend new ∧ P new r)) :
    m.Emits env st P := h

theorem Eff.Sat.ret {α : Type} {a : α} {env : Env} {st : St} {Q : Except String α → St → Prop}
    (h : Q (Except.ok a) st) : (pure a : Eff α).Sat env st Q := h

theorem Eff.Sat.reject {α : Type} {msg : String} {env : Env} {st : St}
    {Q : Except String α → St → Prop}
    (h : Q (Except.error msg) st) : (Eff.reject msg : Eff α).Sat env st Q := h

theorem Eff.Sat.perform {c : Call} {env : Env} {st : St} {Q : Except String Unit → St → Prop}
    (hok : Q (Except.ok ()) (st.extend [⟨c, true⟩]))
    (herr : ∀ e, Q (Except.error e) (st.extend [⟨c, false⟩])) :
    (ShowFolio.perform c).Sat env st Q := by
  unfold Eff.Sat ShowFolio.perform
  cases env.fails st.trace.length with
  | none => exact hok
  | some e => exact herr e

theorem Eff.Sat.perform_bind {β : Type} {c : Call} {f : Unit → Eff β} {env : Env} {st : St}
    {Q : Except String β → St → Prop}
    (hok : (f ()).Sat env (st.extend [⟨c, true⟩]) Q)
    (herr : ∀ e, Q (Except.error e) (st.extend [⟨c, false⟩])) :
    (ShowFolio.perform c >>= f).Sat env st Q := by
  show Q (Eff.andThen (ShowFolio.perform c) f env st).1 (Eff.andThen (ShowFolio.perform c) f env st).2
  simp only [Eff.andThen, ShowFolio.perform]
  cases env.fails st.trace.length with
  | none => exact hok
  | some e => exact herr e

theorem Eff.Sat.getDownloadURL_bind {β : Type} {path : String} {f : String → Eff β} {env : Env}
    {st : St} {Q : Except String β → St → Prop}
    (hok : (f (env.urlOf path)).Sat env (st.extend [⟨Call.getDownloadURL path, true⟩]) Q)
    (herr : ∀ e, Q (Except.error e) (st.extend [⟨Call.getDownloadURL path, false⟩])) :
    (getDownloadURL path >>= f).Sat env st Q := by
  show Q (Eff.andThen (getDownloadURL path) f env st).1 (Eff.andThen (getDownloadURL path) f env st).2
  simp only [Eff.andThen, getDownloadURL, ShowFolio.perform]
  cases env.fails st.trace.length with
  | none => exact hok
  | some e => exact herr e

theorem Eff.Sat.tryDeleteObject_bind {β : Type} {path : String} {f : Unit → Eff β} {env : Env}
    {st : St} {Q : Except String β → St → Prop}
    (hok : ∀ b, (f ()).Sat env (st.extend [⟨Call.deleteObject path, b⟩]) Q) :
    (tryDeleteObject path >>= f).Sat env st Q := by
  show Q (Eff.andThen (tryDeleteObject path) f env st).1
    (Eff.andThen (tryDeleteObject path) f env st).2
  simp only [Eff.andThen, tryDeleteObject, Eff.tryCatch, deleteObject, ShowFolio.perform]
  cases env.fails st.trace.length with
  | none => exact hok true
  | some e => exact hok false

theorem Eff.Sat.tryDeleteObject {path : String} {env : Env}
    {st : St} {Q : Except String Unit → St → Prop}
    (hok : ∀ b, Q (Except.ok ()) (st.extend [⟨Call.deleteObject path, b⟩])) :
    (ShowFolio.tryDeleteObject path).Sat env st Q := by
  show Q (ShowFolio.tryDeleteObject path env st).1 (ShowFolio.tryDeleteObject path env st).2
  simp only [ShowFolio.tryDeleteObject, Eff.tryCatch, deleteObject, ShowFolio.perform]
  cases env.fails st.trace.length with
  | none => exact hok true
  | some e => exact hok false

theorem Eff.Sat.dateNow_bind {β : Type} {f : Nat → Eff β} {env : Env}
    {st : St} {Q : Except String β → St → Prop}
    (h : (f (env.now st.trace.length)).Sat env st Q) :
    (dateNow >>= f).Sat env st Q := h

theorem Eff.Sat.dateNow_bind_any {β : Type} {f : Nat → Eff β} {env : Env}
    {st : St} {Q : Except String β → St → Prop}
    (h : ∀ n, (f n).Sat env st Q) :
    (dateNow >>= f).Sat env st Q := h _

theorem Eff.pure_bind_eq {α β : Type} (a : α) (f : α → Eff β) : (pure a >>= f) = f a := rfl

theorem Eff.Sat.alert {msg : String} {env : Env} {st : St} {Q : Except String Unit → St → Prop}
    (h : Q (Except.ok ()) { st with alerts := st.alerts ++ [msg] }) :
    (ShowFolio.alert msg).Sat env st Q := h

theorem Eff.Sat.alert_bind {β : Type} {msg : String} {f : Unit → Eff β} {env : Env} {st : St}
    {Q : Except String β → St → Prop}
    (h : (f ()).Sat env { st with alerts := st.alerts ++ [msg] } Q) :
    (ShowFolio.alert msg >>= f).Sat env st Q := h

theorem Eff.Sat.setIsLoading_bind {β : Type} {b : Bool} {f : Unit → Eff β} {env : Env} {st : St}
    {Q : Except String β → St → Prop}
    (h : (f ()).Sat env { st with isLoading := b } Q) :
    (setIsLoading b >>= f).Sat env st Q := h

theorem Eff.Sat.setPosts_bind {β : Type} {ps : List Post} {f : Unit → Eff β} {env : Env}
    {st : St} {Q : Except String β → St → Prop}
    (h : (f ()).Sat env { st with posts := ps } Q) :
    (setPosts ps >>= f).Sat env st Q := h

theorem Eff.Sat.tryFinally {α : Type} {m : Eff α} {fin : St → St} {env : Env} {st : St}
    {Q : Except String α → St → Prop}
    (h : m.Sat env st (fun r st1 => Q r (fin st1))) :
    (Eff.tryFinally m fin).Sat env st Q := h

theorem Eff.Sat.tryCatch {α : Type} {m : Eff α} {h : String → Eff α} {env : Env} {st : St}
    {Q : Except String α → St → Prop}
    (hm : m.Sat env st (fun r st1 =>
      (∀ a, r = Except.ok a → Q (Except.ok a) st1) ∧
      (∀ e, r = Except.error e → (h e).Sat env st1 Q))) :
    (Eff.tryCatch m h).Sat env st Q := by
  unfold Eff.Sat at hm
  show Q (Eff.tryCatch m h env st).1 (Eff.tryCatch m h env st).2
  simp only [Eff.tryCatch]
  rcases hrun : m env st with ⟨r, st1⟩
  rw [hrun] at hm
  cases r with
  | ok a => exact hm.1 a rfl
  | error e => exact hm.2 e rfl

theorem Eff.Sat.pure_iff {α : Type} (a : α) (env : Env) (st : St)
    (Q : Except String α → St → Prop) :
    (pure a : Eff α).Sat env st Q ↔ Q (Except.ok a) st := Iff.rfl

theorem Eff.Sat.ite {α : Type} {c : Prop} [Decidable c] {m1 m2 : Eff α} {env : Env} {st : St}
    {Q : Except String α → St → Prop}
    (h1 : c → m1.Sat env st Q) (h2 : ¬ c → m2.Sat env st Q) :
    (if c then m1 else m2).Sat env st Q := by
  split
  · exact h1 ‹_›
  · exact h2 ‹_›

theorem Eff.Sat.outcome {m : Eff Unit} {env : Env} {posts : List Post}
    {Q : Except String Unit → St → Prop}
    (h : m.Sat env (St.init posts) Q) :
    Q (run env posts m).result (run env posts m).st := h

theorem Eff.Emits.trace_outcome {m : Eff Unit} {env : Env} {posts : List Post}
    {P : List Event → Except String Unit → Prop}
    (h : m.Emits env (St.init posts) P) :
    P (run env posts m).st.trace (run env posts m).result := by
  obtain ⟨new, h1, h2⟩ := h
  have : (run env posts m).st.trace = new := by
    show (m env _).2.trace = new
    rw [h1]; simp [St.init]
  rw [this]; exact h2

@[simp]
theorem BlobOnly.nil : BlobOnly [] := by simp [BlobOnly]

@[simp]
theorem BlobOnly.cons (ev : Event) (l : List Event) :
    BlobOnly (ev :: l) ↔ ev.call.isStore = false ∧ BlobOnly l := by simp [BlobOnly]

@[simp]
theorem BlobOnly.append (l1 l2 : List Event) :
    BlobOnly (l1 ++ l2) ↔ BlobOnly l1 ∧ BlobOnly l2 := by
  simp only [BlobOnly, List.mem_append]
  constructor
  · intro h
    exact ⟨fun ev hev => h ev (Or.inl hev), fun ev hev => h ev (Or.inr hev)⟩
  · rintro ⟨h1, h2⟩ ev (hev | hev)
    · exact h1 ev hev
    · exact h2 ev hev

@[simp]
theorem Call.isStore_uploadBytes (p : String) (f : FileObj) :
    (Call.uploadBytes p f).isStore = false := rfl
@[simp]
theorem Call.isStore_getDownloadURL (p : String) :
    (Call.getDownloadURL p).isStore = false := rfl
@[simp]
theorem Call.isStore_deleteObject (p : String) :
    (Call.deleteObject p).isStore = false := rfl
@[simp]
theorem Call.isStore_addDoc (d : NewPostData) : (Call.addDoc d).isStore = true := rfl
@[simp]
theorem Call.isStore_deleteDoc (id : String) : (Call.deleteDoc id).isStore = true := rfl
@[simp]
theorem Call.isStore_batchCommit (w : List (String × PostFields)) :
    (Call.batchCommit w).isStore = true := rfl

@[simp]
theorem blobDeletes_nil : blobDeletes [] = [] := rfl

@[simp]
theorem blobDeletes_append (l1 l2 : List Event) :
    blobDeletes (l1 ++ l2) = blobDeletes l1 ++ blobDeletes l2 := by
  simp [blobDeletes, List.filterMap_append]

@[simp]
theorem blobDeletes_cons_deleteObject (p : String) (b : Bool) (l : List Event) :
    blobDeletes (⟨Call.deleteObject p, b⟩ :: l) = p :: blobDeletes l := rfl
@[simp]
theorem blobDeletes_cons_uploadBytes (p : String) (f : FileObj) (b : Bool)
    (l : List Event) : blobDeletes (⟨Call.uploadBytes p f, b⟩ :: l) = blobDeletes l := rfl
@[simp]
theorem blobDeletes_cons_getDownloadURL (p : String) (b : Bool) (l : List Event) :
    blobDeletes (⟨Call.getDownloadURL p, b⟩ :: l) = blobDeletes l := rfl
@[simp]
theorem blobDeletes_cons_addDoc (d : NewPostData) (b : Bool) (l : List Event) :
    blobDeletes (⟨Call.addDoc d, b⟩ :: l) = blobDeletes l := rfl
@[simp]
theorem blobDeletes_cons_deleteDoc (id : String) (b : Bool) (l : List Event) :
    blobDeletes (⟨Call.deleteDoc id, b⟩ :: l) = blobDeletes l := rfl
@[simp]
theorem blobDeletes_cons_batchCommit (w : List (String × PostFields)) (b : Bool)
    (l : List Event) : blobDeletes (⟨Call.batchCommit w, b⟩ :: l) = blobDeletes l := rfl

@[simp]
theorem storeCalls_nil : storeCalls [] = [] := rfl

@[simp]
theorem storeCalls_append (l1 l2 : List Event) :
    storeCalls (l1 ++ l2) = storeCalls l1 ++ storeCalls l2 := by
  simp [storeCalls]

theorem storeCalls_cons (ev : Event) (l : List Event) :
    storeCalls (ev :: l) = if ev.call.isStore then ev :: storeCalls l else storeCalls l := by
  simp [storeCalls, List.filter_cons]

@[simp]
theorem storeCalls_cons_uploadBytes (p : String) (f : FileObj) (b : Bool)
    (l : List Event) : storeCalls (⟨Call.uploadBytes p f, b⟩ :: l) = storeCalls l := by
  simp [storeCalls_cons]
@[simp]
theorem storeCalls_cons_getDownloadURL (p : String) (b : Bool) (l : List Event) :
    storeCalls (⟨Call.getDownloadURL p, b⟩ :: l) = storeCalls l := by
  simp [storeCalls_cons]
@[simp]
theorem storeCalls_cons_deleteObject (p : String) (b : Bool) (l : List Event) :
    storeCalls (⟨Call.deleteObject p, b⟩ :: l) = storeCalls l := by
  simp [storeCalls_cons]
@[simp]
theorem storeCalls_cons_addDoc (d : NewPostData) (b : Bool) (l : List Event) :
    storeCalls (⟨Call.addDoc d, b⟩ :: l) = ⟨Call.addDoc d, b⟩ :: storeCalls l := by
  simp [storeCalls_cons]
@[simp]
theorem storeCalls_cons_deleteDoc (id : String) (b : Bool) (l : List Event) :
    storeCalls (⟨Call.deleteDoc id, b⟩ :: l) = ⟨Call.deleteDoc id, b⟩ :: storeCalls l := by
  simp [storeCalls_cons]
@[simp]
theorem storeCalls_cons_batchCommit (w : List (String × PostFields)) (b : Bool)
    (l : List Event) :
    storeCalls (⟨Call.batchCommit w, b⟩ :: l) = ⟨Call.batchCommit w, b⟩ :: storeCalls l := by
  simp [storeCalls_cons]

@[simp]
theorem storeCalls_cons_getDocs (b : Bool) (l : List Event) :
    storeCalls (⟨Call.getDocs, b⟩ :: l) = ⟨Call.getDocs, b⟩ :: storeCalls l := by
  simp [storeCalls_cons, Call.isStore]

@[simp]
theorem blobDeletes_cons_getDocs (b : Bool) (l : List Event) :
    blobDeletes (⟨Call.getDocs, b⟩ :: l) = blobDeletes l := rfl

@[simp]
theorem Call.isStore_getDocs : Call.getDocs.isStore = true := rfl

theorem BlobOnly.storeCalls_eq {l : List Event} (h : BlobOnly l) : storeCalls l = [] := by
  simp only [storeCalls, List.filter_eq_nil_iff]
  intro ev hev
  simp [h ev hev]

/-! ## Specifications of the handler runs -/

theorem updateImage_emits (a : FormData) (e : Post) (f : PostFields) (env : Env) (st : St) :
    (updateImage a e f).Emits env st (fun new r =>
      BlobOnly new ∧
      (∀ p ∈ blobDeletes new, p ∈ imagePaths e) ∧
      ∀ f1, r = Except.ok f1 → f1.order = f.order ∧ f1.fileUrl = f.fileUrl ∧
        f1.contentFileName = f.contentFileName ∧ f1.isExternalLink = f.isExternalLink) := by
  unfold updateImage
  cases a.imageFile with
  | none => exact ⟨[], (St.extend_nil st).symm, by simp, by simp, by
      intro f1 h; cases h; simp⟩
  | some img =>
    apply Eff.Emits.of_sat
    simp only [Eff.pure_bind_eq]
    repeat' first
      | apply Eff.Sat.dateNow_bind_any
      | apply Eff.Sat.tryDeleteObject_bind
      | apply Eff.Sat.getDownloadURL_bind
      | apply Eff.Sat.perform_bind
      | apply Eff.Sat.ite
      | intro _
    all_goals first | apply Eff.Sat.ret | skip
    all_goals try simp only [St.extend_extend, List.append_assoc, List.singleton_append,
      List.cons_append, List.nil_append]
    all_goals refine ⟨_, rfl, ?_⟩
    all_goals simp_all [imagePaths]

theorem deleteOldContent_emits (e : Post) (env : Env) (st : St) :
    (deleteOldContent e).Emits env st (fun new r =>
      r = Except.ok () ∧ BlobOnly new ∧
      (e.isExternalLink = true → new = [])) := by
  unfold deleteOldContent
  apply Eff.Emits.of_sat
  repeat' first
    | apply Eff.Sat.tryDeleteObject
    | apply Eff.Sat.ite
    | intro _
  all_goals first | apply Eff.Sat.ret | skip
  all_goals first | refine ⟨_, rfl, ?_⟩ | refine ⟨[], (St.extend_nil _).symm, ?_⟩
  all_goals simp_all

theorem updateContent_emits (a : FormData) (e : Post) (f : PostFields) (env : Env) (st : St) :
    (updateContent a e f).Emits env st (fun new r =>
      BlobOnly new ∧
      (e.isExternalLink = true → blobDeletes new = []) ∧
      ∀ f1, r = Except.ok f1 → f1.order = f.order ∧
        ((f1.contentFileName = f.contentFileName ∧ f1.isExternalLink = f.isExternalLink) ∨
          f1.isExternalLink = some false ∨
          (f1.isExternalLink = some true ∧ f1.contentFileName = some none))) := by
  unfold updateContent
  apply Eff.Emits.of_sat
  split
  · refine Eff.Sat.bind_emits (deleteOldContent_emits e env st) ?_ ?_
    · rintro new - ⟨-, h1, h2⟩
      repeat' first
        | apply Eff.Sat.dateNow_bind_any
        | apply Eff.Sat.getDownloadURL_bind
        | apply Eff.Sat.perform_bind
        | intro _
      all_goals first | apply Eff.Sat.ret | skip
      all_goals try simp only [St.extend_extend, List.append_assoc, List.singleton_append,
        List.cons_append, List.nil_append]
      all_goals refine ⟨_, rfl, ?_⟩
      all_goals simp_all
    · rintro new err ⟨h, -⟩
      cases h
  · apply Eff.Sat.ite
    · intro _
      refine Eff.Sat.bind_emits (deleteOldContent_emits e env st) ?_ ?_
      · rintro new - ⟨-, h1, h2⟩
        apply Eff.Sat.ret
        refine ⟨_, rfl, ?_⟩
        simp_all
      · rintro new err ⟨h, -⟩
        cases h
    · intro _
      apply Eff.Sat.ret
      refine ⟨[], (St.extend_nil _).symm, ?_⟩
      simp

/-- Run of `handleUpdatePost`: its blob deletions for an external-link post, and the
shape of a run that resolves. -/
theorem handleUpdatePost_sat (env : Env) (posts : List Post) (a : FormData) (e : Post) :
    (handleUpdatePost posts a e).Sat env (St.init posts) (fun r st1 =>
      (e.isExternalLink = true → ∀ p ∈ blobDeletes st1.trace, p ∈ imagePaths e) ∧
      (r = Except.ok () → ∃ f,
        storeCalls st1.trace = [⟨Call.batchCommit (batchUpdates posts e f a.targetOrder), true⟩] ∧
        f.order = none ∧ f.ContentSafe)) := by
  unfold handleUpdatePost
  refine Eff.Sat.bind_emits (updateImage_emits a e _ env _) ?_ ?_
  · rintro n1 f1 ⟨hb1, hd1, hf1⟩
    obtain ⟨ho1, -, hc1, hx1⟩ := hf1 f1 rfl
    refine Eff.Sat.bind_emits (updateContent_emits a e f1 env _) ?_ ?_
    · rintro n2 f2 ⟨hb2, hd2, hf2⟩
      obtain ⟨ho2, hc2⟩ := hf2 f2 rfl
      apply Eff.Sat.perform_bind
      · apply Eff.Sat.alert
        refine ⟨?_, ?_⟩
        · intro hx p hp
          have := hd2 hx
          simp_all
        · intro _
          refine ⟨f2, by simp [hb1.storeCalls_eq, hb2.storeCalls_eq], ?_, ?_⟩
          · rw [ho2, ho1]; rfl
          · unfold PostFields.ContentSafe
            rcases hc2 with ⟨h1, h2⟩ | h | h
            · left; rw [h1, h2, hc1, hx1]; exact ⟨rfl, rfl⟩
            · right; left; exact h
            · right; right; exact h
      · intro err
        refine ⟨?_, by simp⟩
        intro hx p hp
        have := hd2 hx
        simp_all
    · rintro n2 err ⟨hb2, hd2, -⟩
      refine ⟨?_, by simp⟩
      intro hx p hp
      have := hd2 hx
      simp_all
  · rintro n1 err ⟨hb1, hd1, -⟩
    refine ⟨?_, by simp⟩
    intro hx p hp
    simp_all

theorem addContent_emits (a : FormData) (env : Env) (st : St) :
    (addContent a).Emits env st (fun new r =>
      BlobOnly new ∧
      (∀ c, r = Except.ok c → ¬ (c.2.2 = true ∧ c.2.1 ≠ none)) ∧
      (a.contentInvalid → new = [] ∧ ∃ msg, r = Except.error msg)) := by
  unfold addContent FormData.contentInvalid
  apply Eff.Emits.of_sat
  rcases hcf : a.contentFile with _ | cf <;> simp only []
  all_goals
    repeat' first
      | apply Eff.Sat.dateNow_bind_any
      | apply Eff.Sat.getDownloadURL_bind
      | apply Eff.Sat.perform_bind
      | apply Eff.Sat.ite
      | intro _
  all_goals first | apply Eff.Sat.ret | apply Eff.Sat.reject | skip
  all_goals try simp only [St.extend_extend, List.append_assoc, List.singleton_append,
      List.cons_append, List.nil_append]
  all_goals first | refine ⟨_, rfl, ?_⟩ | refine ⟨[], (St.extend_nil _).symm, ?_⟩
  all_goals simp_all

theorem BlobOnly.call_ne {l : List Event} (h : BlobOnly l) {ev : Event} (hev : ev ∈ l) :
    (∀ w, ev.call ≠ Call.batchCommit w) ∧ (∀ id, ev.call ≠ Call.deleteDoc id) ∧
      (∀ d, ev.call ≠ Call.addDoc d) := by
  have h1 := h ev hev
  refine ⟨?_, ?_, ?_⟩ <;> intro x hx <;> rw [hx] at h1 <;> cases h1

/-- Run of `handleAddPost`. -/
theorem handleAddPost_sat (env : Env) (posts : List Post) (a : FormData) :
    (handleAddPost posts a).Sat env (St.init posts) (fun r st1 =>
      (∀ ev ∈ st1.trace, (∀ w, ev.call ≠ Call.batchCommit w) ∧ (∀ id, ev.call ≠ Call.deleteDoc id)) ∧
      (∀ ev ∈ st1.trace, ∀ d, ev.call = Call.addDoc d →
        d.order = (posts.length : Int) ∧ ¬ (d.isExternalLink = true ∧ d.contentFileName ≠ none)) ∧
      (r = Except.ok () → ∃ d, storeCalls st1.trace = [⟨Call.addDoc d, true⟩]) ∧
      (a.imageFile = none →
        st1.trace = [] ∧ r = Except.error "Image file is required for a new post.") ∧
      (∀ img, a.imageFile = some img → a.contentInvalid →
        (∃ msg, r = Except.error msg) ∧
        ∀ ev ∈ st1.trace,
          ev.call = Call.uploadBytes
            ("post_images/" ++ (toString (env.now 0) ++ "-" ++ img.name)) img ∨
          ev.call = Call.getDownloadURL
            ("post_images/" ++ (toString (env.now 0) ++ "-" ++ img.name)))) := by
  unfold handleAddPost
  rcases himg : a.imageFile with _ | img
  · apply Eff.Sat.reject
    simp
  · simp only []
    apply Eff.Sat.dateNow_bind
    simp only [St.init_trace, List.length_nil]
    apply Eff.Sat.perform_bind
    · apply Eff.Sat.getDownloadURL_bind
      · refine Eff.Sat.bind_emits (addContent_emits a env _) ?_ ?_
        · rintro n1 c ⟨hb, hc, hi⟩
          have hc1 := hc c rfl
          have hni : ¬ a.contentInvalid := fun h => by
            obtain ⟨-, msg, hmsg⟩ := hi h
            cases hmsg
          have key : ∀ b : Bool, ∀ tr : List Event, ∀ d : NewPostData,
              d.order = (posts.length : Int) →
              ¬ (d.isExternalLink = true ∧ d.contentFileName ≠ none) →
              tr = [⟨Call.uploadBytes
                  ("post_images/" ++ (toString (env.now 0) ++ "-" ++ img.name)) img, true⟩,
                ⟨Call.getDownloadURL
                  ("post_images/" ++ (toString (env.now 0) ++ "-" ++ img.name)), true⟩] ++ n1 ++
                [⟨Call.addDoc d, b⟩] →
              (∀ ev ∈ tr, (∀ w, ev.call ≠ Call.batchCommit w) ∧
                (∀ id, ev.call ≠ Call.deleteDoc id)) ∧
              (∀ ev ∈ tr, ∀ d1, ev.call = Call.addDoc d1 →
                d1.order = (posts.length : Int) ∧
                ¬ (d1.isExternalLink = true ∧ d1.contentFileName ≠ none)) := by
            intro b tr d hd1 hd2 htr
            subst htr
            constructor
            · intro ev hev
              simp only [List.mem_append, List.mem_cons, List.mem_singleton,
                List.not_mem_nil, or_false] at hev
              rcases hev with ((rfl | rfl) | hev) | rfl
              · simp
              · simp
              · exact ⟨(hb.call_ne hev).1, (hb.call_ne hev).2.1⟩
              · simp
            · intro ev hev d1 hd
              simp only [List.mem_append, List.mem_cons, List.mem_singleton,
                List.not_mem_nil, or_false] at hev
              rcases hev with ((rfl | rfl) | hev) | rfl
              · cases hd
              · cases hd
              · exact absurd hd ((hb.call_ne hev).2.2 d1)
              · cases hd
                exact ⟨hd1, hd2⟩
          apply Eff.Sat.perform_bind
          · apply Eff.Sat.alert
            obtain ⟨k1, k2⟩ := key true _
              ({ title := a.title, description := a.description,
                 imageUrl := env.urlOf ("post_images/" ++ (toString (env.now 0) ++ "-" ++ img.name)),
                 imageFileName := toString (env.now 0) ++ "-" ++ img.name,
                 fileUrl := c.1, contentFileName := c.2.1, isExternalLink := c.2.2,
                 createdAt := Timestamp.serverTimestamp, order := (posts.length : Int) } :
                NewPostData) rfl hc1 rfl
            refine ⟨?_, ?_, ?_, by simp, ?_⟩
            · simpa using k1
            · simpa using k2
            · intro _
              exact ⟨_, by simp [hb.storeCalls_eq]; rfl⟩
            · intro img1 _ hinv
              exact absurd hinv hni
          · intro err
            obtain ⟨k1, k2⟩ := key false _
              ({ title := a.title, description := a.description,
                 imageUrl := env.urlOf ("post_images/" ++ (toString (env.now 0) ++ "-" ++ img.name)),
                 imageFileName := toString (env.now 0) ++ "-" ++ img.name,
                 fileUrl := c.1, contentFileName := c.2.1, isExternalLink := c.2.2,
                 createdAt := Timestamp.serverTimestamp, order := (posts.length : Int) } :
                NewPostData) rfl hc1 rfl
            refine ⟨?_, ?_, by simp, by simp, ?_⟩
            · simpa using k1
            · simpa using k2
            · intro img1 _ hinv
              exact absurd hinv hni
        · rintro n1 err ⟨hb, -, hi⟩
          refine ⟨?_, ?_, by simp, by simp, ?_⟩
          · intro ev hev
            simp only [St.extend_extend, St.extend_trace, St.init_trace, List.nil_append,
              List.mem_append, List.mem_cons, List.mem_singleton,
              List.not_mem_nil, or_false] at hev
            rcases hev with (rfl | rfl) | hev
            · simp
            · simp
            · exact ⟨(hb.call_ne hev).1, (hb.call_ne hev).2.1⟩
          · intro ev hev d1 hd
            simp only [St.extend_extend, St.extend_trace, St.init_trace, List.nil_append,
              List.mem_append, List.mem_cons, List.mem_singleton,
              List.not_mem_nil, or_false] at hev
            rcases hev with (rfl | rfl) | hev
            · cases hd
            · cases hd
            · exact absurd hd ((hb.call_ne hev).2.2 d1)
          · intro img1 himg1 hinv
            obtain ⟨rfl, -⟩ := hi hinv
            cases himg1
            simp
      · intro err; simp
    · intro err; simp

/-- Run of `handleDeletePost` on a post with an id: it always resolves; for an
external-link post every blob deletion addresses the card image; and when no
record-store call rejected, the store saw the delete and then the resequencing
batch, and the `posts` state became `remainingPosts`. -/
theorem handleDeletePost_sat (env : Env) (posts : List Post) (d : Post) (hid : d.id ≠ "") :
    (handleDeletePost posts (some d)).Sat env (St.init posts) (fun r st1 =>
      r = Except.ok () ∧
      (d.isExternalLink = true → ∀ p ∈ blobDeletes st1.trace, p ∈ imagePaths d) ∧
      ((∀ ev ∈ st1.trace, ev.call.isStore = true → ev.ok = true) →
        storeCalls st1.trace = [⟨Call.deleteDoc d.id, true⟩,
          ⟨Call.batchCommit (deleteUpdates posts (remainingPosts posts d)), true⟩] ∧
        st1.posts = remainingPosts posts d)) := by
  unfold handleDeletePost
  simp only [hid, if_false, Eff.pure_bind_eq]
  apply Eff.Sat.setIsLoading_bind
  apply Eff.Sat.tryFinally
  apply Eff.Sat.tryCatch
  repeat' first
    | apply Eff.Sat.tryDeleteObject_bind
    | apply Eff.Sat.setPosts_bind
    | apply Eff.Sat.perform_bind
    | apply Eff.Sat.ite
    | intro _
  all_goals first | apply Eff.Sat.alert | skip
  all_goals simp_all [Eff.Sat.pure_iff, imagePaths, St.extend, St.init]

/-! ## The record store under a batch of order writes -/

theorem applyCall_batchCommit (env : Env) (store : List Post)
    (writes : List (String × PostFields)) :
    applyCall env store (Call.batchCommit writes) = store.map (applyWrites writes) := by
  simp only [applyCall]
  induction writes generalizing store with
  | nil =>
    have h : applyWrites [] = id := rfl
    simp [h]
  | cons w ws ih =>
    rw [List.foldl_cons, ih, List.map_map]
    apply List.map_congr_left
    intro p _
    simp [applyWrites]

@[simp]
theorem applyWrites_id (writes : List (String × PostFields)) (p : Post) :
    (applyWrites writes p).id = p.id := by
  induction writes generalizing p with
  | nil => rfl
  | cons w ws ih =>
    simp only [applyWrites, List.foldl_cons] at ih ⊢
    rw [ih]
    split <;> rfl

theorem applyWrites_cons (w : String × PostFields) (ws : List (String × PostFields))
    (p : Post) :
    applyWrites (w :: ws) p = applyWrites ws (if p.id = w.1 then p.merge w.2 else p) := rfl

theorem applyWrites_of_not_mem (writes : List (String × PostFields)) (p : Post)
    (h : ∀ w ∈ writes, w.1 ≠ p.id) : applyWrites writes p = p := by
  induction writes generalizing p with
  | nil => rfl
  | cons w ws ih =>
    rw [applyWrites_cons, if_neg (fun hp => h w (List.mem_cons_self _ _) hp.symm)]
    exact ih p (fun w1 hw1 => h w1 (List.mem_cons_of_mem _ hw1))

theorem applyWrites_enumFrom_not_mem (g : Nat × Post → Option (String × PostFields))
    (hg : WritesIndex g) (l : List Post) (k : Nat) (p : Post)
    (h : p.id ∉ l.map Post.id) :
    applyWrites ((l.enumFrom k).filterMap g) p = p := by
  apply applyWrites_of_not_mem
  intro w hw hid
  rw [List.mem_filterMap] at hw
  obtain ⟨ip, hip, hgw⟩ := hw
  apply h
  rw [← hid, (hg ip w hgw).1]
  have : ip.2 ∈ l := by
    have := @List.mem_enumFrom _ ip.2 ip.1 k l hip
    exact this.2.2 ▸ List.getElem_mem _
  exact List.mem_map_of_mem _ this

/-- Order of a document after a batch generated from an enumeration of a list with
distinct ids: the index of its id in the list when a write is generated there,
otherwise its old order. -/
theorem applyWrites_enumFrom_order (g : Nat × Post → Option (String × PostFields))
    (hg : WritesIndex g) (l : List Post) (k : Nat) (p : Post)
    (hl : (l.map Post.id).Nodup) (j : Nat) (hj : j < l.length) (hp : l[j].id = p.id) :
    (applyWrites ((l.enumFrom k).filterMap g) p).order =
      if (g (k + j, l[j])).isSome then ((k + j : Nat) : Int) else p.order := by
  induction l generalizing k j p with
  | nil => simp at hj
  | cons x xs ih =>
    rw [List.map_cons, List.nodup_cons] at hl
    cases j with
    | zero =>
      simp only [List.getElem_cons_zero] at hp
      simp only [List.getElem_cons_zero, Nat.add_zero, List.enumFrom_cons]
      cases hgx : g (k, x) with
      | none =>
        rw [List.filterMap_cons_none hgx]
        rw [applyWrites_enumFrom_not_mem g hg xs (k + 1) p (hp ▸ hl.1)]
        simp
      | some w =>
        rw [List.filterMap_cons_some hgx, applyWrites_cons]
        obtain ⟨hw1, hw2⟩ := hg _ _ hgx
        rw [if_pos (by rw [hw1]; exact hp.symm)]
        rw [applyWrites_enumFrom_not_mem g hg xs (k + 1) _ (by
          show (p.merge w.2).id ∉ _
          rw [show (p.merge w.2).id = p.id from rfl, ← hp]; exact hl.1)]
        simp [Post.merge, hw2]
    | succ j =>
      simp only [List.getElem_cons_succ] at hp
      have hne : x.id ≠ p.id := by
        intro h
        apply hl.1
        rw [h, ← hp]
        exact List.mem_map_of_mem _ (List.getElem_mem _)
      simp only [List.getElem_cons_succ, List.enumFrom_cons]
      have hidx : k + (j + 1) = k + 1 + j := by omega
      cases hgx : g (k, x) with
      | none =>
        rw [List.filterMap_cons_none hgx, ih (k + 1) p hl.2 j (by simpa using hj) hp, hidx]
      | some w =>
        rw [List.filterMap_cons_some hgx, applyWrites_cons]
        obtain ⟨hw1, -⟩ := hg _ _ hgx
        rw [if_neg (by rw [hw1]; exact fun h => hne h.symm)]
        rw [ih (k + 1) p hl.2 j (by simpa using hj) hp, hidx]

/-! ## Resequencing: density, move, removal and plan -/

theorem applyCall_of_not_isStore (env : Env) (store : List Post) (c : Call)
    (h : c.isStore = false) : applyCall env store c = store := by
  cases c <;> first | rfl | cases h

theorem applyTrace_storeCalls (env : Env) (store : List Post) (trace : List Event) :
    applyTrace env store trace = applyTrace env store (storeCalls trace) := by
  induction trace generalizing store with
  | nil => rfl
  | cons ev tr ih =>
    rw [storeCalls_cons]
    cases hs : ev.call.isStore with
    | true =>
      simp only [if_true, applyTrace, List.foldl_cons]
      exact ih _
    | false =>
      simp only [applyTrace, List.foldl_cons, Bool.false_eq_true, if_false]
      rw [applyCall_of_not_isStore env store ev.call hs]
      simp only [ite_self]
      exact ih _

theorem eq_of_id_eq {posts : List Post} (h : (posts.map Post.id).Nodup) {p q : Post}
    (hp : p ∈ posts) (hq : q ∈ posts) (hid : p.id = q.id) : p = q :=
  List.inj_on_of_nodup_map h hp hq hid

theorem find?_id_eq_some {posts : List Post} (h : (posts.map Post.id).Nodup) {q : Post}
    (hq : q ∈ posts) (id : String) (hid : q.id = id) :
    posts.find? (fun p => decide (p.id = id)) = some q := by
  cases hf : posts.find? (fun p => decide (p.id = id)) with
  | none =>
    rw [List.find?_eq_none] at hf
    have := hf q hq
    simp [hid] at this
  | some r =>
    have h1 := List.find?_some hf
    have h2 := List.mem_of_find?_eq_some hf
    simp only [decide_eq_true_eq] at h1
    rw [eq_of_id_eq h h2 hq (h1.trans hid.symm)]

theorem Sequenced.order_getElem {posts : List Post} (h : Sequenced posts) (i : Nat)
    (hi : i < posts.length) : posts[i].order = (i : Int) := by
  unfold Sequenced at h
  have h1 : (posts.map Post.order)[i]? = ((List.range posts.length).map Int.ofNat)[i]? := by
    rw [h]
  simpa [List.getElem?_map, List.getElem?_range hi, List.getElem?_eq_getElem hi] using h1

/-- Order of a stored document after a batch generated from an enumeration of `l`:
the index of its id in `l`, provided a skipped index already holds that order. -/
theorem applyWrites_enum_order {posts : List Post} (hposts : (posts.map Post.id).Nodup)
    (g : Nat × Post → Option (String × PostFields)) (hg : WritesIndex g) (l : List Post)
    (hl : (l.map Post.id).Nodup)
    (hmiss : ∀ j (hj : j < l.length), g (j, l[j]) = none →
      ∃ q ∈ posts, q.id = l[j].id ∧ q.order = (j : Int))
    (p : Post) (hp : p ∈ posts) (j : Nat) (hj : j < l.length) (hid : l[j].id = p.id) :
    (applyWrites (l.enum.filterMap g) p).order = (j : Int) := by
  have h := applyWrites_enumFrom_order g hg l 0 p hl j hj hid
  rw [List.enum, h]
  simp only [Nat.zero_add]
  cases hgj : g (j, l[j]) with
  | some w => simp
  | none =>
    obtain ⟨q, hq, hqid, hqo⟩ := hmiss j hj hgj
    have : q = p := eq_of_id_eq hposts hq hp (hqid.trans hid)
    subst this
    simp [hqo]

theorem map_indexOf_self (ids : List String) (h : ids.Nodup) :
    ids.map (fun i => (ids.indexOf i : Int)) = (List.range ids.length).map Int.ofNat := by
  apply List.ext_getElem
  · simp
  · intro n h1 h2
    simp only [List.getElem_map, List.getElem_range]
    rw [List.indexOf_getElem h]
    rfl

/-- A store whose documents, by id, hold the index of their id in `l` is dense. -/
theorem dense_of_index (store : List Post) (l : List Post) (hl : (l.map Post.id).Nodup)
    (hperm : (store.map Post.id).Perm (l.map Post.id))
    (h : ∀ p ∈ store, ∀ j (hj : j < l.length), l[j].id = p.id → p.order = (j : Int)) :
    Dense store := by
  unfold Dense
  have h1 : store.map Post.order =
      (store.map Post.id).map (fun i => ((l.map Post.id).indexOf i : Int)) := by
    rw [List.map_map]
    apply List.map_congr_left
    intro p hp
    have hmem : p.id ∈ l.map Post.id := hperm.subset (List.mem_map_of_mem _ hp)
    have hlt : (l.map Post.id).indexOf p.id < (l.map Post.id).length :=
      List.indexOf_lt_length.mpr hmem
    have hlt2 : (l.map Post.id).indexOf p.id < l.length := by simpa using hlt
    have hget := List.getElem_indexOf hlt
    rw [List.getElem_map] at hget
    simpa using h p hp _ hlt2 hget
  rw [h1]
  have h2 := (hperm.map (fun i => ((l.map Post.id).indexOf i : Int)))
  rw [map_indexOf_self _ hl] at h2
  have h3 : store.length = (l.map Post.id).length := by
    simpa using hperm.length_eq
  rw [h3]
  exact h2

theorem Sequenced.pairwise_lt {posts : List Post} (h : Sequenced posts) :
    posts.Pairwise (fun a b => a.order < b.order) := by
  unfold Sequenced at h
  have h1 : (posts.map Post.order).Pairwise (· < ·) := by
    rw [h]
    exact (List.pairwise_lt_range _).map _ (fun a b hab => Int.ofNat_lt.mpr hab)
  exact (List.pairwise_map.mp h1)

theorem deleteWrite_writesIndex (posts : List Post) : WritesIndex (deleteWrite posts) := by
  intro ip w h
  unfold deleteWrite at h
  split at h
  · split at h
    · cases h; exact ⟨rfl, rfl⟩
    · cases h
  · cases h

theorem remainingPosts_eq {posts : List Post} (hseq : Sequenced posts) (d : Post) :
    remainingPosts posts d =
      ((posts.filter (fun p => decide (p.id ≠ d.id))).enum).map
        (fun ip => { ip.2 with order := (ip.1 : Int) }) := by
  unfold remainingPosts
  rw [List.Sorted.insertionSort_eq]
  exact (hseq.pairwise_lt.filter _).imp (fun h => Int.le_of_lt h)

theorem deleteUpdates_eq {posts : List Post} (hseq : Sequenced posts) (d : Post) :
    deleteUpdates posts (remainingPosts posts d) =
      ((posts.filter (fun p => decide (p.id ≠ d.id))).enum).filterMap (deleteWrite posts) := by
  rw [remainingPosts_eq hseq, deleteUpdates, List.filterMap_map]
  rfl

theorem deleteWrite_none {posts : List Post} (hids : (posts.map Post.id).Nodup)
    (l : List Post) (hl : ∀ p ∈ l, p ∈ posts) (j : Nat) (hj : j < l.length)
    (h : deleteWrite posts (j, l[j]) = none) :
    ∃ q ∈ posts, q.id = l[j].id ∧ q.order = (j : Int) := by
  have hmem : l[j] ∈ posts := hl _ (List.getElem_mem _)
  refine ⟨l[j], hmem, rfl, ?_⟩
  unfold deleteWrite at h
  rw [find?_id_eq_some hids hmem _ rfl] at h
  simp only [ne_eq, ite_not] at h
  split at h
  · assumption
  · cases h

theorem filter_id_nodup {posts : List Post} (hids : (posts.map Post.id).Nodup)
    (q : Post → Bool) : ((posts.filter q).map Post.id).Nodup :=
  hids.sublist ((List.filter_sublist posts).map _)

/-- Order of a remaining stored document after the batch of `handleDeletePost`: its
index among the remaining posts. -/
theorem delete_order_index {posts : List Post} (hseq : Sequenced posts)
    (hids : (posts.map Post.id).Nodup) (d : Post) (p : Post) (hp : p ∈ posts)
    (j : Nat) (hj : j < (posts.filter (fun p => decide (p.id ≠ d.id))).length)
    (hid : (posts.filter (fun p => decide (p.id ≠ d.id)))[j].id = p.id) :
    (applyWrites (deleteUpdates posts (remainingPosts posts d)) p).order = (j : Int) := by
  rw [deleteUpdates_eq hseq]
  exact applyWrites_enum_order hids _ (deleteWrite_writesIndex posts) _
    (filter_id_nodup hids _)
    (fun j hj h => deleteWrite_none hids _ (fun p hp => (List.mem_filter.mp hp).1) j hj h)
    p hp j hj hid

theorem Dense.of_perm_sequenced {store posts : List Post} (hperm : store.Perm posts)
    (hseq : Sequenced posts) : Dense store := by
  unfold Dense
  rw [hperm.length_eq, ← hseq]
  exact hperm.map _

/-- The store after the delete and the resequencing batch of `handleDeletePost` is
dense. -/
theorem delete_dense {store posts : List Post} (hperm : store.Perm posts)
    (hseq : Sequenced posts) (hids : (posts.map Post.id).Nodup) (d : Post) :
    Dense ((store.filter (fun p => decide (p.id ≠ d.id))).map
      (applyWrites (deleteUpdates posts (remainingPosts posts d)))) := by
  apply dense_of_index _ (posts.filter (fun p => decide (p.id ≠ d.id)))
    (filter_id_nodup hids _)
  · rw [List.map_map]
    have : (Post.id ∘ applyWrites (deleteUpdates posts (remainingPosts posts d))) = Post.id := by
      funext p; simp
    rw [this]
    exact (hperm.filter _).map _
  · intro p1 hp1 j hj hid
    rw [List.mem_map] at hp1
    obtain ⟨p, hp, rfl⟩ := hp1
    have hpp : p ∈ posts := hperm.subset (List.mem_filter.mp hp).1
    rw [applyWrites_id] at hid
    exact delete_order_index hseq hids d p hpp j hj hid

theorem moveWrite_writesIndex (posts : List Post) (e : Post) (fields : PostFields) :
    WritesIndex (moveWrite posts e fields) := by
  intro ip w h
  unfold moveWrite at h
  split at h
  · split at h <;> (cases h; exact ⟨rfl, rfl⟩)
  · cases h

theorem batchUpdates_move (posts : List Post) (e : Post) (f : PostFields) (t : Int)
    (ht : t ≠ e.order) :
    batchUpdates posts e f (some t) =
      ((jsSplice (posts.filter (fun p => decide (p.id ≠ e.id))) t
        (e.merge { f with order := some t })).enum).filterMap
        (moveWrite posts e { f with order := some t }) := by
  simp only [batchUpdates, ht, ne_eq, not_false_eq_true, if_true]
  rfl

theorem jsSplice_eq {α : Type} (xs : List α) (t : Int) (x : α) (h0 : 0 ≤ t)
    (h1 : t ≤ xs.length) :
    jsSplice xs t x = xs.take t.toNat ++ x :: xs.drop t.toNat := by
  unfold jsSplice
  simp only [not_lt.mpr h0, if_false, min_eq_left h1]

theorem jsSplice_map {α β : Type} (f : α → β) (xs : List α) (t : Int) (x : α) :
    (jsSplice xs t x).map f = jsSplice (xs.map f) t (f x) := by
  simp [jsSplice, List.map_take, List.map_drop]

theorem moveWrite_none {posts : List Post} (e : Post) (fields : PostFields)
    (l : List Post) (j : Nat) (hj : j < l.length)
    (h : moveWrite posts e fields (j, l[j]) = none) :
    ∃ q ∈ posts, q.id = l[j].id ∧ q.order = (j : Int) := by
  unfold moveWrite at h
  split at h
  · split at h <;> cases h
  · rename_i hc
    simp only [not_or, ne_eq, not_not] at hc
    cases hf : posts.find? (fun p => decide (p.id = l[j].id)) with
    | none => rw [hf] at hc; simp at hc
    | some q =>
      rw [hf] at hc
      simp only [Option.map_some', Option.some.injEq] at hc
      have h1 := List.find?_some hf
      simp only [decide_eq_true_eq] at h1
      exact ⟨q, List.mem_of_find?_eq_some hf, h1, hc.1.symm⟩

theorem perm_cons_filter {posts : List Post} (hids : (posts.map Post.id).Nodup) {e : Post}
    (he : e ∈ posts) : posts.Perm (e :: posts.filter (fun p => decide (p.id ≠ e.id))) := by
  have h1 : posts.Nodup := List.Nodup.of_map _ hids
  have h2 : posts.erase e = posts.filter (fun p => decide (p.id ≠ e.id)) := by
    rw [h1.erase_eq_filter]
    apply List.filter_congr
    intro p hp
    by_cases hpe : p = e
    · subst hpe; simp
    · have : p.id ≠ e.id := fun h => hpe (eq_of_id_eq hids hp he h)
      simp [hpe, this]
  rw [← h2]
  exact List.perm_cons_erase he

theorem filter_length {posts : List Post} (hids : (posts.map Post.id).Nodup) {e : Post}
    (he : e ∈ posts) :
    (posts.filter (fun p => decide (p.id ≠ e.id))).length + 1 = posts.length := by
  have := (perm_cons_filter hids he).length_eq
  simpa using this.symm

/-- Facts about the spliced sequence `take n l ++ x :: drop n l`. -/
theorem splice_getElem_lt {α : Type} (l : List α) (n : Nat) (x : α) (j : Nat) (hj : j < l.length)
    (hjn : j < n) (h : j < (l.take n ++ x :: l.drop n).length) :
    (l.take n ++ x :: l.drop n)[j] = l[j] := by
  rw [List.getElem_append_left (by simp; omega)]
  simp

theorem splice_getElem_ge {α : Type} (l : List α) (n : Nat) (x : α) (j : Nat) (hj : j < l.length)
    (hjn : n ≤ j) (h : j + 1 < (l.take n ++ x :: l.drop n).length) :
    (l.take n ++ x :: l.drop n)[j + 1] = l[j] := by
  have hlen : (l.take n).length = n := by simp; omega
  rw [List.getElem_append_right (by omega)]
  simp only [hlen]
  have : j + 1 - n = (j - n) + 1 := by omega
  simp only [this, List.getElem_cons_succ, List.getElem_drop]
  congr 1
  omega

theorem splice_getElem_self {α : Type} (l : List α) (n : Nat) (x : α) (hn : n ≤ l.length)
    (h : n < (l.take n ++ x :: l.drop n).length) :
    (l.take n ++ x :: l.drop n)[n] = x := by
  have hlen : (l.take n).length = n := by simp; omega
  rw [List.getElem_append_right (by omega)]
  simp [hlen]

theorem splice_perm {α : Type} (l : List α) (n : Nat) (x : α) :
    (l.take n ++ x :: l.drop n).Perm (x :: l) := by
  have h : (l.take n ++ x :: l.drop n).Perm (x :: (l.take n ++ l.drop n)) := List.perm_middle
  rwa [List.take_append_drop] at h

theorem target_le_filter_length {posts : List Post} (hids : (posts.map Post.id).Nodup)
    {e : Post} (he : e ∈ posts) {t : Int} (h1 : t < posts.length) :
    t ≤ ((posts.filter (fun p => decide (p.id ≠ e.id))).length : Int) := by
  have := filter_length hids he
  omega

theorem move_splice_eq {posts : List Post} (hids : (posts.map Post.id).Nodup)
    {e : Post} (he : e ∈ posts) {t : Int} (h0 : 0 ≤ t) (h1 : t < posts.length) (x : Post) :
    jsSplice (posts.filter (fun p => decide (p.id ≠ e.id))) t x =
      (posts.filter (fun p => decide (p.id ≠ e.id))).take t.toNat ++
        x :: (posts.filter (fun p => decide (p.id ≠ e.id))).drop t.toNat :=
  jsSplice_eq _ t x h0 (target_le_filter_length hids he h1)

theorem move_splice_ids_perm {posts : List Post} (hids : (posts.map Post.id).Nodup)
    {e : Post} (he : e ∈ posts) (t : Int) (x : Post) (hx : x.id = e.id) :
    ((jsSplice (posts.filter (fun p => decide (p.id ≠ e.id))) t x).map Post.id).Perm
      (posts.map Post.id) := by
  unfold jsSplice
  refine ((splice_perm _ _ x).map Post.id).trans ?_
  rw [List.map_cons, hx]
  exact ((perm_cons_filter hids he).map Post.id).symm

theorem move_splice_ids_nodup {posts : List Post} (hids : (posts.map Post.id).Nodup)
    {e : Post} (he : e ∈ posts) (t : Int) (x : Post) (hx : x.id = e.id) :
    ((jsSplice (posts.filter (fun p => decide (p.id ≠ e.id))) t x).map Post.id).Nodup :=
  (move_splice_ids_perm hids he t x hx).nodup_iff.mpr hids

/-- Order of a stored document after the reorder batch of `handleUpdatePost`: the
index of its id in the spliced sequence. -/
theorem move_order_index {posts : List Post} (hids : (posts.map Post.id).Nodup)
    {e : Post} (he : e ∈ posts) (f : PostFields) (t : Int) (hne : t ≠ e.order)
    (x : Post) (hx : x.id = e.id)
    (p : Post) (hp : p ∈ posts) (j : Nat)
    (hj : j < (jsSplice (posts.filter (fun p => decide (p.id ≠ e.id))) t x).length)
    (hid : (jsSplice (posts.filter (fun p => decide (p.id ≠ e.id))) t x)[j].id = p.id) :
    (applyWrites (batchUpdates posts e f (some t)) p).order = (j : Int) := by
  rw [batchUpdates_move posts e f t hne]
  have hmap : (jsSplice (posts.filter (fun p => decide (p.id ≠ e.id))) t
      (e.merge { f with order := some t })).map Post.id =
      (jsSplice (posts.filter (fun p => decide (p.id ≠ e.id))) t x).map Post.id := by
    rw [jsSplice_map, jsSplice_map, hx]
    rfl
  have hlen : (jsSplice (posts.filter (fun p => decide (p.id ≠ e.id))) t
      (e.merge { f with order := some t })).length =
      (jsSplice (posts.filter (fun p => decide (p.id ≠ e.id))) t x).length := by
    simpa using congrArg List.length hmap
  have hj2 : j < (jsSplice (posts.filter (fun p => decide (p.id ≠ e.id))) t
      (e.merge { f with order := some t })).length := hlen ▸ hj
  have hid2 : (jsSplice (posts.filter (fun p => decide (p.id ≠ e.id))) t
      (e.merge { f with order := some t }))[j].id = p.id := by
    have h1 : ((jsSplice (posts.filter (fun p => decide (p.id ≠ e.id))) t
      (e.merge { f with order := some t })).map Post.id)[j]? =
      ((jsSplice (posts.filter (fun p => decide (p.id ≠ e.id))) t x).map Post.id)[j]? := by
      rw [hmap]
    simp only [List.getElem?_map, List.getElem?_eq_getElem hj, List.getElem?_eq_getElem hj2,
      Option.map_some', Option.some.injEq] at h1
    rw [h1, hid]
  exact applyWrites_enum_order hids _ (moveWrite_writesIndex posts e _) _
    (move_splice_ids_nodup hids he t (e.merge { f with order := some t }) rfl)
    (fun j hj h => moveWrite_none e _ _ j hj h)
    p hp j hj2 hid2

/-- The store after the reorder batch of `handleUpdatePost` is dense. -/
theorem move_dense {store posts : List Post} (hperm : store.Perm posts)
    (hids : (posts.map Post.id).Nodup) {e : Post} (he : e ∈ posts) (f : PostFields)
    (t : Int) (hne : t ≠ e.order) :
    Dense (store.map (applyWrites (batchUpdates posts e f (some t)))) := by
  apply dense_of_index _ (jsSplice (posts.filter (fun p => decide (p.id ≠ e.id))) t e)
    (move_splice_ids_nodup hids he t e rfl)
  · rw [List.map_map]
    have : (Post.id ∘ applyWrites (batchUpdates posts e f (some t))) = Post.id := by
      funext p; simp
    rw [this]
    exact (hperm.map _).trans (move_splice_ids_perm hids he t e rfl).symm
  · intro p1 hp1 j hj hid
    rw [List.mem_map] at hp1
    obtain ⟨p, hp, rfl⟩ := hp1
    rw [applyWrites_id] at hid
    exact move_order_index hids he f t hne e rfl p (hperm.subset hp) j hj hid

/-- Writes of `handleUpdatePost` when the target equals the current order. -/
theorem batchUpdates_same (posts : List Post) (e : Post) (f : PostFields)
    (hf : f.order = none) :
    batchUpdates posts e f (some e.order) =
      [(e.id, f), (e.id, { PostFields.empty with order := some e.order })] := by
  simp [batchUpdates, hf]

theorem applyWrites_same_order {posts : List Post} (hids : (posts.map Post.id).Nodup)
    {e : Post} (he : e ∈ posts) (f : PostFields) (hf : f.order = none)
    (p : Post) (hp : p ∈ posts) :
    (applyWrites (batchUpdates posts e f (some e.order)) p).order = p.order := by
  rw [batchUpdates_same posts e f hf]
  by_cases h : p.id = e.id
  · have : p = e := eq_of_id_eq hids hp he h
    subst this
    simp [applyWrites, Post.merge, PostFields.empty]
  · simp [applyWrites, h]

theorem same_dense {store posts : List Post} (hperm : store.Perm posts)
    (hseq : Sequenced posts) (hids : (posts.map Post.id).Nodup) {e : Post} (he : e ∈ posts)
    (f : PostFields) (hf : f.order = none) :
    Dense (store.map (applyWrites (batchUpdates posts e f (some e.order)))) := by
  have h0 := Dense.of_perm_sequenced hperm hseq
  unfold Dense at h0 ⊢
  rw [List.map_map, List.length_map]
  have : store.map (Post.order ∘ applyWrites (batchUpdates posts e f (some e.order))) =
      store.map Post.order := by
    apply List.map_congr_left
    intro p hp
    exact applyWrites_same_order hids he f hf p (hperm.subset hp)
  rw [this]
  exact h0

theorem add_dense {store posts : List Post} (hperm : store.Perm posts)
    (hseq : Sequenced posts) (p : Post) (hp : p.order = (posts.length : Int)) :
    Dense (store ++ [p]) := by
  have h0 := Dense.of_perm_sequenced hperm hseq
  unfold Dense at h0 ⊢
  rw [List.map_append, List.length_append, List.length_singleton, List.range_succ,
    List.map_append, hperm.length_eq] at *
  simp only [List.map_cons, List.map_nil, hp]
  exact h0.append (List.Perm.refl _)

theorem applyTrace_of_storeCalls_single (env : Env) (store : List Post) (trace : List Event)
    (c : Call) (h : storeCalls trace = [⟨c, true⟩]) :
    applyTrace env store trace = applyCall env store c := by
  rw [applyTrace_storeCalls, h]
  rfl

theorem applyTrace_of_storeCalls_nil (env : Env) (store : List Post) (trace : List Event)
    (h : storeCalls trace = []) :
    applyTrace env store trace = store := by
  rw [applyTrace_storeCalls, h]
  rfl

/-- Claim C1. Density invariant of the mutation steps: from a store that is a
permutation of the in-memory list `posts`, where `posts[i].order = i` and the
document ids are distinct, the store obtained by applying the record-store writes
of a successful `handleAddPost`, of a successful `handleUpdatePost` on a post of
`posts` with a target in [0, N-1], or of a successful `handleDeletePost`, holds M
posts whose order values are exactly 0, ..., M-1. -/
theorem density_invariant (env : Env) (store posts : List Post)
    (hmirror : store.Perm posts) (hseq : Sequenced posts)
    (hids : (posts.map Post.id).Nodup) :
    (∀ a : FormData, (run env posts (handleAddPost posts a)).Successful →
      Dense (applyTrace env store (run env posts (handleAddPost posts a)).st.trace)) ∧
    (∀ (a : FormData) (e : Post) (t : Int), e ∈ posts → a.targetOrder = some t → 0 ≤ t →
      t < posts.length → (run env posts (handleUpdatePost posts a e)).Successful →
      Dense (applyTrace env store (run env posts (handleUpdatePost posts a e)).st.trace)) ∧
    (∀ d : Option Post, (run env posts (handleDeletePost posts d)).Successful →
      Dense (applyTrace env store (run env posts (handleDeletePost posts d)).st.trace)) := by
  refine ⟨?_, ?_, ?_⟩
  · intro a hs
    obtain ⟨-, hadd, hok, -, -⟩ := Eff.Sat.outcome (handleAddPost_sat env posts a)
    obtain ⟨d, hd⟩ := hok hs.1
    have hmem : (⟨Call.addDoc d, true⟩ : Event) ∈ (run env posts (handleAddPost posts a)).st.trace := by
      have : (⟨Call.addDoc d, true⟩ : Event) ∈ storeCalls (run env posts (handleAddPost posts a)).st.trace := by
        rw [hd]; simp
      exact (List.mem_filter.mp this).1
    rw [applyTrace_of_storeCalls_single env store _ _ hd]
    exact add_dense hmirror hseq _ (hadd _ hmem d rfl).1
  · intro a e t he ht h0 h1 hs
    obtain ⟨-, hok⟩ := Eff.Sat.outcome (handleUpdatePost_sat env posts a e)
    obtain ⟨f, hf, hford, -⟩ := hok hs.1
    rw [applyTrace_of_storeCalls_single env store _ _ hf, applyCall_batchCommit, ht]
    by_cases hne : t = e.order
    · subst hne
      exact same_dense hmirror hseq hids he f hford
    · exact move_dense hmirror hids he f t hne
  · intro d hs
    cases d with
    | none => exact Dense.of_perm_sequenced hmirror hseq
    | some d =>
      by_cases hid : d.id = ""
      · have : (run env posts (handleDeletePost posts (some d))).st.trace = [] := by
          show (handleDeletePost posts (some d) env (St.init posts)).2.trace = []
          simp only [handleDeletePost, hid, if_true]
          rfl
        rw [this]
        exact Dense.of_perm_sequenced hmirror hseq
      · obtain ⟨-, -, hok⟩ := Eff.Sat.outcome (handleDeletePost_sat env posts d hid)
        obtain ⟨hsc, -⟩ := hok hs.2
        rw [applyTrace_storeCalls, hsc]
        show Dense (applyCall env (applyCall env store (Call.deleteDoc d.id)) (Call.batchCommit _))
        rw [applyCall_batchCommit]
        exact delete_dense hmirror hseq hids d

/-- Witness of C1 on the list [0:A, 1:B, 2:C]: an add, a move of A to position 2 and
a delete of B each leave a dense store. -/
theorem density_invariant_witness :
    Dense (applyTrace sampleEnv samplePosts
      (run sampleEnv samplePosts (handleAddPost samplePosts sampleForm)).st.trace) ∧
    Dense (applyTrace sampleEnv samplePosts
      (run sampleEnv samplePosts
        (handleUpdatePost samplePosts { sampleForm with targetOrder := some 2 }
          (samplePost "A" 0))).st.trace) ∧
    Dense (applyTrace sampleEnv samplePosts
      (run sampleEnv samplePosts
        (handleDeletePost samplePosts (some (samplePost "B" 1)))).st.trace) :=
  ⟨(density_invariant sampleEnv samplePosts samplePosts (List.Perm.refl _) (by decide)
      (by decide)).1 sampleForm (by decide),
   (density_invariant sampleEnv samplePosts samplePosts (List.Perm.refl _) (by decide)
      (by decide)).2.1 { sampleForm with targetOrder := some 2 } (samplePost "A" 0) 2
      (by decide) rfl (by decide) (by decide) (by decide),
   (density_invariant sampleEnv samplePosts samplePosts (List.Perm.refl _) (by decide)
      (by decide)).2.2 (some (samplePost "B" 1)) (by decide)⟩

/-- Order of the post at index `j` of the filtered list after the reorder batch:
`j` before the target index, `j + 1` from the target index on. -/
theorem move_order_filter_index {posts : List Post} (hids : (posts.map Post.id).Nodup)
    {e : Post} (he : e ∈ posts) (f : PostFields) (t : Int) (h0 : 0 ≤ t)
    (h1 : t < posts.length) (hne : t ≠ e.order) (j : Nat)
    (hj : j < (posts.filter (fun p => decide (p.id ≠ e.id))).length) :
    (applyWrites (batchUpdates posts e f (some t))
      (posts.filter (fun p => decide (p.id ≠ e.id)))[j]).order =
      if j < t.toNat then (j : Int) else ((j + 1 : Nat) : Int) := by
  have hmem : (posts.filter (fun p => decide (p.id ≠ e.id)))[j] ∈ posts :=
    (List.mem_filter.mp (List.getElem_mem hj)).1
  have hlen : (jsSplice (posts.filter (fun p => decide (p.id ≠ e.id))) t e).length =
      (posts.filter (fun p => decide (p.id ≠ e.id))).length + 1 := by
    rw [move_splice_eq hids he h0 h1]
    simp only [List.length_append, List.length_cons, List.length_take, List.length_drop]
    have := target_le_filter_length hids he h1
    omega
  by_cases hjt : j < t.toNat
  · rw [if_pos hjt]
    apply move_order_index hids he f t hne e rfl _ hmem j (by omega)
    simp only [move_splice_eq hids he h0 h1]
    rw [splice_getElem_lt _ _ _ j hj hjt]
  · rw [if_neg hjt]
    apply move_order_index hids he f t hne e rfl _ hmem (j + 1) (by omega)
    simp only [move_splice_eq hids he h0 h1]
    rw [splice_getElem_ge _ _ _ j hj (by omega)]

theorem mem_filter_of_id_ne {posts : List Post} {p e : Post} (hp : p ∈ posts)
    (h : p.id ≠ e.id) : p ∈ posts.filter (fun p => decide (p.id ≠ e.id)) :=
  List.mem_filter.mpr ⟨hp, by simpa using h⟩

theorem index_lt_of_order_lt {l : List Post} (hl : l.Pairwise (fun a b => a.order < b.order))
    (i j : Nat) (hi : i < l.length) (hj : j < l.length) (h : l[i].order < l[j].order) :
    i < j := by
  by_contra hc
  rcases Nat.lt_or_ge j i with hji | hji
  · have := List.pairwise_iff_getElem.mp hl j i hj hi hji
    omega
  · have : i = j := by omega
    subst this
    omega

/-- Claim C2. Move correctness: for a dense list `posts` with distinct ids mirrored by
the store, a record `e` of it and a target `t` in [0, N-1] other than its current
order, a successful `handleUpdatePost` leaves the same records in the store with
orders equal to the positional indices of the sequence obtained by removing `e`
from `posts` and splicing it back in at index `t`: the record at index `i` of that
sequence has order `i`, `e` has order `t`, and all other records keep their
relative order. -/
theorem move_correct (env : Env) (store posts : List Post) (a : FormData) (e : Post)
    (t : Int) (hmirror : store.Perm posts) (hseq : Sequenced posts)
    (hids : (posts.map Post.id).Nodup) (he : e ∈ posts) (ht : a.targetOrder = some t)
    (h0 : 0 ≤ t) (h1 : t < posts.length) (hne : t ≠ e.order)
    (hs : (run env posts (handleUpdatePost posts a e)).Successful) :
    (applyTrace env store (run env posts (handleUpdatePost posts a e)).st.trace).map Post.id =
      store.map Post.id ∧
    (jsSplice (posts.filter (fun p => decide (p.id ≠ e.id))) t e).length = posts.length ∧
    (∀ (i : Nat) (hi : i < (jsSplice (posts.filter (fun p => decide (p.id ≠ e.id))) t e).length),
      ∀ p ∈ applyTrace env store (run env posts (handleUpdatePost posts a e)).st.trace,
        p.id = (jsSplice (posts.filter (fun p => decide (p.id ≠ e.id))) t e)[i].id →
        p.order = (i : Int)) ∧
    (∀ p ∈ applyTrace env store (run env posts (handleUpdatePost posts a e)).st.trace,
      p.id = e.id → p.order = t) ∧
    (∀ p ∈ store, ∀ q ∈ store, p.id ≠ e.id → q.id ≠ e.id → p.order < q.order →
      ∀ p1 ∈ applyTrace env store (run env posts (handleUpdatePost posts a e)).st.trace,
      ∀ q1 ∈ applyTrace env store (run env posts (handleUpdatePost posts a e)).st.trace,
        p1.id = p.id → q1.id = q.id → p1.order < q1.order) := by
  obtain ⟨-, hok⟩ := Eff.Sat.outcome (handleUpdatePost_sat env posts a e)
  obtain ⟨f, hf, -, -⟩ := hok hs.1
  rw [applyTrace_of_storeCalls_single env store _ _ hf, applyCall_batchCommit, ht]
  have hle := target_le_filter_length hids he h1
  have hflen := filter_length hids he
  have hlen : (jsSplice (posts.filter (fun p => decide (p.id ≠ e.id))) t e).length =
      posts.length := by
    rw [move_splice_eq hids he h0 h1]
    simp only [List.length_append, List.length_cons, List.length_take, List.length_drop]
    omega
  have hafter : ∀ p1 ∈ store.map (applyWrites (batchUpdates posts e f (some t))),
      ∃ p ∈ posts, p1 = applyWrites (batchUpdates posts e f (some t)) p := by
    intro p1 hp1
    obtain ⟨p, hp, rfl⟩ := List.mem_map.mp hp1
    exact ⟨p, hmirror.subset hp, rfl⟩
  refine ⟨?_, hlen, ?_, ?_, ?_⟩
  · rw [List.map_map]
    apply List.map_congr_left
    intro p _
    simp
  · intro i hi p1 hp1 hid
    obtain ⟨p, hp, rfl⟩ := hafter p1 hp1
    rw [applyWrites_id] at hid
    exact move_order_index hids he f t hne e rfl p hp i hi hid.symm
  · intro p1 hp1 hid
    obtain ⟨p, hp, rfl⟩ := hafter p1 hp1
    rw [applyWrites_id] at hid
    have hidx : t.toNat < (jsSplice (posts.filter (fun p => decide (p.id ≠ e.id))) t e).length := by
      omega
    have := move_order_index hids he f t hne e rfl p hp t.toNat hidx (by
      simp only [move_splice_eq hids he h0 h1]
      rw [splice_getElem_self _ _ _ (by omega)]
      exact hid.symm)
    rw [this]
    omega
  · intro p hp q hq hpe hqe hlt p1 hp1 q1 hq1 hp1id hq1id
    obtain ⟨p2, hp2, rfl⟩ := hafter p1 hp1
    obtain ⟨q2, hq2, rfl⟩ := hafter q1 hq1
    rw [applyWrites_id] at hp1id hq1id
    have hpp : p2 = p := eq_of_id_eq hids hp2 (hmirror.subset hp) hp1id
    have hqq : q2 = q := eq_of_id_eq hids hq2 (hmirror.subset hq) hq1id
    subst hpp hqq
    obtain ⟨i, hi, hpi⟩ := List.mem_iff_getElem.mp (mem_filter_of_id_ne hp2 hpe)
    obtain ⟨j, hj, hqj⟩ := List.mem_iff_getElem.mp (mem_filter_of_id_ne hq2 hqe)
    have hpw : (posts.filter (fun p => decide (p.id ≠ e.id))).Pairwise
        (fun a b => a.order < b.order) := hseq.pairwise_lt.filter _
    have hij : i < j := index_lt_of_order_lt hpw i j hi hj (by rw [hpi, hqj]; exact hlt)
    have e1 := move_order_filter_index hids he f t h0 h1 hne i hi
    have e2 := move_order_filter_index hids he f t h0 h1 hne j hj
    rw [hpi] at e1
    rw [hqj] at e2
    rw [e1, e2]
    split <;> split <;> omega

/-- Witness of C2 on the list [0:A, 1:B]: moving A to position 1 commits the plan
{B:0, A:1} and leaves A with order 1. -/
theorem move_correct_witness :
    (committedBatches (run sampleEnv [samplePost "A" 0, samplePost "B" 1]
      (handleUpdatePost [samplePost "A" 0, samplePost "B" 1]
        { sampleForm with targetOrder := some 1 } (samplePost "A" 0))).st.trace).map orderPlan =
      [[("B", 0), ("A", 1)]] ∧
    ∀ p ∈ applyTrace sampleEnv [samplePost "A" 0, samplePost "B" 1]
        (run sampleEnv [samplePost "A" 0, samplePost "B" 1]
          (handleUpdatePost [samplePost "A" 0, samplePost "B" 1]
            { sampleForm with targetOrder := some 1 } (samplePost "A" 0))).st.trace,
      p.id = (samplePost "A" 0).id → p.order = 1 :=
  ⟨by decide,
   (move_correct sampleEnv [samplePost "A" 0, samplePost "B" 1]
      [samplePost "A" 0, samplePost "B" 1] { sampleForm with targetOrder := some 1 }
      (samplePost "A" 0) 1 (List.Perm.refl _) (by decide) (by decide) (by decide) rfl
      (by decide) (by decide) (by decide) (by decide)).2.2.2.1⟩

theorem filter_eq_eraseIdx {posts : List Post} (hids : (posts.map Post.id).Nodup)
    (o : Nat) (ho : o < posts.length) :
    posts.filter (fun p => decide (p.id ≠ posts[o].id)) = posts.eraseIdx o := by
  induction posts generalizing o with
  | nil => simp at ho
  | cons x xs ih =>
    rw [List.map_cons, List.nodup_cons] at hids
    cases o with
    | zero =>
      simp only [List.getElem_cons_zero, List.eraseIdx_cons_zero]
      rw [List.filter_cons_of_neg (by simp)]
      apply List.filter_eq_self.mpr
      intro p hp
      have : p.id ≠ x.id := fun h => hids.1 (h ▸ List.mem_map_of_mem _ hp)
      simpa using this
    | succ o =>
      have ho1 : o < xs.length := by simpa using ho
      simp only [List.getElem_cons_succ, List.eraseIdx_cons_succ]
      have hne : x.id ≠ xs[o].id :=
        fun h => hids.1 (h ▸ List.mem_map_of_mem _ (List.getElem_mem ho1))
      rw [List.filter_cons_of_pos (by simpa using hne)]
      rw [ih hids.2 o ho1]

/-- Index among the remaining posts of a post other than the removed one: its
former order, less one when it followed the removed post. -/
theorem filter_index {posts : List Post} (hseq : Sequenced posts)
    (hids : (posts.map Post.id).Nodup) {d : Post} (hd : d ∈ posts) {q : Post}
    (hq : q ∈ posts) (hne : q.id ≠ d.id) :
    ∃ (j : Nat) (hj : j < (posts.filter (fun p => decide (p.id ≠ d.id))).length),
      (posts.filter (fun p => decide (p.id ≠ d.id)))[j] = q ∧
      (j : Int) = if d.order < q.order then q.order - 1 else q.order := by
  obtain ⟨o, ho, hdo⟩ := List.mem_iff_getElem.mp hd
  obtain ⟨i, hi, hqi⟩ := List.mem_iff_getElem.mp hq
  have hordd : d.order = (o : Int) := by rw [← hdo]; exact hseq.order_getElem o ho
  have hordq : q.order = (i : Int) := by rw [← hqi]; exact hseq.order_getElem i hi
  have hio : i ≠ o := by
    intro h
    subst h
    exact hne (by rw [← hqi, ← hdo])
  have hF : posts.filter (fun p => decide (p.id ≠ d.id)) = posts.eraseIdx o := by
    rw [← hdo]; exact filter_eq_eraseIdx hids o ho
  have hlen : (posts.eraseIdx o).length = posts.length - 1 := List.length_eraseIdx_of_lt ho
  simp only [hF]
  by_cases hlt : i < o
  · refine ⟨i, by omega, ?_, ?_⟩
    · rw [List.getElem_eraseIdx_of_lt _ _ _ _ hlt]; exact hqi
    · rw [hordd, hordq, if_neg (by omega)]
  · refine ⟨i - 1, by omega, ?_, ?_⟩
    · rw [List.getElem_eraseIdx_of_ge _ _ _ _ (by omega)]
      have : i - 1 + 1 = i := by omega
      simp only [this]
      exact hqi
    · rw [hordd, hordq, if_pos (by omega)]
      omega

theorem remainingPosts_getElem {posts : List Post} (hseq : Sequenced posts) (d : Post)
    (j : Nat) (hj : j < (posts.filter (fun p => decide (p.id ≠ d.id))).length) :
    ({ (posts.filter (fun p => decide (p.id ≠ d.id)))[j] with order := (j : Int) } : Post) ∈
      remainingPosts posts d := by
  rw [remainingPosts_eq hseq, List.mem_map]
  exact ⟨(j, (posts.filter (fun p => decide (p.id ≠ d.id)))[j]),
    List.mk_mem_enum_iff_getElem?.mpr (List.getElem?_eq_getElem hj), rfl⟩

theorem remainingPosts_sequenced {posts : List Post} (hseq : Sequenced posts) (d : Post) :
    Sequenced (remainingPosts posts d) := by
  rw [remainingPosts_eq hseq]
  unfold Sequenced
  rw [List.map_map, List.length_map, List.enum_length]
  have : (Post.order ∘ fun (ip : Nat × Post) => ({ ip.2 with order := (ip.1 : Int) } : Post)) =
      Int.ofNat ∘ Prod.fst := by
    funext ip; rfl
  rw [this, ← List.map_map, List.enum_map_fst]

theorem remainingPosts_length {posts : List Post} (hseq : Sequenced posts)
    (hids : (posts.map Post.id).Nodup) {d : Post} (hd : d ∈ posts) :
    (remainingPosts posts d).length + 1 = posts.length := by
  rw [remainingPosts_eq hseq, List.length_map, List.enum_length]
  exact filter_length hids hd

/-- Claim C3. Removal correctness: for a dense list `posts` with distinct ids mirrored
by the store and a record `d` of it (with the non-empty id the store gives every
record), a successful `handleDeletePost` sets as remaining list a list of size N-1
whose orders are 0..N-2, in which every other record formerly ordered after `d` has
its order decremented by 1 and every record formerly ordered before `d` keeps its
order; the store after the writes is dense, has N-1 records and holds the same
orders. -/
theorem removal_correct (env : Env) (store posts : List Post) (d : Post)
    (hmirror : store.Perm posts) (hseq : Sequenced posts)
    (hids : (posts.map Post.id).Nodup) (hd : d ∈ posts) (hid : d.id ≠ "")
    (hs : (run env posts (handleDeletePost posts (some d))).Successful) :
    (run env posts (handleDeletePost posts (some d))).st.posts.length + 1 = posts.length ∧
    Sequenced (run env posts (handleDeletePost posts (some d))).st.posts ∧
    (∀ q ∈ posts, q.id ≠ d.id →
      ∃ r ∈ (run env posts (handleDeletePost posts (some d))).st.posts, r.id = q.id ∧
        r.order = if d.order < q.order then q.order - 1 else q.order) ∧
    Dense (applyTrace env store (run env posts (handleDeletePost posts (some d))).st.trace) ∧
    (applyTrace env store
      (run env posts (handleDeletePost posts (some d))).st.trace).length + 1 = store.length ∧
    (∀ q ∈ store, q.id ≠ d.id →
      ∃ r ∈ applyTrace env store (run env posts (handleDeletePost posts (some d))).st.trace,
        r.id = q.id ∧ r.order = if d.order < q.order then q.order - 1 else q.order) := by
  obtain ⟨-, -, hok⟩ := Eff.Sat.outcome (handleDeletePost_sat env posts d hid)
  obtain ⟨hsc, hposts⟩ := hok hs.2
  have hafter : applyTrace env store
      (run env posts (handleDeletePost posts (some d))).st.trace =
      (store.filter (fun p => decide (p.id ≠ d.id))).map
        (applyWrites (deleteUpdates posts (remainingPosts posts d))) := by
    rw [applyTrace_storeCalls, hsc]
    show applyCall env (applyCall env store (Call.deleteDoc d.id)) (Call.batchCommit _) = _
    rw [applyCall_batchCommit]
    rfl
  rw [hafter, hposts]
  refine ⟨remainingPosts_length hseq hids hd, remainingPosts_sequenced hseq d, ?_,
    delete_dense hmirror hseq hids d, ?_, ?_⟩
  · intro q hq hne
    obtain ⟨j, hj, hFj, hjo⟩ := filter_index hseq hids hd hq hne
    refine ⟨_, remainingPosts_getElem hseq d j hj, ?_, ?_⟩
    · show (posts.filter (fun p => decide (p.id ≠ d.id)))[j].id = q.id
      rw [hFj]
    · exact hjo
  · rw [List.length_map, (hmirror.filter _).length_eq, hmirror.length_eq]
    exact filter_length hids hd
  · intro q hq hne
    have hqp : q ∈ posts := hmirror.subset hq
    obtain ⟨j, hj, hFj, hjo⟩ := filter_index hseq hids hd hqp hne
    refine ⟨applyWrites (deleteUpdates posts (remainingPosts posts d)) q,
      List.mem_map_of_mem _ (mem_filter_of_id_ne hq hne), applyWrites_id _ _, ?_⟩
    rw [delete_order_index hseq hids d q hqp j hj (by rw [hFj])]
    exact hjo

/-- Witness of C3 on the list [0:A, 1:B, 2:C]: deleting B commits the plan {C:1} and
leaves the remaining list [0:A, 1:C]. -/
theorem removal_correct_witness :
    (committedBatches (run sampleEnv samplePosts
      (handleDeletePost samplePosts (some (samplePost "B" 1)))).st.trace).map orderPlan =
      [[("C", 1)]] ∧
    (run sampleEnv samplePosts
      (handleDeletePost samplePosts (some (samplePost "B" 1)))).st.posts.map
        (fun p => (p.id, p.order)) = [("A", 0), ("C", 1)] ∧
    Sequenced (run sampleEnv samplePosts
      (handleDeletePost samplePosts (some (samplePost "B" 1)))).st.posts :=
  ⟨by decide, by decide,
   (removal_correct sampleEnv samplePosts samplePosts (samplePost "B" 1) (List.Perm.refl _)
      (by decide) (by decide) (by decide) (by decide) (by decide)).2.1⟩

theorem committedBatches_storeCalls (trace : List Event) :
    committedBatches trace = committedBatches (storeCalls trace) := by
  induction trace with
  | nil => rfl
  | cons ev tr ih =>
    obtain ⟨c, b⟩ := ev
    cases c <;> simp [committedBatches, List.filterMap_cons] at ih ⊢ <;> rw [ih]

theorem mem_trace_of_storeCalls {trace : List Event} {ev : Event}
    (h : ev ∈ storeCalls trace) : ev ∈ trace :=
  (List.mem_filter.mp h).1

/-- Counterexample to C4 on the list [0:A, 1:B, 2:C]: adding D with target position 1
stores D with order 3 and leaves B and C at orders 1 and 2. -/
theorem insert_at_target_counterexample :
    sampleForm.targetOrder = some 1 ∧
    (applyTrace sampleEnv samplePosts
      (run sampleEnv samplePosts (handleAddPost samplePosts sampleForm)).st.trace).map
        (fun p => (p.id, p.order)) = [("A", 0), ("B", 1), ("C", 2), ("D", 3)] := by
  decide

/-- Claim C4, amended. For every list of N posts mirrored by the store and every
target position passed as `targetOrder`, a successful `handleAddPost` yields the
old collection, every record unchanged, followed by the new record with order N. -/
theorem add_appends_to_store (env : Env) (store posts : List Post) (a : FormData)
    (hmirror : store.Perm posts)
    (hs : (run env posts (handleAddPost posts a)).Successful) :
    ∃ d : NewPostData,
      applyTrace env store (run env posts (handleAddPost posts a)).st.trace =
        store ++ [d.toPost env.newId] ∧
      (d.toPost env.newId).order = (store.length : Int) := by
  obtain ⟨-, hadd, hok, -, -⟩ := Eff.Sat.outcome (handleAddPost_sat env posts a)
  obtain ⟨d, hd⟩ := hok hs.1
  have hmem : (⟨Call.addDoc d, true⟩ : Event) ∈
      (run env posts (handleAddPost posts a)).st.trace :=
    mem_trace_of_storeCalls (by rw [hd]; simp)
  refine ⟨d, ?_, ?_⟩
  · rw [applyTrace_of_storeCalls_single env store _ _ hd]
    rfl
  · rw [hmirror.length_eq]
    exact (hadd _ hmem d rfl).1

/-- Witness of the amended C4 on the list [0:A, 1:B, 2:C] with target position 1. -/
theorem add_appends_to_store_witness :
    ∃ d : NewPostData,
      applyTrace sampleEnv samplePosts
        (run sampleEnv samplePosts (handleAddPost samplePosts sampleForm)).st.trace =
        samplePosts ++ [d.toPost sampleEnv.newId] ∧
      (d.toPost sampleEnv.newId).order = (samplePosts.length : Int) :=
  add_appends_to_store sampleEnv samplePosts samplePosts sampleForm (List.Perm.refl _)
    (by decide)

/-- Claim C5. Add appends: in every successful `handleAddPost` run, whatever the
form (its `targetOrder` included), the record store sees exactly one call, the
creation of a record with order `posts.length`, and no batch is committed or even
issued, so no existing record's order is written. -/
theorem add_order_is_length (env : Env) (posts : List Post) (a : FormData)
    (hs : (run env posts (handleAddPost posts a)).Successful) :
    (∃ d : NewPostData,
      storeCalls (run env posts (handleAddPost posts a)).st.trace = [⟨Call.addDoc d, true⟩] ∧
      d.order = (posts.length : Int)) ∧
    committedBatches (run env posts (handleAddPost posts a)).st.trace = [] ∧
    ∀ ev ∈ (run env posts (handleAddPost posts a)).st.trace,
      ∀ w, ev.call ≠ Call.batchCommit w := by
  obtain ⟨hno, hadd, hok, -, -⟩ := Eff.Sat.outcome (handleAddPost_sat env posts a)
  obtain ⟨d, hd⟩ := hok hs.1
  have hmem : (⟨Call.addDoc d, true⟩ : Event) ∈
      (run env posts (handleAddPost posts a)).st.trace :=
    mem_trace_of_storeCalls (by rw [hd]; simp)
  refine ⟨⟨d, hd, (hadd _ hmem d rfl).1⟩, ?_, fun ev hev => (hno ev hev).1⟩
  rw [committedBatches_storeCalls, hd]
  rfl

/-- Witness of C5: the sample add on [0:A, 1:B, 2:C] succeeds. -/
theorem add_order_is_length_witness :
    (∃ d : NewPostData,
      storeCalls (run sampleEnv samplePosts
        (handleAddPost samplePosts sampleForm)).st.trace = [⟨Call.addDoc d, true⟩] ∧
      d.order = (samplePosts.length : Int)) ∧
    committedBatches (run sampleEnv samplePosts
      (handleAddPost samplePosts sampleForm)).st.trace = [] ∧
    ∀ ev ∈ (run sampleEnv samplePosts (handleAddPost samplePosts sampleForm)).st.trace,
      ∀ w, ev.call ≠ Call.batchCommit w :=
  add_order_is_length sampleEnv samplePosts sampleForm (by decide)

/-- Counterexample to C6 on the list [0:A, 1:B, 2:C]: editing A with target position
0, its current order, commits a batch whose order plan is {A:0}, not empty. -/
theorem move_to_same_counterexample :
    (samplePost "A" 0).order = 0 ∧
    (committedBatches (run sampleEnv samplePosts
      (handleUpdatePost samplePosts { sampleForm with targetOrder := some 0 }
        (samplePost "A" 0))).st.trace).map orderPlan = [[("A", 0)]] := by
  decide

/-- Claim C6, amended. For a list with distinct ids mirrored by the store and a
record `e` of it, a successful `handleUpdatePost` with `targetOrder` equal to the
current order of `e` commits one batch whose updates all address `e`, whose only
order write is the current order of `e`, and which leaves every stored order as
it was. -/
theorem move_to_same_order (env : Env) (store posts : List Post) (a : FormData) (e : Post)
    (hmirror : store.Perm posts) (hids : (posts.map Post.id).Nodup) (he : e ∈ posts)
    (ht : a.targetOrder = some e.order)
    (hs : (run env posts (handleUpdatePost posts a e)).Successful) :
    (∃ ws, committedBatches (run env posts (handleUpdatePost posts a e)).st.trace = [ws] ∧
      orderPlan ws = [(e.id, e.order)] ∧ ∀ w ∈ ws, w.1 = e.id) ∧
    (applyTrace env store (run env posts (handleUpdatePost posts a e)).st.trace).map
      (fun p => (p.id, p.order)) = store.map (fun p => (p.id, p.order)) := by
  obtain ⟨-, hok⟩ := Eff.Sat.outcome (handleUpdatePost_sat env posts a e)
  obtain ⟨f, hf, hford, -⟩ := hok hs.1
  rw [ht] at hf
  constructor
  · refine ⟨_, by rw [committedBatches_storeCalls, hf]; rfl, ?_, ?_⟩
    · rw [batchUpdates_same posts e f hford]
      simp [orderPlan, hford, PostFields.empty]
    · rw [batchUpdates_same posts e f hford]
      simp
  · rw [applyTrace_of_storeCalls_single env store _ _ hf, applyCall_batchCommit,
      List.map_map]
    apply List.map_congr_left
    intro p hp
    simp only [Function.comp, applyWrites_id]
    rw [applyWrites_same_order hids he f hford p (hmirror.subset hp)]

/-- Witness of the amended C6 on the list [0:A, 1:B, 2:C], editing A in place. -/
theorem move_to_same_order_witness :
    (applyTrace sampleEnv samplePosts (run sampleEnv samplePosts
      (handleUpdatePost samplePosts { sampleForm with targetOrder := some 0 }
        (samplePost "A" 0))).st.trace).map (fun p => (p.id, p.order)) =
      samplePosts.map (fun p => (p.id, p.order)) :=
  (move_to_same_order sampleEnv samplePosts samplePosts
    { sampleForm with targetOrder := some 0 } (samplePost "A" 0) (List.Perm.refl _)
    (by decide) (by decide) rfl (by decide)).2

theorem plan_ids_sublist (g : Nat × Post → Option (String × PostFields))
    (hg : WritesIndex g) (l : List Post) (k : Nat) :
    (((l.enumFrom k).filterMap g).map Prod.fst).Sublist (l.map Post.id) := by
  induction l generalizing k with
  | nil => simp
  | cons x xs ih =>
    rw [List.enumFrom_cons, List.map_cons]
    cases hgx : g (k, x) with
    | none =>
      rw [List.filterMap_cons_none hgx]
      exact (ih (k + 1)).cons _
    | some w =>
      rw [List.filterMap_cons_some hgx, List.map_cons, (hg _ _ hgx).1]
      exact (ih (k + 1)).cons₂ _

theorem orderPlan_ids_sublist (ws : List (String × PostFields)) :
    ((orderPlan ws).map Prod.fst).Sublist (ws.map Prod.fst) := by
  induction ws with
  | nil => simp [orderPlan]
  | cons w ws ih =>
    unfold orderPlan at ih ⊢
    cases ho : w.2.order with
    | none =>
      rw [List.filterMap_cons_none (by simp [ho]), List.map_cons]
      exact ih.cons _
    | some o =>
      rw [List.filterMap_cons_some (by simp [ho]; rfl), List.map_cons, List.map_cons]
      exact ih.cons₂ _

theorem orderPlan_enum_ids_nodup (g : Nat × Post → Option (String × PostFields))
    (hg : WritesIndex g) (l : List Post) (hl : (l.map Post.id).Nodup) :
    ((orderPlan (l.enum.filterMap g)).map Prod.fst).Nodup :=
  (hl.sublist (plan_ids_sublist g hg l 0)).sublist (orderPlan_ids_sublist _)

/-- Pairs of the order plan of a batch generated from an enumeration of `l`: one for
each index at which a write is generated, holding the id there and the index. -/
theorem mem_orderPlan_enum (g : Nat × Post → Option (String × PostFields))
    (hg : WritesIndex g) (l : List Post) (id : String) (n : Int) :
    (id, n) ∈ orderPlan (l.enum.filterMap g) ↔
      ∃ (i : Nat) (hi : i < l.length), (g (i, l[i])).isSome = true ∧ l[i].id = id ∧
        n = (i : Int) := by
  unfold orderPlan
  simp only [List.mem_filterMap]
  constructor
  · rintro ⟨w, ⟨ip, hip, hgw⟩, hw⟩
    obtain ⟨i, x⟩ := ip
    rw [List.mk_mem_enum_iff_getElem?] at hip
    obtain ⟨hi, hx⟩ := List.getElem?_eq_some.mp hip
    obtain ⟨hw1, hw2⟩ := hg _ _ hgw
    rw [hw2] at hw
    simp only [Option.map_some', Option.some.injEq, Prod.mk.injEq] at hw
    refine ⟨i, hi, ?_, ?_, hw.2.symm⟩
    · rw [hx, hgw]; rfl
    · rw [hx, ← hw.1, hw1]
  · rintro ⟨i, hi, hsome, hid, hn⟩
    obtain ⟨w, hw⟩ := Option.isSome_iff_exists.mp hsome
    obtain ⟨hw1, hw2⟩ := hg _ _ hw
    refine ⟨w, ⟨(i, l[i]), List.mk_mem_enum_iff_getElem?.mpr (List.getElem?_eq_getElem hi), hw⟩, ?_⟩
    rw [hw2]
    simp only [Option.map_some', Option.some.injEq, Prod.mk.injEq]
    exact ⟨hw1.trans hid, hn.symm⟩

theorem deleteWrite_isSome_iff {posts : List Post} (hids : (posts.map Post.id).Nodup)
    (l : List Post) (hl : ∀ p ∈ l, p ∈ posts) (i : Nat) (hi : i < l.length) :
    (deleteWrite posts (i, l[i])).isSome = true ↔
      ∃ q ∈ posts, q.id = l[i].id ∧ q.order ≠ (i : Int) := by
  have hmem : l[i] ∈ posts := hl _ (List.getElem_mem _)
  unfold deleteWrite
  rw [find?_id_eq_some hids hmem _ rfl]
  simp only []
  constructor
  · intro h
    refine ⟨l[i], hmem, rfl, ?_⟩
    intro hc
    rw [if_neg (by simpa using hc)] at h
    cases h
  · rintro ⟨q, hq, hqid, hqo⟩
    have : q = l[i] := eq_of_id_eq hids hq hmem hqid
    subst this
    rw [if_pos hqo]
    rfl

theorem jsSplice_length_congr {α : Type} (xs : List α) (t : Int) (x y : α) :
    (jsSplice xs t x).length = (jsSplice xs t y).length := by
  have h := congrArg List.length (jsSplice_map (fun _ => ()) xs t x)
  have h2 := congrArg List.length (jsSplice_map (fun _ => ()) xs t y)
  simp only [List.length_map] at h h2
  rw [h, h2]

theorem jsSplice_getElem_id (xs : List Post) (t : Int) (x y : Post) (hxy : x.id = y.id)
    (i : Nat) (hi : i < (jsSplice xs t x).length) (hi2 : i < (jsSplice xs t y).length) :
    (jsSplice xs t x)[i].id = (jsSplice xs t y)[i].id := by
  have h1 : ((jsSplice xs t x).map Post.id)[i]? = ((jsSplice xs t y).map Post.id)[i]? := by
    rw [jsSplice_map, jsSplice_map, hxy]
  simpa [List.getElem?_map, List.getElem?_eq_getElem hi, List.getElem?_eq_getElem hi2] using h1

theorem moveWrite_isSome_iff {posts : List Post} (hids : (posts.map Post.id).Nodup)
    {e : Post} (he : e ∈ posts) (fields : PostFields) (t : Int) (h0 : 0 ≤ t)
    (h1 : t < posts.length) (hne : t ≠ e.order) (x : Post) (hx : x.id = e.id) (i : Nat)
    (hi : i < (jsSplice (posts.filter (fun p => decide (p.id ≠ e.id))) t x).length) :
    (moveWrite posts e fields
      (i, (jsSplice (posts.filter (fun p => decide (p.id ≠ e.id))) t x)[i])).isSome = true ↔
      ∃ q ∈ posts,
        q.id = (jsSplice (posts.filter (fun p => decide (p.id ≠ e.id))) t x)[i].id ∧
        q.order ≠ (i : Int) := by
  have hnd := move_splice_ids_nodup hids he t x hx
  have hmemid : (jsSplice (posts.filter (fun p => decide (p.id ≠ e.id))) t x)[i].id ∈
      posts.map Post.id :=
    (move_splice_ids_perm hids he t x hx).subset (List.mem_map_of_mem _ (List.getElem_mem _))
  obtain ⟨q, hq, hqid⟩ := List.mem_map.mp hmemid
  have hfind := find?_id_eq_some hids hq _ hqid
  have hle := target_le_filter_length hids he h1
  have hlen : (jsSplice (posts.filter (fun p => decide (p.id ≠ e.id))) t x).length =
      (posts.filter (fun p => decide (p.id ≠ e.id))).length + 1 := by
    rw [move_splice_eq hids he h0 h1]
    simp only [List.length_append, List.length_cons, List.length_take, List.length_drop]
    omega
  have hself : ∀ (ht : t.toNat < (jsSplice (posts.filter (fun p => decide (p.id ≠ e.id))) t x).length),
      (jsSplice (posts.filter (fun p => decide (p.id ≠ e.id))) t x)[t.toNat] = x := by
    intro ht
    simp only [move_splice_eq hids he h0 h1]
    exact splice_getElem_self _ _ _ (by omega) _
  unfold moveWrite
  simp only [hfind, Option.map_some']
  constructor
  · intro h
    refine ⟨q, hq, hqid, ?_⟩
    intro hqo
    by_cases hie : (jsSplice (posts.filter (fun p => decide (p.id ≠ e.id))) t x)[i].id = e.id
    · have hqe : q = e := eq_of_id_eq hids hq he (hqid.trans hie)
      have hidx : i = t.toNat := by
        have ht : t.toNat < (jsSplice (posts.filter (fun p => decide (p.id ≠ e.id))) t x).length := by
          omega
        have hi2 : i < ((jsSplice (posts.filter (fun p => decide (p.id ≠ e.id))) t x).map Post.id).length := by
          simpa using hi
        have ht2 : t.toNat < ((jsSplice (posts.filter (fun p => decide (p.id ≠ e.id))) t x).map Post.id).length := by
          simpa using ht
        apply (@List.Nodup.getElem_inj_iff _ _ hnd i hi2 t.toNat ht2).mp
        simp only [List.getElem_map]
        rw [hie, hself ht, hx]
      subst hqe
      apply hne
      rw [hqo, hidx]
      omega
    · rw [if_neg (fun hc => hc.elim (fun hc1 => hc1 (by rw [hqo])) hie)] at h
      cases h
  · rintro ⟨q2, hq2, hq2id, hq2o⟩
    have : q2 = q := eq_of_id_eq hids hq2 hq (hq2id.trans hqid.symm)
    subst this
    have hc : some (i : Int) ≠ some q2.order ∨
        (jsSplice (posts.filter (fun p => decide (p.id ≠ e.id))) t x)[i].id = e.id :=
      Or.inl (fun h => hq2o (Option.some.inj h).symm)
    rw [if_pos hc]
    split <;> rfl

/-- Claim C7. Plan exactness: for a dense list `posts` with distinct ids, the batch
committed by a successful `handleUpdatePost` that moves a record `e` of the list to
a target `t` in [0, N-1] other than its current order, and the batch committed by a
successful `handleDeletePost`, hold at most one order write per record id, and hold
the pair (id, n) exactly when n is the index of id in the new sequence (the list
without `e` with `e` spliced in at `t`; the list without the deleted post) and the
record with that id had a stored order other than n. -/
theorem plan_exact (env : Env) (posts : List Post) (hseq : Sequenced posts)
    (hids : (posts.map Post.id).Nodup) :
    (∀ (a : FormData) (e : Post) (t : Int), e ∈ posts → a.targetOrder = some t → 0 ≤ t →
      t < posts.length → t ≠ e.order →
      (run env posts (handleUpdatePost posts a e)).Successful →
      ∃ ws, committedBatches (run env posts (handleUpdatePost posts a e)).st.trace = [ws] ∧
        ((orderPlan ws).map Prod.fst).Nodup ∧
        ∀ (id : String) (n : Int), (id, n) ∈ orderPlan ws ↔
          ∃ (i : Nat)
            (hi : i < (jsSplice (posts.filter (fun p => decide (p.id ≠ e.id))) t e).length),
            (jsSplice (posts.filter (fun p => decide (p.id ≠ e.id))) t e)[i].id = id ∧
            n = (i : Int) ∧ ∃ q ∈ posts, q.id = id ∧ q.order ≠ n) ∧
    (∀ d : Post, d.id ≠ "" →
      (run env posts (handleDeletePost posts (some d))).Successful →
      ∃ ws, committedBatches
          (run env posts (handleDeletePost posts (some d))).st.trace = [ws] ∧
        ((orderPlan ws).map Prod.fst).Nodup ∧
        ∀ (id : String) (n : Int), (id, n) ∈ orderPlan ws ↔
          ∃ (i : Nat) (hi : i < (posts.filter (fun p => decide (p.id ≠ d.id))).length),
            (posts.filter (fun p => decide (p.id ≠ d.id)))[i].id = id ∧
            n = (i : Int) ∧ ∃ q ∈ posts, q.id = id ∧ q.order ≠ n) := by
  constructor
  · intro a e t he ht h0 h1 hne hs
    obtain ⟨-, hok⟩ := Eff.Sat.outcome (handleUpdatePost_sat env posts a e)
    obtain ⟨f, hf, -, -⟩ := hok hs.1
    rw [ht, batchUpdates_move posts e f t hne] at hf
    refine ⟨_, by rw [committedBatches_storeCalls, hf]; rfl, ?_, ?_⟩
    · exact orderPlan_enum_ids_nodup _ (moveWrite_writesIndex posts e _) _
        (move_splice_ids_nodup hids he t (e.merge { f with order := some t }) rfl)
    · intro id n
      rw [mem_orderPlan_enum _ (moveWrite_writesIndex posts e _)]
      have hlen := jsSplice_length_congr (posts.filter (fun p => decide (p.id ≠ e.id))) t
        (e.merge { f with order := some t }) e
      constructor
      · rintro ⟨i, hi, hsome, hid, hn⟩
        have hi2 : i < (jsSplice (posts.filter (fun p => decide (p.id ≠ e.id))) t e).length :=
          hlen ▸ hi
        have hidc := jsSplice_getElem_id (posts.filter (fun p => decide (p.id ≠ e.id))) t
          (e.merge { f with order := some t }) e rfl i hi hi2
        rw [moveWrite_isSome_iff hids he _ t h0 h1 hne
          (e.merge { f with order := some t }) rfl i hi] at hsome
        obtain ⟨q, hq, hqid, hqo⟩ := hsome
        exact ⟨i, hi2, hidc ▸ hid, hn, q, hq, hqid.trans hid, hn ▸ hqo⟩
      · rintro ⟨i, hi2, hid, hn, q, hq, hqid, hqo⟩
        have hi : i < (jsSplice (posts.filter (fun p => decide (p.id ≠ e.id))) t
            (e.merge { f with order := some t })).length := hlen ▸ hi2
        have hidc := jsSplice_getElem_id (posts.filter (fun p => decide (p.id ≠ e.id))) t
          (e.merge { f with order := some t }) e rfl i hi hi2
        refine ⟨i, hi, ?_, hidc.trans hid, hn⟩
        rw [moveWrite_isSome_iff hids he _ t h0 h1 hne
          (e.merge { f with order := some t }) rfl i hi]
        exact ⟨q, hq, hqid.trans (hidc.trans hid).symm, hn ▸ hqo⟩
  · intro d hid hs
    obtain ⟨-, -, hok⟩ := Eff.Sat.outcome (handleDeletePost_sat env posts d hid)
    obtain ⟨hsc, -⟩ := hok hs.2
    rw [deleteUpdates_eq hseq] at hsc
    refine ⟨_, by rw [committedBatches_storeCalls, hsc]; rfl, ?_, ?_⟩
    · exact orderPlan_enum_ids_nodup _ (deleteWrite_writesIndex posts) _
        (filter_id_nodup hids _)
    · intro id n
      rw [mem_orderPlan_enum _ (deleteWrite_writesIndex posts)]
      constructor
      · rintro ⟨i, hi, hsome, hid, hn⟩
        rw [deleteWrite_isSome_iff hids _ (fun p hp => (List.mem_filter.mp hp).1) i hi] at hsome
        obtain ⟨q, hq, hqid, hqo⟩ := hsome
        exact ⟨i, hi, hid, hn, q, hq, hqid.trans hid, hn ▸ hqo⟩
      · rintro ⟨i, hi, hid, hn, q, hq, hqid, hqo⟩
        refine ⟨i, hi, ?_, hid, hn⟩
        rw [deleteWrite_isSome_iff hids _ (fun p hp => (List.mem_filter.mp hp).1) i hi]
        exact ⟨q, hq, hqid.trans hid.symm, hn ▸ hqo⟩

/-- Witness of C7 on the list [0:A, 1:B, 2:C]: moving A to position 2 commits the
plan {B:0, C:1, A:2}, and deleting B commits the plan {C:1}. -/
theorem plan_exact_witness :
    (committedBatches (run sampleEnv samplePosts
      (handleUpdatePost samplePosts { sampleForm with targetOrder := some 2 }
        (samplePost "A" 0))).st.trace).map orderPlan = [[("B", 0), ("C", 1), ("A", 2)]] ∧
    (∃ ws, committedBatches (run sampleEnv samplePosts
        (handleDeletePost samplePosts (some (samplePost "B" 1)))).st.trace = [ws] ∧
      ((orderPlan ws).map Prod.fst).Nodup ∧
      ∀ (id : String) (n : Int), (id, n) ∈ orderPlan ws ↔
        ∃ (i : Nat)
          (hi : i < (samplePosts.filter
            (fun p => decide (p.id ≠ (samplePost "B" 1).id))).length),
          (samplePosts.filter (fun p => decide (p.id ≠ (samplePost "B" 1).id)))[i].id = id ∧
          n = (i : Int) ∧ ∃ q ∈ samplePosts, q.id = id ∧ q.order ≠ n) :=
  ⟨by decide,
   (plan_exact sampleEnv samplePosts (by decide) (by decide)).2 (samplePost "B" 1)
     (by decide) (by decide)⟩

theorem merge_exclusive {p : Post} (hp : p.Exclusive) {f : PostFields}
    (hf : f.ContentSafe) : (p.merge f).Exclusive := by
  unfold Post.Exclusive at hp ⊢
  unfold PostFields.ContentSafe at hf
  rcases hf with ⟨h1, h2⟩ | h | ⟨h1, h2⟩
  · simpa [Post.merge, h1, h2] using hp
  · simp [Post.merge, h]
  · simp [Post.merge, h1, h2]

theorem contentSafe_with_order {f : PostFields} (hf : f.ContentSafe) (o : Option Int) :
    ({ f with order := o } : PostFields).ContentSafe := hf

theorem contentSafe_empty_with_order (o : Option Int) :
    ({ PostFields.empty with order := o } : PostFields).ContentSafe :=
  Or.inl ⟨rfl, rfl⟩

theorem batchUpdates_contentSafe (posts : List Post) (e : Post) {f : PostFields}
    (hf : f.ContentSafe) (t : Option Int) :
    ∀ w ∈ batchUpdates posts e f t, w.2.ContentSafe := by
  intro w hw
  cases t with
  | none =>
    simp only [batchUpdates, List.mem_singleton] at hw
    rw [hw]; exact hf
  | some t =>
    by_cases hne : t = e.order
    · simp only [batchUpdates, hne, ne_eq, not_true_eq_false, if_false] at hw
      rcases List.mem_cons.mp hw with h | h
      · rw [h]; exact hf
      · split at h
        · rw [List.mem_singleton.mp h]; exact contentSafe_empty_with_order _
        · rw [List.mem_singleton.mp h]; exact contentSafe_with_order hf _
    · rw [batchUpdates_move posts e f t hne, List.mem_filterMap] at hw
      obtain ⟨ip, -, hg⟩ := hw
      unfold moveWrite at hg
      split at hg
      · split at hg
        · cases hg; exact contentSafe_with_order (contentSafe_with_order hf _) _
        · cases hg; exact contentSafe_empty_with_order _
      · cases hg

theorem applyWrites_exclusive (ws : List (String × PostFields))
    (hws : ∀ w ∈ ws, w.2.ContentSafe) (p : Post) (hp : p.Exclusive) :
    (applyWrites ws p).Exclusive := by
  induction ws generalizing p with
  | nil => exact hp
  | cons w ws ih =>
    rw [applyWrites_cons]
    apply ih (fun w1 hw1 => hws w1 (List.mem_cons_of_mem _ hw1))
    split
    · exact merge_exclusive hp (hws w (List.mem_cons_self _ _))
    · exact hp

theorem applyTrace_exclusive (env : Env) (trace : List Event) (store : List Post)
    (hstore : ∀ p ∈ store, p.Exclusive)
    (htrace : ∀ ev ∈ trace, (∀ w, ev.call ≠ Call.batchCommit w) ∧
      ∀ d, ev.call = Call.addDoc d → ¬ (d.isExternalLink = true ∧ d.contentFileName ≠ none)) :
    ∀ p ∈ applyTrace env store trace, p.Exclusive := by
  induction trace generalizing store with
  | nil => exact hstore
  | cons ev tr ih =>
    simp only [applyTrace, List.foldl_cons]
    apply ih _ _ (fun ev1 h1 => htrace ev1 (List.mem_cons_of_mem _ h1))
    obtain ⟨hnb, hadd⟩ := htrace ev (List.mem_cons_self _ _)
    split
    · obtain ⟨c, b⟩ := ev
      cases c with
      | addDoc d =>
        intro p hp
        simp only [applyCall, List.mem_append, List.mem_singleton] at hp
        rcases hp with hp | rfl
        · exact hstore p hp
        · exact hadd d rfl
      | deleteDoc id =>
        intro p hp
        exact hstore p (List.mem_filter.mp hp).1
      | batchCommit w => exact absurd rfl (hnb w)
      | uploadBytes _ _ => exact hstore
      | getDownloadURL _ => exact hstore
      | deleteObject _ => exact hstore
      | getDocs => exact hstore
    · exact hstore

/-- Claim C8. Content exclusivity invariant: every record `handleAddPost` passes to
the record store has not both `isExternalLink = true` and a non-null
`contentFileName`; and for a store whose records all satisfy this, every record of
the store after a `handleAddPost` run, and after a successful `handleUpdatePost`
run (any content type, with or without new content), still satisfies it. -/
theorem content_exclusive (env : Env) (store posts : List Post) (a : FormData)
    (hstore : ∀ p ∈ store, p.Exclusive) :
    (∀ ev ∈ (run env posts (handleAddPost posts a)).st.trace, ∀ d,
      ev.call = Call.addDoc d → ¬ (d.isExternalLink = true ∧ d.contentFileName ≠ none)) ∧
    (∀ p ∈ applyTrace env store (run env posts (handleAddPost posts a)).st.trace,
      p.Exclusive) ∧
    (∀ e : Post, (run env posts (handleUpdatePost posts a e)).Successful →
      ∀ p ∈ applyTrace env store (run env posts (handleUpdatePost posts a e)).st.trace,
        p.Exclusive) := by
  obtain ⟨hno, hadd, -, -, -⟩ := Eff.Sat.outcome (handleAddPost_sat env posts a)
  refine ⟨fun ev hev d hd => (hadd ev hev d hd).2, ?_, ?_⟩
  · exact applyTrace_exclusive env _ store hstore
      (fun ev hev => ⟨(hno ev hev).1, fun d hd => (hadd ev hev d hd).2⟩)
  · intro e hs
    obtain ⟨-, hok⟩ := Eff.Sat.outcome (handleUpdatePost_sat env posts a e)
    obtain ⟨f, hf, -, hsafe⟩ := hok hs.1
    rw [applyTrace_of_storeCalls_single env store _ _ hf, applyCall_batchCommit]
    intro p hp
    obtain ⟨p0, hp0, rfl⟩ := List.mem_map.mp hp
    exact applyWrites_exclusive _ (batchUpdates_contentSafe posts e hsafe _) p0 (hstore p0 hp0)

/-- Witness of C8 on the list [0:A, 1:B, 2:C], whose records are file-backed:
switching A to an external URL stores the link flag with a null file name, and
every stored record keeps the exclusion. -/
theorem content_exclusive_witness :
    (applyTrace sampleEnv samplePosts (run sampleEnv samplePosts
        (handleUpdatePost samplePosts
          { sampleForm with contentType := "url", contentFile := none,
                            externalUrl := some "https://example.com/a" }
          (samplePost "A" 0))).st.trace).map
      (fun p => (p.id, p.isExternalLink, p.contentFileName)) =
      [("A", true, none), ("B", false, some "B.pdf"), ("C", false, some "C.pdf")] ∧
    ∀ p ∈ applyTrace sampleEnv samplePosts (run sampleEnv samplePosts
        (handleUpdatePost samplePosts
          { sampleForm with contentType := "url", contentFile := none,
                            externalUrl := some "https://example.com/a" }
          (samplePost "A" 0))).st.trace,
      p.Exclusive :=
  ⟨by decide,
   (content_exclusive sampleEnv samplePosts samplePosts
    { sampleForm with contentType := "url", contentFile := none,
                      externalUrl := some "https://example.com/a" }
    (by decide)).2.2 (samplePost "A" 0) (by decide)⟩

/-- Counterexample to C10: a `handleAddPost` call with an image, content type "file"
and no content file rejects with the validation error only after the image was
uploaded and its URL looked up. -/
theorem add_validation_counterexample :
    (run sampleEnv samplePosts
      (handleAddPost samplePosts { sampleForm with contentFile := none })).result =
      Except.error "Content file is required when type is 'file'." ∧
    (run sampleEnv samplePosts
      (handleAddPost samplePosts { sampleForm with contentFile := none })).st.trace =
      [⟨Call.uploadBytes "post_images/1700000000000-i.png" { name := "i.png" }, true⟩,
       ⟨Call.getDownloadURL "post_images/1700000000000-i.png", true⟩] := by
  decide

/-- Claim C10, amended. Validation in `handleAddPost`: without an image file the
call rejects with no blob-store or record-store call made; with an image file and
invalid content (type "file" with no content file, type "url" with an empty URL,
or another type) the call rejects after at most the upload of the image and the
lookup of its URL, with no content upload and no record-store call, so no record
was created. -/
theorem add_validation_effects (env : Env) (posts : List Post) (a : FormData) :
    (a.imageFile = none →
      (run env posts (handleAddPost posts a)).st.trace = [] ∧
      (run env posts (handleAddPost posts a)).result =
        Except.error "Image file is required for a new post.") ∧
    (∀ img, a.imageFile = some img → a.contentInvalid →
      (∃ msg, (run env posts (handleAddPost posts a)).result = Except.error msg) ∧
      (∀ ev ∈ (run env posts (handleAddPost posts a)).st.trace,
        ev.call = Call.uploadBytes
          ("post_images/" ++ (toString (env.now 0) ++ "-" ++ img.name)) img ∨
        ev.call = Call.getDownloadURL
          ("post_images/" ++ (toString (env.now 0) ++ "-" ++ img.name))) ∧
      storeCalls (run env posts (handleAddPost posts a)).st.trace = []) := by
  obtain ⟨-, -, -, h4, h5⟩ := Eff.Sat.outcome (handleAddPost_sat env posts a)
  refine ⟨h4, ?_⟩
  intro img himg hinv
  obtain ⟨hmsg, hev⟩ := h5 img himg hinv
  refine ⟨hmsg, hev, ?_⟩
  apply BlobOnly.storeCalls_eq
  intro ev hmem
  rcases hev ev hmem with h | h <;> rw [h] <;> rfl

/-- Witness of the amended C10: the three kinds of invalid content and the missing
image, on the sample form. -/
theorem add_validation_effects_witness :
    storeCalls (run sampleEnv samplePosts
      (handleAddPost samplePosts { sampleForm with contentFile := none })).st.trace = [] ∧
    storeCalls (run sampleEnv samplePosts
      (handleAddPost samplePosts
        { sampleForm with contentType := "url", externalUrl := some "" })).st.trace = [] ∧
    storeCalls (run sampleEnv samplePosts
      (handleAddPost samplePosts { sampleForm with contentType := "text" })).st.trace = [] ∧
    (run sampleEnv samplePosts
      (handleAddPost samplePosts { sampleForm with imageFile := none })).st.trace = [] :=
  ⟨((add_validation_effects sampleEnv samplePosts
      { sampleForm with contentFile := none }).2 { name := "i.png" } rfl (by decide)).2.2,
   ((add_validation_effects sampleEnv samplePosts
      { sampleForm with contentType := "url", externalUrl := some "" }).2
      { name := "i.png" } rfl (by decide)).2.2,
   ((add_validation_effects sampleEnv samplePosts
      { sampleForm with contentType := "text" }).2 { name := "i.png" } rfl (by decide)).2.2,
   ((add_validation_effects sampleEnv samplePosts
      { sampleForm with imageFile := none }).1 rfl).1⟩

/-! ## The form: target position; deletion failures -/

theorem handleSubmit_eq_submitOrder (isValidURL : String → Bool) (m : ModalState)
    (ht : m.title ≠ "") (hd : m.description ≠ "") (hc : m.contentValid isValidURL) :
    Modal.handleSubmit isValidURL m = Modal.submitOrder m := by
  unfold Modal.handleSubmit
  obtain ⟨hfile, hurl⟩ := hc
  simp only [ht, hd, or_self, if_false]
  by_cases h1 : m.contentType = "file"
  · rw [if_pos h1]
    have := hfile h1
    rw [if_neg]
    rintro ⟨hne, hcf⟩
    rcases this with h | h
    · exact hne h
    · exact h hcf
  · rw [if_neg h1]
    by_cases h2 : m.contentType = "url"
    · rw [if_pos h2]
      obtain ⟨h3, h4⟩ := hurl h2
      rw [if_neg h3, if_neg (by simp [h4])]
    · rw [if_neg h2]

/-- For a form with non-empty title and description and content that passes the
content checks: `handleSubmit` calls `onSubmit` exactly when the target that
`parseInt` returns is in [0, totalPosts] in add mode or in [0, totalPosts-1] in edit
mode, it alerts otherwise, and it passes the target that `parseInt` returned. -/
theorem submit_iff_parsed_in_range (isValidURL : String → Bool) (m : ModalState)
    (ht : m.title ≠ "") (hd : m.description ≠ "") (hc : m.contentValid isValidURL) :
    ((∃ payload ex, Modal.handleSubmit isValidURL m = SubmitResult.submitted payload ex) ↔
      ∃ n : Int, parseIntOrder m.currentOrder = some n ∧ 0 ≤ n ∧ n ≤ m.maxOrder) ∧
    ((¬ ∃ n : Int, parseIntOrder m.currentOrder = some n ∧ 0 ≤ n ∧ n ≤ m.maxOrder) →
      ∃ msg, Modal.handleSubmit isValidURL m = SubmitResult.alerted msg) ∧
    (∀ payload ex, Modal.handleSubmit isValidURL m = SubmitResult.submitted payload ex →
      payload.targetOrder = parseIntOrder m.currentOrder ∧
      ex = (if m.initialPostData.isSome then m.initialPostData else none)) := by
  rw [handleSubmit_eq_submitOrder isValidURL m ht hd hc]
  unfold Modal.submitOrder ModalState.maxOrder
  cases hco : parseIntOrder m.currentOrder with
  | none =>
    refine ⟨⟨?_, ?_⟩, ?_, ?_⟩
    · rintro ⟨p, ex, h⟩; cases h
    · rintro ⟨n, h, -⟩; cases h
    · intro _; exact ⟨_, rfl⟩
    · intro p ex h; cases h
  | some n =>
    simp only []
    by_cases hr : n < 0 ∨ n > (if m.initialPostData.isSome = true then (m.totalPosts : Int) - 1
        else (m.totalPosts : Int))
    · rw [if_pos hr]
      refine ⟨⟨?_, ?_⟩, ?_, ?_⟩
      · rintro ⟨p, ex, h⟩; cases h
      · rintro ⟨n1, h, h0, h1⟩
        cases h
        rcases hr with hr | hr <;> omega
      · intro _; exact ⟨_, rfl⟩
      · intro p ex h; cases h
    · rw [if_neg hr]
      refine ⟨⟨?_, ?_⟩, ?_, ?_⟩
      · intro _
        refine ⟨n, rfl, ?_, ?_⟩ <;> omega
      · intro _; exact ⟨_, _, rfl⟩
      · intro h
        exfalso; apply h
        refine ⟨n, rfl, ?_, ?_⟩ <;> omega
      · intro p ex h
        cases h
        exact ⟨rfl, rfl⟩

/-- A state of magnitude below 10^21 parses to itself; a larger one to its leading
digit, with the sign. -/
theorem parseIntOrder_integer (n : Int) (lead : Nat) :
    (n.natAbs < 10 ^ 21 → parseIntOrder (JsNumber.integer n lead) = some n) ∧
    (10 ^ 21 ≤ n → parseIntOrder (JsNumber.integer n lead) = some (lead : Int)) ∧
    (n ≤ -(10 ^ 21) → parseIntOrder (JsNumber.integer n lead) = some (-(lead : Int))) := by
  simp only [parseIntOrder]
  refine ⟨fun h => by rw [if_pos h], fun h => ?_, fun h => ?_⟩
  · have h1 : (n.natAbs : Int) = n := Int.natAbs_of_nonneg (by omega)
    rw [if_neg (by omega), if_neg (by omega)]
  · have h1 : (n.natAbs : Int) = -n := Int.ofNat_natAbs_of_nonpos (by omega)
    rw [if_neg (by omega), if_pos (by omega)]

/-- Claim C11, the code at the failing input: editing A in a list of three posts with
the state `currentOrder` at 10^21 (the position input held 1000000000000000000001),
`handleSubmit` calls `onSubmit` with `targetOrder` 1; with the state at 5 it alerts,
and in add mode the state 3 is passed on as it is. -/
theorem huge_target_accepted :
    Modal.handleSubmit (fun _ => true)
      { sampleModal with currentOrder := JsNumber.integer (10 ^ 21) 1,
                         initialPostData := some (samplePost "A" 0) } =
      SubmitResult.submitted
        { title := "t", description := "d", imageFile := some { name := "i.png" },
          targetOrder := some 1, contentType := "file",
          contentFile := some { name := "c.pdf" }, externalUrl := none }
        (some (samplePost "A" 0)) ∧
    Modal.handleSubmit (fun _ => true)
      { sampleModal with currentOrder := JsNumber.integer 5 5,
                         initialPostData := some (samplePost "A" 0) } =
      SubmitResult.alerted "Position must be between 1 and 3." ∧
    Modal.handleSubmit (fun _ => true) sampleModal =
      SubmitResult.submitted
        { title := "t", description := "d", imageFile := some { name := "i.png" },
          targetOrder := some 3, contentType := "file",
          contentFile := some { name := "c.pdf" }, externalUrl := none }
        none := by
  decide

/-- Claim C12, the code at the failing inputs: deleting B from [0:A, 1:B, 2:C] when
`deleteDoc` rejects, and when the batch commit rejects, `handleDeletePost` resolves
normally and shows no alert; in the second case B is gone from the store and C
still has order 2. -/
theorem delete_failure_swallowed :
    (run failFirstEnv samplePosts
      (handleDeletePost samplePosts (some (samplePost "B" 1)))).result = Except.ok () ∧
    (run failFirstEnv samplePosts
      (handleDeletePost samplePosts (some (samplePost "B" 1)))).st.trace =
      [⟨Call.deleteDoc "B", false⟩] ∧
    (run failFirstEnv samplePosts
      (handleDeletePost samplePosts (some (samplePost "B" 1)))).st.alerts = [] ∧
    (run failFourthEnv samplePosts
      (handleDeletePost samplePosts (some (samplePost "B" 1)))).result = Except.ok () ∧
    (run failFourthEnv samplePosts
      (handleDeletePost samplePosts (some (samplePost "B" 1)))).st.trace.map Event.ok =
      [true, true, true, false] ∧
    (run failFourthEnv samplePosts
      (handleDeletePost samplePosts (some (samplePost "B" 1)))).st.alerts = [] ∧
    (applyTrace failFourthEnv samplePosts
      (run failFourthEnv samplePosts
        (handleDeletePost samplePosts (some (samplePost "B" 1)))).st.trace).map
      (fun p => (p.id, p.order)) = [("A", 0), ("C", 2)] := by
  decide

/-! ## Add: rejected uploads -/

theorem Eff.Sat.perform_bind_at {β : Type} {c : Call} {f : Unit → Eff β} {env : Env} {st : St}
    {Q : Except String β → St → Prop}
    (hok : env.fails st.trace.length = none → (f ()).Sat env (st.extend [⟨c, true⟩]) Q)
    (herr : ∀ e, env.fails st.trace.length = some e →
      Q (Except.error e) (st.extend [⟨c, false⟩])) :
    (ShowFolio.perform c >>= f).Sat env st Q := by
  show Q (Eff.andThen (ShowFolio.perform c) f env st).1 (Eff.andThen (ShowFolio.perform c) f env st).2
  simp only [Eff.andThen, ShowFolio.perform]
  cases h : env.fails st.trace.length with
  | none => exact hok h
  | some e => exact herr e h

theorem Eff.Sat.getDownloadURL_bind_at {β : Type} {path : String} {f : String → Eff β}
    {env : Env} {st : St} {Q : Except String β → St → Prop}
    (hok : env.fails st.trace.length = none →
      (f (env.urlOf path)).Sat env (st.extend [⟨Call.getDownloadURL path, true⟩]) Q)
    (herr : ∀ e, env.fails st.trace.length = some e →
      Q (Except.error e) (st.extend [⟨Call.getDownloadURL path, false⟩])) :
    (getDownloadURL path >>= f).Sat env st Q := by
  show Q (Eff.andThen (getDownloadURL path) f env st).1 (Eff.andThen (getDownloadURL path) f env st).2
  simp only [Eff.andThen, getDownloadURL, ShowFolio.perform]
  cases h : env.fails st.trace.length with
  | none => exact hok h
  | some e => exact herr e h

theorem Eff.Sat.reject_bind {α β : Type} {msg : String} {f : α → Eff β} {env : Env} {st : St}
    {Q : Except String β → St → Prop}
    (h : Q (Except.error msg) st) : ((Eff.reject msg : Eff α) >>= f).Sat env st Q := h

theorem Eff.Sat.ite_bind {α β : Type} {c : Prop} [Decidable c] {m1 m2 : Eff α} {f : α → Eff β}
    {env : Env} {st : St} {Q : Except String β → St → Prop}
    (h1 : c → (m1 >>= f).Sat env st Q) (h2 : ¬ c → (m2 >>= f).Sat env st Q) :
    ((if c then m1 else m2) >>= f).Sat env st Q := by
  split
  · exact h1 ‹_›
  · exact h2 ‹_›

theorem Eff.bind_assoc_eq {α β γ : Type} (m : Eff α) (f : α → Eff β) (g : β → Eff γ) :
    ((m >>= f) >>= g) = (m >>= fun x => f x >>= g) := by
  funext env st
  show Eff.andThen (Eff.andThen m f) g env st = Eff.andThen m (fun x => Eff.andThen (f x) g) env st
  simp only [Eff.andThen]
  rcases m env st with ⟨r, st1⟩
  cases r <;> rfl

/-- Every run of `handleAddPost`, from any state. -/
theorem handleAddPost_aborts (env : Env) (posts : List Post) (a : FormData) (st : St) :
    (handleAddPost posts a).Sat env st (fun r st1 =>
      ∃ new, st1.trace = st.trace ++ new ∧ st1.posts = st.posts ∧
        AbortsOnFailure env st.trace.length new r ∧
        (∀ ev ∈ new, ev.call ≠ Call.getDocs) ∧
        (r = Except.ok () → ∀ ev ∈ new, ev.ok = true)) := by
  unfold handleAddPost
  rcases himg : a.imageFile with _ | img
  · apply Eff.Sat.reject
    exact ⟨[], by simp, rfl, by simp [AbortsOnFailure], by simp, by simp⟩
  · simp only []
    unfold addContent
    rcases hcf : a.contentFile with _ | cf <;> simp only [Eff.bind_assoc_eq, Eff.pure_bind_eq]
    all_goals
      repeat' first
        | rw [Eff.bind_assoc_eq]
        | rw [Eff.pure_bind_eq]
        | apply Eff.Sat.dateNow_bind_any
        | apply Eff.Sat.getDownloadURL_bind_at
        | apply Eff.Sat.perform_bind_at
        | apply Eff.Sat.ite_bind
        | apply Eff.Sat.reject_bind
        | apply Eff.Sat.alert
        | intro _
    all_goals try simp only [St.extend_extend, List.append_assoc, List.singleton_append,
        List.cons_append, List.nil_append]
    all_goals refine ⟨_, rfl, rfl, ?_⟩
    all_goals simp_all [AbortsOnFailure, List.enum, List.enumFrom, Call.isUpload]

theorem fetchPosts_sat (env : Env) (snapshot : List DocSnapshot) (st : St) :
    (fetchPosts snapshot).Sat env st (fun r st1 =>
      r = Except.ok () ∧ ∃ b, st1.trace = st.trace ++ [⟨Call.getDocs, b⟩]) := by
  unfold fetchPosts getDocs
  apply Eff.Sat.setIsLoading_bind
  apply Eff.Sat.tryFinally
  apply Eff.Sat.tryCatch
  apply Eff.Sat.perform_bind
  · refine ⟨fun _ _ => ⟨rfl, true, rfl⟩, fun e h => ?_⟩
    cases h
  · intro err
    refine ⟨fun _ h => ?_, fun e _ => ⟨rfl, false, rfl⟩⟩
    cases h

/-- Every run of `handleFormSubmit` that takes the add path (no existing post, or
one without id). -/
theorem handleFormSubmit_add_sat (env : Env) (posts : List Post) (snapshot : List DocSnapshot)
    (a : FormData) (ex : Option Post) (hex : ∀ e, ex = some e → e.id = "") :
    (handleFormSubmit posts snapshot a ex).Sat env (St.init posts) (fun r st1 =>
      ∀ kev ∈ st1.trace.enum, kev.2.ok = false → kev.2.call.isUpload = true →
        ∃ err, env.fails kev.1 = some err ∧ r = Except.error err ∧
          (∀ ev ∈ st1.trace, ev.call.isStore = false) ∧ st1.posts = posts ∧
          st1.isLoading = false) := by
  have hadd : handleFormSubmit posts snapshot a ex =
      (do
        setIsLoading true
        Eff.tryFinally
          (Eff.tryCatch
            (do
              handleAddPost posts a
              fetchPosts snapshot)
            (fun error => Eff.reject error))
          (fun st => { st with isLoading := false })) := by
    unfold handleFormSubmit
    cases ex with
    | none => rfl
    | some e => simp [hex e rfl]
  rw [hadd]
  apply Eff.Sat.setIsLoading_bind
  apply Eff.Sat.tryFinally
  apply Eff.Sat.tryCatch
  refine Eff.Sat.bind (handleAddPost_aborts env posts a _) ?_ ?_
  · rintro u st1 ⟨new, htr, -, -, -, hok⟩
    have hst := fetchPosts_sat env snapshot st1
    unfold Eff.Sat at hst ⊢
    obtain ⟨hr, b, htr2⟩ := hst
    rw [hr]
    refine ⟨?_, fun e h => by cases h⟩
    intro _ _ kev hmem hfalse hup
    exfalso
    have hev : kev.2 ∈ (fetchPosts snapshot env st1).2.trace := by
      obtain ⟨k, ev⟩ := kev
      exact List.getElem?_mem (List.mk_mem_enum_iff_getElem?.mp hmem)
    rw [htr2, htr] at hev
    simp only [List.mem_append, List.mem_singleton] at hev
    rcases hev with (hev | hev) | hev
    · cases hev
    · have := hok rfl _ hev
      rw [this] at hfalse; cases hfalse
    · rw [hev] at hup; cases hup
  · rintro e st1 ⟨new, htr, hposts, ⟨hfail, hstore⟩, -, -⟩
    refine ⟨fun _ h => (by cases h), ?_⟩
    intro e1 he1
    cases he1
    apply Eff.Sat.reject
    have htr1 : st1.trace = new := by
      rw [htr]; rfl
    intro kev hmem hfalse hup
    simp only [htr1] at hmem ⊢
    obtain ⟨err, h1, h2⟩ := hfail kev hmem hfalse
    refine ⟨err, ?_, h2, ?_, hposts, trivial⟩
    · have h0 : ({ St.init posts with isLoading := true } : St).trace.length = 0 := rfl
      rw [h0, Nat.zero_add] at h1
      exact h1
    · apply hstore
      obtain ⟨k, ev⟩ := kev
      exact ⟨ev, List.getElem?_mem (List.mk_mem_enum_iff_getElem?.mp hmem), hfalse, hup⟩

/-- Claim C13. Add aborts on upload failure: in every `handleAddPost` run in which
an upload (of the image or of the content file) or a URL lookup rejected, the call
fails with the error of that rejection and its trace has no record-store call, so
`addDoc` was never called; and `handleFormSubmit` on the add path then fails with
the same error, without any record-store call (no `addDoc`, no reload query), with
the `posts` state as it was. -/
theorem add_aborts_on_upload_failure (env : Env) (posts : List Post)
    (snapshot : List DocSnapshot) (a : FormData) (ex : Option Post)
    (hex : ∀ e, ex = some e → e.id = "") (k : Nat) (ev : Event)
    (hfalse : ev.ok = false) (hup : ev.call.isUpload = true) :
    ((run env posts (handleAddPost posts a)).st.trace[k]? = some ev →
      ∃ err, env.fails k = some err ∧
        (run env posts (handleAddPost posts a)).result = Except.error err ∧
        (∀ ev1 ∈ (run env posts (handleAddPost posts a)).st.trace,
          ∀ d, ev1.call ≠ Call.addDoc d)) ∧
    ((run env posts (handleFormSubmit posts snapshot a ex)).st.trace[k]? = some ev →
      ∃ err, env.fails k = some err ∧
        (run env posts (handleFormSubmit posts snapshot a ex)).result = Except.error err ∧
        (∀ ev1 ∈ (run env posts (handleFormSubmit posts snapshot a ex)).st.trace,
          (∀ d, ev1.call ≠ Call.addDoc d) ∧ ev1.call ≠ Call.getDocs) ∧
        (run env posts (handleFormSubmit posts snapshot a ex)).st.posts = posts ∧
        (run env posts (handleFormSubmit posts snapshot a ex)).st.isLoading = false) := by
  constructor
  · intro hk
    obtain ⟨new, htr, -, ⟨hfail, hstore⟩, -, -⟩ :=
      Eff.Sat.outcome (handleAddPost_aborts env posts a (St.init posts))
    have htr1 : (run env posts (handleAddPost posts a)).st.trace = new := by
      rw [htr]; rfl
    rw [htr1] at hk ⊢
    obtain ⟨err, h1, h2⟩ := hfail (k, ev) (List.mk_mem_enum_iff_getElem?.mpr hk) hfalse
    refine ⟨err, ?_, h2, ?_⟩
    · simpa using h1
    · intro ev1 hev1 d hd
      have := hstore ⟨ev, List.getElem?_mem hk, hfalse, hup⟩ ev1 hev1
      rw [hd] at this; cases this
  · intro hk
    obtain ⟨err, h1, h2, h3, h4, h5⟩ :=
      Eff.Sat.outcome (handleFormSubmit_add_sat env posts snapshot a ex hex) (k, ev)
        (List.mk_mem_enum_iff_getElem?.mpr hk) hfalse hup
    refine ⟨err, h1, h2, ?_, h4, h5⟩
    intro ev1 hev1
    have := h3 ev1 hev1
    constructor
    · intro d hd; rw [hd] at this; cases this
    · intro hd; rw [hd] at this; cases this

/-- Witness of C13: when the upload of the content file rejects, `handleFormSubmit`
fails with that error after three blob-store calls and no record-store call. -/
theorem add_aborts_on_upload_failure_witness :
    (run failThirdEnv samplePosts
      (handleFormSubmit samplePosts [] sampleForm none)).st.trace.map
        (fun ev => (ev.call.isUpload, ev.ok)) = [(true, true), (true, true), (true, false)] ∧
    (run failThirdEnv samplePosts
      (handleFormSubmit samplePosts [] sampleForm none)).result =
        Except.error "storage/unauthorized" ∧
    (∃ err, failThirdEnv.fails 2 = some err ∧
      (run failThirdEnv samplePosts (handleAddPost samplePosts sampleForm)).result =
        Except.error err ∧
      ∀ ev1 ∈ (run failThirdEnv samplePosts (handleAddPost samplePosts sampleForm)).st.trace,
        ∀ d, ev1.call ≠ Call.addDoc d) :=
  ⟨by decide, by decide,
   (add_aborts_on_upload_failure failThirdEnv samplePosts [] sampleForm none
      (fun _ h => by cases h) 2
      ⟨Call.uploadBytes "post_files/1700000000000-c.pdf" { name := "c.pdf" }, false⟩
      rfl rfl).1 (by decide)⟩

/-! ## Update: runs that differ in the outcome of blob deletions -/

theorem St.Sim.length_eq {s1 s2 : St} (h : s1.Sim s2) : s1.trace.length = s2.trace.length := by
  have := congrArg List.length h.1
  simpa using this

theorem St.Sim.rfl_of (s : St) : s.Sim s := ⟨rfl, rfl, rfl, rfl⟩

theorem Eff.bind_apply_ok {α β : Type} {m : Eff α} {f : α → Eff β} {env : Env} {st st1 : St}
    {a : α} (h : m env st = (Except.ok a, st1)) : (m >>= f) env st = f a env st1 := by
  show Eff.andThen m f env st = _
  simp only [Eff.andThen, h]

theorem Eff.bind_apply_error {α β : Type} {m : Eff α} {f : α → Eff β} {env : Env}
    {st st1 : St} {e : String} (h : m env st = (Except.error e, st1)) :
    (m >>= f) env st = (Except.error e, st1) := by
  show Eff.andThen m f env st = _
  simp only [Eff.andThen, h]

theorem Eff.Logs.bind_logs {α β : Type} {m : Eff α} {f : α → Eff β}
    (hm : m.Logs) (hf : ∀ a, (f a).Logs) : (m >>= f).Logs := by
  intro env st
  obtain ⟨new1, htr1, hlog1⟩ := hm env st
  rcases hrun : m env st with ⟨r, st1⟩
  rw [hrun] at htr1
  cases r with
  | error e =>
    rw [Eff.bind_apply_error hrun]
    exact ⟨new1, htr1, hlog1⟩
  | ok a =>
    rw [Eff.bind_apply_ok hrun]
    obtain ⟨new2, htr2, hlog2⟩ := hf a env st1
    refine ⟨new1 ++ new2, ?_, ?_⟩
    · rw [htr2, htr1, List.append_assoc]
    · intro k ev hk
      by_cases hlt : k < new1.length
      · rw [List.getElem?_append_left hlt] at hk
        exact hlog1 k ev hk
      · have hge : new1.length ≤ k := Nat.le_of_not_lt hlt
        rw [List.getElem?_append_right hge] at hk
        have := hlog2 _ ev hk
        rw [this]
        have hlen : st1.trace.length = st.trace.length + new1.length := by
          have h0 : st1.trace = st.trace ++ new1 := htr1
          rw [h0, List.length_append]
        rw [hlen]
        congr 2
        omega

theorem Env.AgreeOn.of_append {env1 env2 : Env} {tr new : List Event} {base : Nat}
    (h : env1.AgreeOn env2 (tr ++ new) base) : env1.AgreeOn env2 tr base := by
  intro k ev hk hb hd
  apply h k ev _ hb hd
  have hlt : k < tr.length := by
    by_contra hc
    rw [List.getElem?_eq_none (Nat.le_of_not_lt hc)] at hk
    cases hk
  rw [List.getElem?_append_left hlt]
  exact hk

theorem Env.AgreeOn.mono {env1 env2 : Env} {tr : List Event} {b1 b2 : Nat} (hb : b1 ≤ b2)
    (h : env1.AgreeOn env2 tr b1) : env1.AgreeOn env2 tr b2 :=
  fun k ev hk hb2 hd => h k ev hk (Nat.le_trans hb hb2) hd

theorem Eff.Lock.bind_lock {α β : Type} {m : Eff α} {f : α → Eff β} {env1 env2 : Env}
    (hm : m.Lock env1 env2) (hf : ∀ a, (f a).Lock env1 env2) : (m >>= f).Lock env1 env2 := by
  refine ⟨Eff.Logs.bind_logs hm.1 (fun a => (hf a).1), ?_⟩
  intro hnow hurl s1 s2 hsim hagree
  obtain ⟨new1, htr1, -⟩ := hm.1 env1 s1
  rcases hrun1 : m env1 s1 with ⟨r1, t1⟩
  rcases hrun2 : m env2 s2 with ⟨r2, t2⟩
  rw [hrun1] at htr1
  have hm2 := hm.2 hnow hurl s1 s2 hsim
  rw [hrun1, hrun2] at hm2
  cases r1 with
  | error e =>
    rw [Eff.bind_apply_error hrun1] at hagree ⊢
    obtain ⟨hr, hs⟩ := hm2 hagree
    simp only at hr hs
    rw [← hr] at hrun2
    rw [Eff.bind_apply_error hrun2]
    exact ⟨rfl, hs⟩
  | ok a =>
    rw [Eff.bind_apply_ok hrun1] at hagree ⊢
    obtain ⟨new2, htr2, -⟩ := (hf a).1 env1 t1
    rw [htr2] at hagree
    obtain ⟨hr, hs⟩ := hm2 hagree.of_append
    simp only at hr hs
    rw [← hr] at hrun2
    rw [Eff.bind_apply_ok hrun2]
    apply (hf a).2 hnow hurl t1 t2 hs
    rw [htr2]
    apply Env.AgreeOn.mono _ hagree
    rw [htr1, List.length_append]
    exact Nat.le_add_right _ _

theorem Eff.Lock.pure_ret {α : Type} (a : α) (env1 env2 : Env) :
    (pure a : Eff α).Lock env1 env2 :=
  ⟨fun _ st => ⟨[], by simp [pure, Eff.ret], by simp⟩,
   fun _ _ _ _ hsim _ => ⟨rfl, hsim⟩⟩

theorem Eff.Lock.reject_lock {α : Type} (msg : String) (env1 env2 : Env) :
    (Eff.reject msg : Eff α).Lock env1 env2 :=
  ⟨fun _ st => ⟨[], by simp [Eff.reject], by simp⟩,
   fun _ _ _ _ hsim _ => ⟨rfl, hsim⟩⟩

theorem Eff.Lock.alert_lock (msg : String) (env1 env2 : Env) :
    (ShowFolio.alert msg).Lock env1 env2 :=
  ⟨fun _ st => ⟨[], by simp [ShowFolio.alert], by simp⟩,
   fun _ _ s1 s2 hsim _ => ⟨rfl, hsim.1, hsim.2.1, hsim.2.2.1, by
     show s1.alerts ++ [msg] = s2.alerts ++ [msg]
     rw [hsim.2.2.2]⟩⟩

theorem Eff.Lock.dateNow_lock (env1 env2 : Env) : ShowFolio.dateNow.Lock env1 env2 :=
  ⟨fun _ st => ⟨[], by simp [ShowFolio.dateNow], by simp⟩,
   fun hnow _ s1 s2 hsim _ => ⟨by
     show Except.ok (env1.now s1.trace.length) = Except.ok (env2.now s2.trace.length)
     rw [hnow, hsim.length_eq], hsim⟩⟩

theorem perform_logs (c : Call) : (perform c).Logs := by
  intro env st
  unfold perform
  cases h : env.fails st.trace.length with
  | none =>
    refine ⟨[⟨c, true⟩], rfl, ?_⟩
    intro k ev hk
    cases k with
    | zero =>
      simp only [List.getElem?_cons_zero, Option.some.injEq] at hk
      rw [← hk, Nat.add_zero, h]; rfl
    | succ k => simp at hk
  | some e =>
    refine ⟨[⟨c, false⟩], rfl, ?_⟩
    intro k ev hk
    cases k with
    | zero =>
      simp only [List.getElem?_cons_zero, Option.some.injEq] at hk
      rw [← hk, Nat.add_zero, h]; rfl
    | succ k => simp at hk

theorem perform_trace (c : Call) (env : Env) (st : St) :
    (perform c env st).2.trace = st.trace ++ [⟨c, (env.fails st.trace.length).isNone⟩] := by
  unfold perform
  cases env.fails st.trace.length <;> rfl

theorem Eff.Lock.perform_lock (c : Call) (hc : c.isDelete = false) (env1 env2 : Env) :
    (ShowFolio.perform c).Lock env1 env2 := by
  refine ⟨perform_logs c, ?_⟩
  intro _ _ s1 s2 hsim hagree
  have hlen := hsim.length_eq
  have hf : env1.fails s1.trace.length = env2.fails s2.trace.length := by
    rw [← hlen]
    apply hagree s1.trace.length ⟨c, (env1.fails s1.trace.length).isNone⟩ _ (Nat.le_refl _) hc
    rw [perform_trace]
    simp
  unfold ShowFolio.perform
  rw [hf]
  cases env2.fails s2.trace.length with
  | none =>
    refine ⟨rfl, ?_, hsim.2.1, hsim.2.2.1, hsim.2.2.2⟩
    show (s1.trace ++ _).map Event.healed = (s2.trace ++ _).map Event.healed
    rw [List.map_append, List.map_append, hsim.1]
  | some e =>
    refine ⟨rfl, ?_, hsim.2.1, hsim.2.2.1, hsim.2.2.2⟩
    show (s1.trace ++ _).map Event.healed = (s2.trace ++ _).map Event.healed
    rw [List.map_append, List.map_append, hsim.1]

theorem Eff.Lock.uploadBytes_lock (path : String) (file : FileObj) (env1 env2 : Env) :
    (ShowFolio.uploadBytes path file).Lock env1 env2 :=
  Eff.Lock.perform_lock (Call.uploadBytes path file) rfl env1 env2

theorem Eff.Lock.batchCommit_lock (writes : List (String × PostFields)) (env1 env2 : Env) :
    (ShowFolio.batchCommit writes).Lock env1 env2 :=
  Eff.Lock.perform_lock (Call.batchCommit writes) rfl env1 env2

theorem Eff.Lock.getDownloadURL_lock (path : String) (env1 env2 : Env) :
    (ShowFolio.getDownloadURL path).Lock env1 env2 := by
  have h : ShowFolio.getDownloadURL path =
      (ShowFolio.perform (Call.getDownloadURL path) >>= fun _ => (fun env st =>
        (Except.ok (env.urlOf path), st) : Eff String)) := rfl
  rw [h]
  apply Eff.Lock.bind_lock (Eff.Lock.perform_lock (Call.getDownloadURL path) rfl env1 env2)
  intro _
  exact ⟨fun _ st => ⟨[], by simp, by simp⟩,
    fun _ hurl _ _ hsim _ => ⟨by simp only [hurl], hsim⟩⟩

theorem tryDeleteObject_apply (path : String) (env : Env) (st : St) :
    tryDeleteObject path env st =
      (Except.ok (), { st with trace := st.trace ++
        [⟨Call.deleteObject path, (env.fails st.trace.length).isNone⟩] }) := by
  simp only [tryDeleteObject, Eff.tryCatch, deleteObject, perform]
  cases env.fails st.trace.length <;> rfl

theorem Eff.Lock.tryDeleteObject_lock (path : String) (env1 env2 : Env) :
    (ShowFolio.tryDeleteObject path).Lock env1 env2 := by
  constructor
  · intro env st
    rw [tryDeleteObject_apply]
    refine ⟨_, rfl, ?_⟩
    intro k ev hk
    cases k with
    | zero =>
      simp only [List.getElem?_cons_zero, Option.some.injEq] at hk
      rw [← hk, Nat.add_zero]
    | succ k => simp at hk
  · intro _ _ s1 s2 hsim _
    rw [tryDeleteObject_apply, tryDeleteObject_apply]
    refine ⟨rfl, ?_, hsim.2.1, hsim.2.2.1, hsim.2.2.2⟩
    show (s1.trace ++ _).map Event.healed = (s2.trace ++ _).map Event.healed
    rw [List.map_append, List.map_append, hsim.1]
    rfl

theorem Eff.Lock.ite_lock {α : Type} {c : Prop} [Decidable c] {m1 m2 : Eff α} {env1 env2 : Env}
    (h1 : c → m1.Lock env1 env2) (h2 : ¬ c → m2.Lock env1 env2) :
    (if c then m1 else m2).Lock env1 env2 := by
  split
  · exact h1 ‹_›
  · exact h2 ‹_›

theorem updateImage_lock (a : FormData) (e : Post) (f : PostFields) (env1 env2 : Env) :
    (updateImage a e f).Lock env1 env2 := by
  unfold updateImage
  cases a.imageFile with
  | none => exact Eff.Lock.pure_ret _ _ _
  | some img =>
    simp only []
    repeat' first
      | apply Eff.Lock.tryDeleteObject_lock
      | apply Eff.Lock.dateNow_lock
      | apply Eff.Lock.uploadBytes_lock
      | apply Eff.Lock.getDownloadURL_lock
      | apply Eff.Lock.pure_ret
      | apply Eff.Lock.ite_lock
      | apply Eff.Lock.bind_lock
      | intro _

theorem deleteOldContent_lock (e : Post) (env1 env2 : Env) :
    (deleteOldContent e).Lock env1 env2 := by
  unfold deleteOldContent
  repeat' first
    | apply Eff.Lock.tryDeleteObject_lock
    | apply Eff.Lock.pure_ret
    | apply Eff.Lock.ite_lock
    | intro _

theorem updateContent_lock (a : FormData) (e : Post) (f : PostFields) (env1 env2 : Env) :
    (updateContent a e f).Lock env1 env2 := by
  unfold updateContent
  split
  all_goals
    repeat' first
      | apply deleteOldContent_lock
      | apply Eff.Lock.dateNow_lock
      | apply Eff.Lock.uploadBytes_lock
      | apply Eff.Lock.getDownloadURL_lock
      | apply Eff.Lock.pure_ret
      | apply Eff.Lock.ite_lock
      | apply Eff.Lock.bind_lock
      | intro _

theorem handleUpdatePost_lock (posts : List Post) (a : FormData) (e : Post) (env1 env2 : Env) :
    (handleUpdatePost posts a e).Lock env1 env2 := by
  unfold handleUpdatePost
  repeat' first
    | apply updateImage_lock
    | apply updateContent_lock
    | apply Eff.Lock.batchCommit_lock
    | apply Eff.Lock.alert_lock
    | apply Eff.Lock.bind_lock
    | intro _

theorem Event.healed_call (ev : Event) : ev.healed.call = ev.call := by
  unfold Event.healed
  split <;> rfl

theorem Event.healed_of_not_delete {ev : Event} (h : ev.call.isDelete = false) :
    ev.healed = ev := by
  unfold Event.healed
  rw [h]; rfl

theorem uploads_map_healed (tr : List Event) : uploads (tr.map Event.healed) = uploads tr := by
  induction tr with
  | nil => rfl
  | cons ev tr ih =>
    unfold uploads at ih ⊢
    rw [List.map_cons, List.filter_cons, List.filter_cons, ih, Event.healed_call]
    by_cases h : ev.call.isUpload = true
    · have hd : ev.call.isDelete = false := by
        cases hc : ev.call <;> rw [hc] at h <;> first | rfl | cases h
      rw [Event.healed_of_not_delete hd]
    · simp only [h, if_false]
      rfl

theorem storeCalls_map_healed (tr : List Event) :
    storeCalls (tr.map Event.healed) = storeCalls tr := by
  induction tr with
  | nil => rfl
  | cons ev tr ih =>
    unfold storeCalls at ih ⊢
    rw [List.map_cons, List.filter_cons, List.filter_cons, ih, Event.healed_call]
    by_cases h : ev.call.isStore = true
    · have hd : ev.call.isDelete = false := by
        cases hc : ev.call <;> rw [hc] at h <;> first | rfl | cases h
      rw [Event.healed_of_not_delete hd]
    · simp only [h, if_false]
      rfl

theorem committedBatches_map_healed (tr : List Event) :
    committedBatches (tr.map Event.healed) = committedBatches tr := by
  rw [committedBatches_storeCalls, storeCalls_map_healed, ← committedBatches_storeCalls]

theorem cleanup_lockstep (env env0 : Env) (posts : List Post) (a : FormData) (e : Post)
    (hnow : env.now = env0.now) (hurl : env.urlOf = env0.urlOf)
    (hagree : ∀ kev ∈ (run env posts (handleUpdatePost posts a e)).st.trace.enum,
      kev.2.call.isDelete = false → env.fails kev.1 = env0.fails kev.1) :
    (run env posts (handleUpdatePost posts a e)).result =
      (run env0 posts (handleUpdatePost posts a e)).result ∧
    (run env posts (handleUpdatePost posts a e)).st.Sim
      (run env0 posts (handleUpdatePost posts a e)).st := by
  apply (handleUpdatePost_lock posts a e env env0).2 hnow hurl (St.init posts) (St.init posts)
    (St.Sim.rfl_of _)
  intro k ev hk _ hd
  exact hagree (k, ev) (List.mk_mem_enum_iff_getElem?.mpr hk) hd

theorem healed_eq_self_of_logs {tr0 tr : List Event} {env0 : Env}
    (hmap : tr.map Event.healed = tr0.map Event.healed)
    (hlog : ∀ k ev, tr0[k]? = some ev → ev.ok = (env0.fails k).isNone)
    (hdel : ∀ kev ∈ tr.enum, kev.2.call.isDelete = true → env0.fails kev.1 = none) :
    tr0.map Event.healed = tr0 := by
  have hlen : tr.length = tr0.length := by
    simpa using congrArg List.length hmap
  apply List.ext_getElem (by simp)
  intro k h1 h2
  rw [List.getElem_map]
  by_cases hd : tr0[k].call.isDelete = true
  · have hk : k < tr.length := by rw [hlen]; exact h2
    have hcall : tr[k].call = tr0[k].call := by
      have h3 : (tr.map Event.healed)[k]? = (tr0.map Event.healed)[k]? := by rw [hmap]
      rw [List.getElem?_map, List.getElem?_map, List.getElem?_eq_getElem hk,
        List.getElem?_eq_getElem h2] at h3
      simp only [Option.map_some', Option.some.injEq] at h3
      have := congrArg Event.call h3
      rwa [Event.healed_call, Event.healed_call] at this
    have hnone := hdel (k, tr[k]) (List.mk_mem_enum_iff_getElem?.mpr
      (List.getElem?_eq_getElem hk)) (by rw [hcall]; exact hd)
    have hok := hlog k tr0[k] (List.getElem?_eq_getElem h2)
    simp only at hnone
    rw [hnone] at hok
    unfold Event.healed
    rw [hd, if_pos rfl]
    cases h : tr0[k] with
    | mk c b =>
      rw [h] at hok
      simp only [Option.isNone_none] at hok
      simp only [hok]
  · exact Event.healed_of_not_delete (by simpa using hd)

/-- Claim C14. Blob cleanup is non-fatal in update: take any run of
`handleUpdatePost`, and the run in an environment that differs from its own only on
the blob deletions, which all succeed there. The two runs end with the same result
and the same alerts, the trace of the second is the trace of the first with every
blob deletion resolved, and so they made the same uploads and URL lookups and the
same record-store calls, and committed the same batches. -/
theorem cleanup_nonfatal (env env0 : Env) (posts : List Post) (a : FormData) (e : Post)
    (hnow : env.now = env0.now) (hurl : env.urlOf = env0.urlOf)
    (hagree : ∀ kev ∈ (run env posts (handleUpdatePost posts a e)).st.trace.enum,
      kev.2.call.isDelete = false → env.fails kev.1 = env0.fails kev.1)
    (hdel : ∀ kev ∈ (run env posts (handleUpdatePost posts a e)).st.trace.enum,
      kev.2.call.isDelete = true → env0.fails kev.1 = none) :
    (run env posts (handleUpdatePost posts a e)).result =
      (run env0 posts (handleUpdatePost posts a e)).result ∧
    (run env posts (handleUpdatePost posts a e)).st.alerts =
      (run env0 posts (handleUpdatePost posts a e)).st.alerts ∧
    (run env0 posts (handleUpdatePost posts a e)).st.trace =
      (run env posts (handleUpdatePost posts a e)).st.trace.map Event.healed ∧
    uploads (run env posts (handleUpdatePost posts a e)).st.trace =
      uploads (run env0 posts (handleUpdatePost posts a e)).st.trace ∧
    storeCalls (run env posts (handleUpdatePost posts a e)).st.trace =
      storeCalls (run env0 posts (handleUpdatePost posts a e)).st.trace ∧
    committedBatches (run env posts (handleUpdatePost posts a e)).st.trace =
      committedBatches (run env0 posts (handleUpdatePost posts a e)).st.trace := by
  obtain ⟨hres, hmap, -, -, halerts⟩ := cleanup_lockstep env env0 posts a e hnow hurl hagree
  obtain ⟨new, htr, hlog⟩ := (handleUpdatePost_lock posts a e env env0).1 env0 (St.init posts)
  have htr0 : (run env0 posts (handleUpdatePost posts a e)).st.trace = new := by
    rw [← List.nil_append new]; exact htr
  have hlog0 : ∀ k ev, (run env0 posts (handleUpdatePost posts a e)).st.trace[k]? = some ev →
      ev.ok = (env0.fails k).isNone := by
    intro k ev hk
    rw [htr0] at hk
    have := hlog k ev hk
    simpa using this
  have hself := healed_eq_self_of_logs hmap hlog0 hdel
  have heq : (run env0 posts (handleUpdatePost posts a e)).st.trace =
      (run env posts (handleUpdatePost posts a e)).st.trace.map Event.healed := by
    rw [hmap, hself]
  refine ⟨hres, halerts, heq, ?_, ?_, ?_⟩
  · rw [heq, uploads_map_healed]
  · rw [heq, storeCalls_map_healed]
  · rw [heq, committedBatches_map_healed]

/-- Witness of C14: editing B with a new image and a new content file when the
deletion of the previous image rejects; the run is compared with the run in which no
call rejects. -/
theorem cleanup_nonfatal_witness :
    (run failFirstEnv samplePosts
      (handleUpdatePost samplePosts sampleForm (samplePost "B" 1))).st.trace.map
        (fun ev => (ev.call.isDelete, ev.ok)) =
      [(true, false), (false, true), (false, true), (true, true), (false, true), (false, true),
       (false, true)] ∧
    (run failFirstEnv samplePosts
        (handleUpdatePost samplePosts sampleForm (samplePost "B" 1))).result = Except.ok () ∧
    committedBatches (run failFirstEnv samplePosts
        (handleUpdatePost samplePosts sampleForm (samplePost "B" 1))).st.trace =
      committedBatches (run sampleEnv samplePosts
        (handleUpdatePost samplePosts sampleForm (samplePost "B" 1))).st.trace :=
  ⟨by decide, by decide,
   (cleanup_nonfatal failFirstEnv sampleEnv samplePosts sampleForm (samplePost "B" 1) rfl rfl
      (by decide) (by decide)).2.2.2.2.2⟩

/-! ## Loading: order of the retained list -/

/-- Claim C15, the code at the failing input: the snapshot holds Y (order 0, created
at 200) before X (order 0, created at 100), as the query (order ascending, createdAt
descending) returns them; the list `fetchPosts` keeps has the older X first. -/
theorem load_tie_break_oldest_first :
    (loadedPostList [sampleDoc "Y" (some 0) 200, sampleDoc "X" (some 0) 100]).map
      (fun p => (p.id, p.order, createdAtMillis p)) = [("X", 0, 100), ("Y", 1, 200)] ∧
    (run sampleEnv [] (fetchPosts
      [sampleDoc "Y" (some 0) 200, sampleDoc "X" (some 0) 100])).st.posts.map
      (fun p => (p.id, p.order, createdAtMillis p)) = [("X", 0, 100), ("Y", 1, 200)] := by
  decide

theorem sequenced_enum_renumber (l : List Post) :
    Sequenced (l.enum.map (fun ip => ({ ip.2 with order := (ip.1 : Int) } : Post))) := by
  unfold Sequenced
  rw [List.map_map, List.length_map, List.enum_length]
  have : (Post.order ∘ fun (ip : Nat × Post) => ({ ip.2 with order := (ip.1 : Int) } : Post)) =
      Int.ofNat ∘ Prod.fst := by
    funext ip; rfl
  rw [this, ← List.map_map, List.enum_map_fst]

theorem ids_enum_renumber (l : List Post) :
    (l.enum.map (fun ip => ({ ip.2 with order := (ip.1 : Int) } : Post))).map Post.id =
      l.map Post.id := by
  rw [List.map_map]
  have : (Post.id ∘ fun (ip : Nat × Post) => ({ ip.2 with order := (ip.1 : Int) } : Post)) =
      Post.id ∘ Prod.snd := by
    funext ip; rfl
  rw [this, ← List.map_map, List.enum_map_snd]

theorem snapshotPosts_ids (docs : List DocSnapshot) :
    (snapshotPosts docs).map Post.id = docs.map DocSnapshot.id := by
  unfold snapshotPosts
  rw [List.map_map]
  have : (Post.id ∘ fun (ip : Nat × DocSnapshot) => ip.2.toPost ip.1) =
      DocSnapshot.id ∘ Prod.snd := by
    funext ip; rfl
  rw [this, ← List.map_map, List.enum_map_snd]

theorem sequenced_of_any_false (l : List Post)
    (h : l.enum.any (fun ip => decide (ip.2.order ≠ (ip.1 : Int))) = false) : Sequenced l := by
  unfold Sequenced
  apply List.ext_getElem
  · simp
  · intro i h1 h2
    rw [List.any_eq_false] at h
    have hi : i < l.length := by simpa using h1
    have hm : (i, l[i]) ∈ l.enum := List.mk_mem_enum_iff_getElem?.mpr (List.getElem?_eq_getElem hi)
    have := h _ hm
    simp only [ne_eq, decide_not, Bool.not_eq_true, Bool.not_eq_eq_eq_not, Bool.not_true,
      decide_eq_false_iff_not, not_not] at this
    simp only [List.getElem_map, List.getElem_range]
    exact this

theorem any_false_of_sequenced (l : List Post) (h : Sequenced l) :
    l.enum.any (fun ip => decide (ip.2.order ≠ (ip.1 : Int))) = false := by
  rw [List.any_eq_false]
  rintro ⟨i, p⟩ hm
  have hg := List.mk_mem_enum_iff_getElem?.mp hm
  obtain ⟨hi, hp⟩ := List.getElem?_eq_some_iff.mp hg
  have := Sequenced.order_getElem h i hi
  simp only [ne_eq, decide_not, Bool.not_eq_true, Bool.not_eq_eq_eq_not, Bool.not_true,
    decide_eq_false_iff_not, not_not]
  rw [← hp]; exact this

theorem loadedPostList_eq (docs : List DocSnapshot) :
    loadedPostList docs =
      if (snapshotPosts docs).enum.any (fun ip => decide (ip.2.order ≠ (ip.1 : Int))) = true ∧
          (snapshotPosts docs).length > 0 then
        (((snapshotPosts docs).insertionSort (fun a b => compareLoaded a b ≤ 0)).enum).map
          (fun ip => { ip.2 with order := (ip.1 : Int) })
      else snapshotPosts docs := rfl

theorem loadedPostList_sequenced (docs : List DocSnapshot) : Sequenced (loadedPostList docs) := by
  rw [loadedPostList_eq]
  split
  · exact sequenced_enum_renumber _
  · rename_i h
    rw [not_and_or] at h
    rcases h with h | h
    · apply sequenced_of_any_false
      simpa using h
    · have : snapshotPosts docs = [] := by
        apply List.eq_nil_of_length_eq_zero; omega
      rw [this]; decide

theorem loadedPostList_ids_perm (docs : List DocSnapshot) :
    ((loadedPostList docs).map Post.id).Perm (docs.map DocSnapshot.id) := by
  rw [loadedPostList_eq]
  split
  · rw [ids_enum_renumber, ← snapshotPosts_ids]
    exact (List.perm_insertionSort _ _).map _
  · rw [snapshotPosts_ids]

theorem snapshotPosts_sequenced (docs : List DocSnapshot)
    (h : ∀ (i : Nat) (hi : i < docs.length), docs[i].order = some (i : Int) ∨ docs[i].order = none) :
    Sequenced (snapshotPosts docs) := by
  unfold Sequenced snapshotPosts
  apply List.ext_getElem
  · simp
  · intro i h1 h2
    have hi : i < docs.length := by simpa using h1
    simp only [List.getElem_map, List.getElem_range, List.getElem_enum]
    unfold DocSnapshot.toPost
    rcases h i hi with ho | ho <;> simp [ho]

theorem loadedPostList_unchanged (docs : List DocSnapshot)
    (h : ∀ (i : Nat) (hi : i < docs.length), docs[i].order = some (i : Int) ∨ docs[i].order = none) :
    loadedPostList docs = snapshotPosts docs := by
  rw [loadedPostList_eq, any_false_of_sequenced _ (snapshotPosts_sequenced docs h)]
  simp

theorem fetchPosts_posts (env : Env) (posts : List Post) (docs : List DocSnapshot)
    (hq : env.fails 0 = none) :
    run env posts (fetchPosts docs) =
      { result := Except.ok (),
        st := { trace := [⟨Call.getDocs, true⟩], posts := loadedPostList docs,
                isLoading := false, alerts := [] } } := by
  simp [run, fetchPosts, getDocs, perform, setPosts, setIsLoading, Eff.tryFinally, Eff.tryCatch,
    St.init, bind, Eff.andThen, hq]

/-- Claim C17. Loaded state always dense: when the query resolves, the list that
`fetchPosts` retains is a permutation (by id) of the loaded snapshot in which the
post at index i has order i; and when the loaded orders already equal their indices
(a missing order counts as the index), it is the loaded sequence itself, unchanged. -/
theorem loaded_state_dense (env : Env) (posts : List Post) (docs : List DocSnapshot)
    (hq : env.fails 0 = none) :
    (run env posts (fetchPosts docs)).result = Except.ok () ∧
    (((run env posts (fetchPosts docs)).st.posts).map Post.id).Perm (docs.map DocSnapshot.id) ∧
    Sequenced (run env posts (fetchPosts docs)).st.posts ∧
    ((∀ (i : Nat) (hi : i < docs.length),
        docs[i].order = some (i : Int) ∨ docs[i].order = none) →
      (run env posts (fetchPosts docs)).st.posts = snapshotPosts docs) := by
  rw [fetchPosts_posts env posts docs hq]
  exact ⟨rfl, loadedPostList_ids_perm docs, loadedPostList_sequenced docs,
    loadedPostList_unchanged docs⟩

/-- Witness of C17: a snapshot with orders 5, missing, 2 is retained as B, C, A with
orders 0, 1, 2; a snapshot with orders 0, missing, 2 is retained as loaded. -/
theorem loaded_state_dense_witness :
    sampleEnv.fails 0 = none ∧
    (run sampleEnv [] (fetchPosts [sampleDoc "A" (some 5) 3, sampleDoc "B" none 2,
      sampleDoc "C" (some 2) 1])).st.posts.map (fun p => (p.id, p.order)) =
      [("B", 0), ("C", 1), ("A", 2)] ∧
    (run sampleEnv [] (fetchPosts [sampleDoc "A" (some 0) 3, sampleDoc "B" none 2,
      sampleDoc "C" (some 2) 1])).st.posts.map (fun p => (p.id, p.order)) =
      [("A", 0), ("B", 1), ("C", 2)] ∧
    Sequenced (run sampleEnv [] (fetchPosts [sampleDoc "A" (some 5) 3, sampleDoc "B" none 2,
      sampleDoc "C" (some 2) 1])).st.posts :=
  ⟨rfl, by decide, by decide,
   (loaded_state_dense sampleEnv [] [sampleDoc "A" (some 5) 3, sampleDoc "B" none 2,
      sampleDoc "C" (some 2) 1] rfl).2.2.1⟩

/-! ## Update: the content fields of the batch -/

theorem updateContent_unit (a : FormData) (e : Post) (f : PostFields) (env : Env) (st : St) :
    (updateContent a e f).Emits env st (fun new r =>
      BlobOnly new ∧
      ∀ f1, r = Except.ok f1 → f1.order = f.order ∧
        (a.newContent → f1.contentAll) ∧ (¬ a.newContent → f1 = f)) := by
  unfold updateContent
  apply Eff.Emits.of_sat
  split
  · rename_i cf heq
    have hnew : a.newContent := by
      left
      by_cases h : a.contentType = "file"
      · rw [if_pos h] at heq
        exact ⟨h, by rw [heq]; simp⟩
      · rw [if_neg h] at heq; cases heq
    refine Eff.Sat.bind_emits (deleteOldContent_emits e env st) ?_ ?_
    · rintro new - ⟨-, h1, h2⟩
      repeat' first
        | apply Eff.Sat.dateNow_bind_any
        | apply Eff.Sat.getDownloadURL_bind
        | apply Eff.Sat.perform_bind
        | intro _
      all_goals first | apply Eff.Sat.ret | skip
      all_goals try simp only [St.extend_extend, List.append_assoc, List.singleton_append,
        List.cons_append, List.nil_append]
      all_goals refine ⟨_, rfl, ?_⟩
      all_goals simp_all [PostFields.contentAll]
    · rintro new err ⟨h, -⟩
      cases h
  · rename_i heq
    apply Eff.Sat.ite
    · intro hc
      have hnew : a.newContent := Or.inr hc
      refine Eff.Sat.bind_emits (deleteOldContent_emits e env st) ?_ ?_
      · rintro new - ⟨-, h1, h2⟩
        apply Eff.Sat.ret
        refine ⟨_, rfl, ?_⟩
        simp_all [PostFields.contentAll]
      · rintro new err ⟨h, -⟩
        cases h
    · intro hc
      have hnew : ¬ a.newContent := by
        rintro (⟨h1, h2⟩ | h)
        · rw [if_pos h1] at heq; exact h2 heq
        · exact hc h
      apply Eff.Sat.ret
      refine ⟨[], (St.extend_nil _).symm, ?_⟩
      simp [hnew]

/-- Every run of `handleUpdatePost`: it issues no record-store call, or exactly one,
the commit of the batch built from the field object `f`, which has all three
content keys when the form supplies new content and none of them otherwise. -/
theorem handleUpdatePost_unit_sat (env : Env) (posts : List Post) (a : FormData) (e : Post) :
    (handleUpdatePost posts a e).Sat env (St.init posts) (fun r st1 =>
      (storeCalls st1.trace = [] ∧ r ≠ Except.ok ()) ∨
      ∃ f b, storeCalls st1.trace =
          [⟨Call.batchCommit (batchUpdates posts e f a.targetOrder), b⟩] ∧
        f.order = none ∧ (a.newContent → f.contentAll) ∧ (¬ a.newContent → f.contentNone) ∧
        (r = Except.ok () ↔ b = true)) := by
  unfold handleUpdatePost
  refine Eff.Sat.bind_emits (updateImage_emits a e _ env _) ?_ ?_
  · rintro n1 f1 ⟨hb1, hd1, hf1⟩
    obtain ⟨ho1, hu1, hc1, hx1⟩ := hf1 f1 rfl
    refine Eff.Sat.bind_emits (updateContent_unit a e f1 env _) ?_ ?_
    · rintro n2 f2 ⟨hb2, hf2⟩
      obtain ⟨ho2, hall, hnone⟩ := hf2 f2 rfl
      have hfo : f2.order = none := by rw [ho2, ho1]; rfl
      have hfn : ¬ a.newContent → f2.contentNone := by
        intro hn
        rw [hnone hn]
        exact ⟨by rw [hu1]; rfl, by rw [hc1]; rfl, by rw [hx1]; rfl⟩
      apply Eff.Sat.perform_bind
      · apply Eff.Sat.alert
        right
        exact ⟨f2, true, by simp [hb1.storeCalls_eq, hb2.storeCalls_eq], hfo, hall, hfn, by simp⟩
      · intro err
        right
        exact ⟨f2, false, by simp [hb1.storeCalls_eq, hb2.storeCalls_eq], hfo, hall, hfn,
          by simp⟩
    · rintro n2 err ⟨hb2, -⟩
      left
      exact ⟨by simp [hb1.storeCalls_eq, hb2.storeCalls_eq], by simp⟩
  · rintro n1 err ⟨hb1, -⟩
    left
    exact ⟨by simp [hb1.storeCalls_eq], by simp⟩

theorem mem_jsSplice_self {α : Type} (xs : List α) (t : Int) (x : α) : x ∈ jsSplice xs t x := by
  unfold jsSplice
  simp

theorem mem_jsSplice {α : Type} {xs : List α} {t : Int} {x y : α} (h : y ∈ jsSplice xs t x) :
    y = x ∨ y ∈ xs := by
  unfold jsSplice at h
  simp only [List.mem_append, List.mem_cons] at h
  rcases h with h | h | h
  · exact Or.inr (List.mem_of_mem_take h)
  · exact Or.inl h
  · exact Or.inr (List.mem_of_mem_drop h)

theorem contentNone_empty_with_order (o : Option Int) :
    ({ PostFields.empty with order := o } : PostFields).contentNone := ⟨rfl, rfl, rfl⟩

/-- The batch of `handleUpdatePost` built from a field object `f` without order key:
each write has the content keys of `f` and is addressed to the edited record, or has
no content key; and a write with the content keys of `f` addressed to the edited
record is in the batch. -/
theorem batchUpdates_content (posts : List Post) (e : Post) (f : PostFields) (t : Option Int)
    (hfo : f.order = none) :
    (∀ w ∈ batchUpdates posts e f t,
      (w.1 = e.id ∧ w.2.fileUrl = f.fileUrl ∧ w.2.contentFileName = f.contentFileName ∧
        w.2.isExternalLink = f.isExternalLink) ∨ w.2.contentNone) ∧
    (∃ w ∈ batchUpdates posts e f t,
      w.1 = e.id ∧ w.2.fileUrl = f.fileUrl ∧ w.2.contentFileName = f.contentFileName ∧
        w.2.isExternalLink = f.isExternalLink) := by
  cases t with
  | none =>
    simp only [batchUpdates, List.mem_singleton]
    exact ⟨fun w hw => Or.inl (by rw [hw]; exact ⟨rfl, rfl, rfl, rfl⟩),
      _, rfl, rfl, rfl, rfl, rfl⟩
  | some t =>
    by_cases hne : t = e.order
    · simp only [batchUpdates, hne, ne_eq, not_true_eq_false, if_false, hfo, if_true]
      refine ⟨?_, _, List.mem_cons_self _ _, rfl, rfl, rfl, rfl⟩
      intro w hw
      rcases List.mem_cons.mp hw with h | h
      · rw [h]; exact Or.inl ⟨rfl, rfl, rfl, rfl⟩
      · rw [List.mem_singleton.mp h]; exact Or.inr (contentNone_empty_with_order _)
    · rw [batchUpdates_move posts e f t hne]
      constructor
      · intro w hw
        rw [List.mem_filterMap] at hw
        obtain ⟨ip, -, hg⟩ := hw
        unfold moveWrite at hg
        split at hg
        · split at hg
          · rename_i hid
            cases hg; exact Or.inl ⟨hid, rfl, rfl, rfl⟩
          · cases hg; exact Or.inr (contentNone_empty_with_order _)
        · cases hg
      · have hm := mem_jsSplice_self (posts.filter (fun p => decide (p.id ≠ e.id))) t
          (e.merge { f with order := some t })
        obtain ⟨i, hi, hget⟩ := List.getElem_of_mem hm
        have hmem : (i, e.merge { f with order := some t }) ∈
            (jsSplice (posts.filter (fun p => decide (p.id ≠ e.id))) t
              (e.merge { f with order := some t })).enum := by
          rw [List.mk_mem_enum_iff_getElem?, List.getElem?_eq_getElem hi, hget]
        refine ⟨(e.id, { ({ f with order := some t } : PostFields) with order := some (i : Int) }),
          ?_, rfl, rfl, rfl, rfl⟩
        rw [List.mem_filterMap]
        refine ⟨_, hmem, ?_⟩
        have hid : (e.merge { f with order := some t }).id = e.id := rfl
        simp only [moveWrite, hid, or_true, if_true]

theorem merge_contentNone (p : Post) {f : PostFields} (hf : f.contentNone) :
    (p.merge f).contentLink = p.contentLink := by
  obtain ⟨h1, h2, h3⟩ := hf
  simp [Post.merge, Post.contentLink, h1, h2, h3]

theorem applyWrites_contentNone (ws : List (String × PostFields))
    (hws : ∀ w ∈ ws, w.2.contentNone) (p : Post) :
    (applyWrites ws p).contentLink = p.contentLink := by
  induction ws generalizing p with
  | nil => rfl
  | cons w ws ih =>
    rw [applyWrites_cons, ih (fun w1 hw1 => hws w1 (List.mem_cons_of_mem _ hw1))]
    split
    · exact merge_contentNone p (hws w (List.mem_cons_self _ _))
    · rfl

theorem applyTrace_single (env : Env) (store : List Post) (trace : List Event)
    (c : Call) (b : Bool) (h : storeCalls trace = [⟨c, b⟩]) :
    applyTrace env store trace = if b then applyCall env store c else store := by
  rw [applyTrace_storeCalls, h]
  rfl

/-- Claim C16. Content fields are written as a unit in update: in every run of
`handleUpdatePost`, each write of the batch it commits holds all three of
`fileUrl`, `contentFileName` and `isExternalLink` or none of them, and only a write
for the edited record holds them; the batch holds such a write for the edited record
exactly when the form supplies new content, so with no new content (type "file"
with no content file, or type "url" with an empty URL) no write holds a content
field and the content link of every stored record is left unchanged. A run that
resolves has committed such a batch. -/
theorem content_written_as_unit (env : Env) (store posts : List Post) (a : FormData)
    (e : Post) :
    (∀ ws b, (⟨Call.batchCommit ws, b⟩ : Event) ∈
        (run env posts (handleUpdatePost posts a e)).st.trace →
      (∀ w ∈ ws, w.2.contentAll ∨ w.2.contentNone) ∧
      (∀ w ∈ ws, w.2.contentAll → w.1 = e.id) ∧
      ((∃ w ∈ ws, w.1 = e.id ∧ w.2.contentAll) ↔ a.newContent) ∧
      ((∀ w ∈ ws, w.2.contentNone) ↔ ¬ a.newContent)) ∧
    ((run env posts (handleUpdatePost posts a e)).result = Except.ok () →
      ∃ ws, (⟨Call.batchCommit ws, true⟩ : Event) ∈
        (run env posts (handleUpdatePost posts a e)).st.trace) ∧
    (¬ a.newContent →
      (applyTrace env store (run env posts (handleUpdatePost posts a e)).st.trace).map
        Post.contentLink = store.map Post.contentLink) ∧
    ((a.contentType = "file" ∨ a.contentType = "url") →
      (¬ a.newContent ↔ (a.contentType = "file" ∧ a.contentFile = none) ∨
        (a.contentType = "url" ∧ jsTruthy a.externalUrl = false))) := by
  have hsat := Eff.Sat.outcome (handleUpdatePost_unit_sat env posts a e)
  refine ⟨?_, ?_, ?_, ?_⟩
  · intro ws b hmem
    have hsc : (⟨Call.batchCommit ws, b⟩ : Event) ∈
        storeCalls (run env posts (handleUpdatePost posts a e)).st.trace := by
      unfold storeCalls
      rw [List.mem_filter]
      exact ⟨hmem, rfl⟩
    rcases hsat with ⟨h0, -⟩ | ⟨f, b1, hst, hfo, hall, hnone, -⟩
    · rw [h0] at hsc; cases hsc
    · rw [hst, List.mem_singleton] at hsc
      have hws : ws = batchUpdates posts e f a.targetOrder := by
        injection hsc with h1 h2
        injection h1
      obtain ⟨hshape, w0, hw0, hw0id, hw01, hw02, hw03⟩ :=
        batchUpdates_content posts e f a.targetOrder hfo
      rw [hws]
      by_cases hn : a.newContent
      · obtain ⟨ha1, ha2, ha3⟩ := hall hn
        refine ⟨?_, ?_, ?_, ?_⟩
        · intro w hw
          rcases hshape w hw with ⟨-, h1, h2, h3⟩ | h
          · exact Or.inl ⟨by rw [h1]; exact ha1, by rw [h2]; exact ha2, by rw [h3]; exact ha3⟩
          · exact Or.inr h
        · intro w hw hwa
          rcases hshape w hw with ⟨h, -⟩ | h
          · exact h
          · exact absurd h.1 hwa.1
        · exact ⟨fun _ => hn, fun _ => ⟨w0, hw0, hw0id,
            by rw [hw01]; exact ha1, by rw [hw02]; exact ha2, by rw [hw03]; exact ha3⟩⟩
        · constructor
          · intro h
            have := (h w0 hw0).1
            rw [hw01] at this
            exact absurd this ha1
          · intro h; exact absurd hn h
      · obtain ⟨hn1, hn2, hn3⟩ := hnone hn
        have hall0 : ∀ w ∈ batchUpdates posts e f a.targetOrder, w.2.contentNone := by
          intro w hw
          rcases hshape w hw with ⟨-, h1, h2, h3⟩ | h
          · exact ⟨by rw [h1]; exact hn1, by rw [h2]; exact hn2, by rw [h3]; exact hn3⟩
          · exact h
        refine ⟨fun w hw => Or.inr (hall0 w hw), ?_, ?_, ?_⟩
        · intro w hw hwa
          exact absurd (hall0 w hw).1 hwa.1
        · constructor
          · rintro ⟨w, hw, -, hwa⟩
            exact absurd (hall0 w hw).1 hwa.1
          · intro h; exact absurd h hn
        · exact ⟨fun _ => hn, fun _ => hall0⟩
  · intro hok
    rcases hsat with ⟨-, h⟩ | ⟨f, b, hst, -, -, -, hb⟩
    · exact absurd hok h
    · refine ⟨batchUpdates posts e f a.targetOrder, ?_⟩
      have : (⟨Call.batchCommit (batchUpdates posts e f a.targetOrder), b⟩ : Event) ∈
          storeCalls (run env posts (handleUpdatePost posts a e)).st.trace := by
        rw [hst]; exact List.mem_singleton_self _
      rw [hb.mp hok] at this
      exact (List.mem_filter.mp this).1
  · intro hn
    rcases hsat with ⟨h0, -⟩ | ⟨f, b, hst, hfo, -, hnone, -⟩
    · rw [applyTrace_of_storeCalls_nil env store _ h0]
    · rw [applyTrace_single env store _ _ b hst]
      cases b with
      | false => rfl
      | true =>
        simp only [if_true]
        rw [applyCall_batchCommit, List.map_map]
        apply List.map_congr_left
        intro p _
        apply applyWrites_contentNone
        intro w hw
        obtain ⟨hn1, hn2, hn3⟩ := hnone hn
        rcases (batchUpdates_content posts e f a.targetOrder hfo).1 w hw with ⟨-, h1, h2, h3⟩ | h
        · exact ⟨by rw [h1]; exact hn1, by rw [h2]; exact hn2, by rw [h3]; exact hn3⟩
        · exact h
  · intro hct
    unfold FormData.newContent
    rcases hct with h | h
    · have h2 : a.contentType ≠ "url" := by rw [h]; decide
      simp [h]
    · have h2 : a.contentType ≠ "file" := by rw [h]; decide
      simp [h]

/-- Witness of C16: editing B with a new content file writes the three content keys
to B in one write; editing it with type "file" and no file writes none of them and
leaves the content links of the store as they were. -/
theorem content_written_as_unit_witness :
    (∃ ws, (⟨Call.batchCommit ws, true⟩ : Event) ∈
        (run sampleEnv samplePosts
          (handleUpdatePost samplePosts sampleForm (samplePost "B" 1))).st.trace ∧
      (∃ w ∈ ws, w.1 = "B" ∧ w.2.contentAll) ∧ ∀ w ∈ ws, w.2.contentAll ∨ w.2.contentNone) ∧
    (¬ ({ sampleForm with contentFile := none } : FormData).newContent ∧
      (applyTrace sampleEnv samplePosts (run sampleEnv samplePosts
        (handleUpdatePost samplePosts { sampleForm with contentFile := none }
          (samplePost "B" 1))).st.trace).map Post.contentLink =
        samplePosts.map Post.contentLink) :=
  ⟨by
      obtain ⟨ws, hws⟩ := (content_written_as_unit sampleEnv samplePosts samplePosts sampleForm
        (samplePost "B" 1)).2.1 (by decide)
      have h := (content_written_as_unit sampleEnv samplePosts samplePosts sampleForm
        (samplePost "B" 1)).1 ws true hws
      exact ⟨ws, hws, h.2.2.1.mpr (by decide), h.1⟩,
   by decide,
   (content_written_as_unit sampleEnv samplePosts samplePosts
      { sampleForm with contentFile := none } (samplePost "B" 1)).2.2.1 (by decide)⟩

/-! ## External-link posts: the blob deletions -/

theorem updateImage_deletes (a : FormData) (e : Post) (f : PostFields) (env : Env) (st : St) :
    (updateImage a e f).Emits env st (fun new _ =>
      BlobOnly new ∧
      blobDeletes new = if a.imageFile.isSome then imagePaths e else []) := by
  unfold updateImage
  cases a.imageFile with
  | none => exact ⟨[], (St.extend_nil st).symm, by simp, by simp⟩
  | some img =>
    apply Eff.Emits.of_sat
    simp only [Eff.pure_bind_eq]
    repeat' first
      | apply Eff.Sat.dateNow_bind_any
      | apply Eff.Sat.tryDeleteObject_bind
      | apply Eff.Sat.getDownloadURL_bind
      | apply Eff.Sat.perform_bind
      | apply Eff.Sat.ite
      | intro _
    all_goals first | apply Eff.Sat.ret | skip
    all_goals try simp only [St.extend_extend, List.append_assoc, List.singleton_append,
      List.cons_append, List.nil_append]
    all_goals refine ⟨_, rfl, ?_⟩
    all_goals simp_all [imagePaths]

/-- Every run of `handleUpdatePost` on an external-link post: its blob deletions are
the deletion of the previous image when a new image file is supplied, and none
otherwise. -/
theorem handleUpdatePost_deletes_sat (env : Env) (posts : List Post) (a : FormData) (e : Post)
    (hx : e.isExternalLink = true) :
    (handleUpdatePost posts a e).Sat env (St.init posts) (fun _ st1 =>
      blobDeletes st1.trace = if a.imageFile.isSome then imagePaths e else []) := by
  unfold handleUpdatePost
  refine Eff.Sat.bind_emits (updateImage_deletes a e _ env _) ?_ ?_
  · rintro n1 f1 ⟨-, hd1⟩
    refine Eff.Sat.bind_emits (updateContent_emits a e f1 env _) ?_ ?_
    · rintro n2 f2 ⟨-, hd2, -⟩
      apply Eff.Sat.perform_bind
      · apply Eff.Sat.alert
        simp [hd1, hd2 hx]
      · intro err
        simp [hd1, hd2 hx]
    · rintro n2 err ⟨-, hd2, -⟩
      simp [hd1, hd2 hx]
  · rintro n1 err ⟨-, hd1⟩
    simp [hd1]

/-- Every run of `handleDeletePost` on an external-link post with an id: its blob
deletions are the deletion of the image when `deleteDoc` resolved, and none
otherwise. -/
theorem handleDeletePost_deletes_sat (env : Env) (posts : List Post) (d : Post)
    (hid : d.id ≠ "") (hx : d.isExternalLink = true) :
    (handleDeletePost posts (some d)).Sat env (St.init posts) (fun _ st1 =>
      blobDeletes st1.trace = if env.fails 0 = none then imagePaths d else []) := by
  unfold handleDeletePost
  simp only [hid, if_false, Eff.pure_bind_eq]
  apply Eff.Sat.setIsLoading_bind
  apply Eff.Sat.tryFinally
  apply Eff.Sat.tryCatch
  apply Eff.Sat.perform_bind_at
  · intro h0
    have h1 : env.fails 0 = none := h0
    repeat' first
      | apply Eff.Sat.tryDeleteObject_bind
      | apply Eff.Sat.setPosts_bind
      | apply Eff.Sat.perform_bind
      | apply Eff.Sat.ite
      | intro _
    all_goals first | apply Eff.Sat.alert | skip
    all_goals simp_all [Eff.Sat.pure_iff, imagePaths, St.extend, St.init]
  · intro err h0
    have h1 : env.fails 0 = some err := h0
    simp [Eff.Sat.pure_iff, St.extend, St.init, h1]

theorem post_images_ne_post_files (x y : String) :
    "post_images/" ++ x ≠ "post_files/" ++ y := by
  intro h
  have h1 := congrArg String.data h
  rw [String.data_append, String.data_append] at h1
  have h2 : "post_images/".data = ['p', 'o', 's', 't', '_', 'i', 'm', 'a', 'g', 'e', 's', '/'] :=
    by decide
  have h3 : "post_files/".data = ['p', 'o', 's', 't', '_', 'f', 'i', 'l', 'e', 's', '/'] :=
    by decide
  rw [h2, h3] at h1
  simp at h1

theorem mem_imagePaths_post_files {e : Post} {name : String}
    (h : "post_files/" ++ name ∈ imagePaths e) :
    jsTruthy e.imageFileName = false ∧ e.imageUrl = some ("post_files/" ++ name) := by
  unfold imagePaths at h
  by_cases h1 : jsTruthy e.imageFileName = true
  · rw [if_pos h1, List.mem_singleton] at h
    exact absurd h.symm (post_images_ne_post_files _ _)
  · rw [if_neg h1] at h
    refine ⟨by simpa using h1, ?_⟩
    by_cases h2 : jsTruthy e.imageUrl = true
    · rw [if_pos h2, List.mem_singleton] at h
      cases hu : e.imageUrl with
      | none => rw [hu] at h2; cases h2
      | some u => rw [hu] at h; rw [h]; rfl
    · rw [if_neg h2] at h
      cases h

/-- Counterexample to C9: an external-link post without image file name whose image
URL is also its content URL. Deleting the post, and editing it with a new image,
issue a `deleteObject` on that URL, which is the post's `fileUrl`. -/
theorem external_fileUrl_deleted_counterexample :
    sampleAliasPost.isExternalLink = true ∧
    sampleAliasPost.fileUrl = some "https://blob/pictures/m.png" ∧
    blobDeletes (run sampleEnv [sampleAliasPost]
      (handleDeletePost [sampleAliasPost] (some sampleAliasPost))).st.trace =
      ["https://blob/pictures/m.png"] ∧
    blobDeletes (run sampleEnv [sampleAliasPost]
      (handleUpdatePost [sampleAliasPost] sampleForm sampleAliasPost)).st.trace =
      ["https://blob/pictures/m.png"] := by
  decide

/-- Claim C9, amended. External content is never deleted as content: for a post with
`isExternalLink = true`, the `deleteObject` calls of a `handleUpdatePost` run (any
form) are exactly the deletion of the previous image when a new image file is
supplied, and those of a `handleDeletePost` run exactly the deletion of the image
when `deleteDoc` resolved; the image is addressed as `post_images/<imageFileName>`,
or as `imageUrl` when there is no file name. So every deleted path is the image path,
and a path `post_files/...` is deleted only when the post has no image file name and
that path is its `imageUrl`. -/
theorem external_content_not_deleted (env : Env) (posts : List Post) (a : FormData)
    (e : Post) (hx : e.isExternalLink = true) :
    (blobDeletes (run env posts (handleUpdatePost posts a e)).st.trace =
      if a.imageFile.isSome then imagePaths e else []) ∧
    (blobDeletes (run env posts (handleDeletePost posts (some e))).st.trace =
      if e.id ≠ "" ∧ env.fails 0 = none then imagePaths e else []) ∧
    (∀ path, path ∈ blobDeletes (run env posts (handleUpdatePost posts a e)).st.trace ∨
        path ∈ blobDeletes (run env posts (handleDeletePost posts (some e))).st.trace →
      path ∈ imagePaths e) ∧
    (∀ name,
      "post_files/" ++ name ∈
          blobDeletes (run env posts (handleUpdatePost posts a e)).st.trace ∨
        "post_files/" ++ name ∈
          blobDeletes (run env posts (handleDeletePost posts (some e))).st.trace →
      jsTruthy e.imageFileName = false ∧ e.imageUrl = some ("post_files/" ++ name)) := by
  have hupd := Eff.Sat.outcome (handleUpdatePost_deletes_sat env posts a e hx)
  have hdel : blobDeletes (run env posts (handleDeletePost posts (some e))).st.trace =
      if e.id ≠ "" ∧ env.fails 0 = none then imagePaths e else [] := by
    by_cases hid : e.id = ""
    · have : (run env posts (handleDeletePost posts (some e))).st.trace = [] := by
        show (handleDeletePost posts (some e) env (St.init posts)).2.trace = []
        simp only [handleDeletePost, hid, if_true]
        rfl
      rw [this]
      simp [hid]
    · rw [Eff.Sat.outcome (handleDeletePost_deletes_sat env posts e hid hx)]
      simp [hid]
  have hmem : ∀ path,
      path ∈ blobDeletes (run env posts (handleUpdatePost posts a e)).st.trace ∨
        path ∈ blobDeletes (run env posts (handleDeletePost posts (some e))).st.trace →
      path ∈ imagePaths e := by
    intro path h
    rcases h with h | h
    · rw [hupd] at h
      split at h
      · exact h
      · cases h
    · rw [hdel] at h
      split at h
      · exact h
      · cases h
  exact ⟨hupd, hdel, hmem, fun name h => mem_imagePaths_post_files (hmem _ h)⟩

/-- Witness of the amended C9 on an external-link post with an image file name:
replacing its image and switching its content to a file deletes only the old image,
and deleting it deletes only its image. -/
theorem external_content_not_deleted_witness :
    blobDeletes (run sampleEnv [sampleLinkPost]
      (handleUpdatePost [sampleLinkPost] sampleForm sampleLinkPost)).st.trace =
      ["post_images/L.png"] ∧
    blobDeletes (run sampleEnv [sampleLinkPost]
      (handleDeletePost [sampleLinkPost] (some sampleLinkPost))).st.trace =
      ["post_images/L.png"] ∧
    imagePaths sampleLinkPost = ["post_images/L.png"] ∧
    (∀ path, path ∈ blobDeletes (run sampleEnv [sampleLinkPost]
          (handleUpdatePost [sampleLinkPost] sampleForm sampleLinkPost)).st.trace ∨
        path ∈ blobDeletes (run sampleEnv [sampleLinkPost]
          (handleDeletePost [sampleLinkPost] (some sampleLinkPost))).st.trace →
      path ∈ imagePaths sampleLinkPost) :=
  ⟨by decide, by decide, by decide,
   (external_content_not_deleted sampleEnv [sampleLinkPost] sampleForm sampleLinkPost
      rfl).2.2.1⟩

end ShowFolio
